import Mathlib

/-! # logsec: log daemon and chroot confinement

A shallow embedding of `logsec.go`.

* The confinement call `Chroot` (with its helper `changeID`) is a sequential
  function of its config and of the outcomes of the operating-system calls it
  makes; it yields the list of operations it attempts, in order, and its
  boolean result.
* The log daemon `LogDaemon` and the goroutines it starts run in a process
  model: a `World` holding the package globals (`mutexLogD`, `waitLogD`, the
  four channels), the goroutines, and the caller thread, advanced one
  operation at a time by a schedule.
-/

namespace Logsec

/-! ## Types -/

/-- The config struct `LogD`. -/
structure LogD where
  App : String
  LogMode : String
  FileName : String
  ErrorRateLimit : Int
  deriving DecidableEq, Repr

/-- The config struct `ChrootD`. -/
structure ChrootD where
  DIR : String
  UID : Int
  GID : Int
  deriving DecidableEq, Repr

/-- The package-level channels `LogErr`, `LogInfo`, `LogDebug`, `fileCons`. -/
inductive Chan where
  | LogErr
  | LogInfo
  | LogDebug
  | fileCons
  deriving DecidableEq, Repr

/-- The goroutine closures started by the four backends, in source order. -/
inductive Task where
  | muteInfo
  | muteErr
  | muteDebug
  | consInfo
  | consErr
  | consDebug
  | syslInfo
  | syslErr
  | syslDebug
  | fileWriter
  | fileInfo
  | fileDebug
  | fileErr
  deriving DecidableEq, Repr

/-- The syslog priorities used by `sysl`. -/
inductive Priority where
  | LOG_INFO
  | LOG_ERR
  | LOG_DEBUG
  deriving DecidableEq, Repr

/-- One operation attempted by a thread of the process: a system call, a
console write, or an operation on one of the package globals. -/
inductive Op where
  | stdout (text : String)
  | lstat (path : String)
  | mkdir (path : String) (perm : Nat)
  | chdir (path : String)
  | wgWait
  | chroot (path : String)
  | send (ch : Chan) (msg : String)
  | chown (path : String) (uid gid : Int)
  | chmod (path : String) (perm : Nat)
  | setgid (gid : Int)
  | setuid (uid : Int)
  | writeFile (name data : String) (perm : Nat)
  | remove (name : String)
  | ret (ok : Bool)
  | tryLock (ok : Bool)
  | wgAdd (delta : Int)
  | go (t : Task) (c : LogD)
  | unlock
  | panic (msg : String)
  | dial (p : Priority) (app : String) (ok : Bool)
  | wgDone
  | recv (ch : Chan) (msg : String)
  | sleep (d : Int)
  | syslog (p : Priority) (line : String)
  | openFile (name : String) (ok : Bool)
  | fileWrite (data : String) (ok : Bool)
  deriving DecidableEq, Repr

/-- Outcomes of the operating-system calls one `Chroot` call can make:
`isDir` is the result of the helper `isDir` (Lstat succeeds and the mode is a
directory), the other flags say whether the call of that name returns a nil
error, and `pid` is the value of `os.Getpid()`. -/
structure OS where
  isDir : Bool
  mkdir : Bool
  chdir : Bool
  chroot : Bool
  chown : Bool
  chmod : Bool
  setgid : Bool
  setuid : Bool
  writeFile : Bool
  pid : Int
  deriving DecidableEq, Repr

/-! ## Console IO -/

/-- The function `strconv.Itoa`. -/
def Itoa (i : Int) : String := toString i

/-- The function `Show`: writes `in + "\n"` to standard output. -/
def Show (s : String) : Op := Op.stdout (s ++ "\n")

/-- The function `ShowInf`. -/
def ShowInf (s : String) : Op := Show ("[INFO]  : " ++ s)

/-- The function `ShowErr`. -/
def ShowErr (s : String) : Op := Show ("[ERROR] : " ++ s)

/-- The function `ShowDebug`. -/
def ShowDebug (s : String) : Op := Show ("[DEBUG] : " ++ s)

/-! ## Confinement -/

/-- The operations a function has attempted so far, in order, and `false`
once it has executed `return false`. -/
abbrev Run := List Op × Bool

/-- A statement that attempts `op` and goes on whatever the outcome. -/
def call (op : Op) : Run := ([op], true)

/-- The statement `if err := op; err != nil { report; return false }`, where
`ok` says whether the operating system lets `op` succeed. -/
def attempt (op : Op) (ok : Bool) (report : Op) : Run :=
  if ok then ([op], true) else ([op, report], false)

/-- Sequential composition: `next` runs unless `first` has returned false. -/
def andThen (first next : Run) : Run :=
  if first.2 then (first.1 ++ next.1, next.2) else first

/-- A block of statements executed in order. -/
def seq : List Run → Run
  | [] => ([], true)
  | r :: rs => andThen r (seq rs)

/-- The function `isWriteable(file)`: `os.WriteFile(file, "test", 0o660)` and the deferred
`os.Remove(file)`, which runs whether or not the write succeeded; the result
is whether the write succeeded. -/
def isWriteable (file : String) (os : OS) : List Op × Bool :=
  ([Op.writeFile file "test" 0o660, Op.remove file], os.writeFile)

/-- The function `changeID`: the operations attempted and the result. -/
def changeID (c : ChrootD) (os : OS) : Run :=
  seq [
    if c.DIR ≠ "" then
      seq [
        attempt (Op.chown "." c.UID c.GID) os.chown
          (ShowErr "unable to change owner/group for chroot folder"),
        attempt (Op.chmod "." 0o770) os.chmod
          (ShowErr "unable to change owner/group for store")]
    else seq [],
    attempt (Op.setgid c.GID) os.setgid (ShowErr "priv drop gid number error"),
    attempt (Op.setuid c.UID) os.setuid (ShowErr "priv drop uid number error")]

/-- The `switch c.DIR` statement of `Chroot` (source lines 74-94): the
unsafe-mode warning when `DIR` is empty, otherwise directory setup, the wait
on `waitLogD` and the root change. -/
def chrootDir (c : ChrootD) (os : OS) : Run :=
  if c.DIR = "" then
    call (ShowInf "UNSAFE MODE: CHANGEROOT IS DISABLED VIA CONFIG!")
  else
    seq [
      call (Op.lstat c.DIR),
      if !os.isDir then
        attempt (Op.mkdir c.DIR 0o770) os.mkdir
          (ShowErr ("unable to create chroot dir [" ++ c.DIR ++ "]"))
      else seq [],
      attempt (Op.chdir c.DIR) os.chdir (ShowErr ("unable to change to [" ++ c.DIR ++ "]")),
      call Op.wgWait,
      attempt (Op.chroot ".") os.chroot (ShowErr ("chroot error [" ++ c.DIR ++ "]")),
      call (Op.send Chan.LogInfo
        ("[chroot:success] [chrootdir:" ++ c.DIR ++ "] [pid:" ++ Itoa os.pid ++ "]"))]

/-- The statements of `Chroot` after the credential drop (source lines
98-101): the writability probe, its warning, and the final notice. -/
def chrootEnd (c : ChrootD) (os : OS) : Run :=
  seq [
    ((isWriteable "testfile" os).1, true),
    if !(isWriteable "testfile" os).2 then
      call (ShowInf "unable to write within [current dir]")
    else seq [],
    call (Op.send Chan.LogInfo ("[uid:" ++ Itoa c.UID ++ "] [gid:" ++ Itoa c.GID ++ "]"))]

/-- The function `Chroot`: the operations attempted, in order, and the result. The
credential drop `changeID` runs only when `c.UID != 0 && c.GID != 0`. -/
def Chroot (c : ChrootD) (os : OS) : Run :=
  seq [
    chrootDir c os,
    if c.UID ≠ 0 ∧ c.GID ≠ 0 then changeID c os else seq [],
    chrootEnd c os]

/-- Whether the operating system makes the operation fail, for the steps of
`Chroot` whose error is checked. -/
def failed (os : OS) : Op → Bool
  | Op.mkdir _ _ => !os.mkdir
  | Op.chdir _ => !os.chdir
  | Op.chroot _ => !os.chroot
  | Op.chown _ _ _ => !os.chown
  | Op.chmod _ _ => !os.chmod
  | Op.setgid _ => !os.setgid
  | Op.setuid _ => !os.setuid
  | _ => false

/-- The steps of the confinement sequence: everything but the directory
lookup, console writes, channel sends and the return. -/
def isStep : Op → Bool
  | Op.mkdir _ _ => true
  | Op.chdir _ => true
  | Op.wgWait => true
  | Op.chroot _ => true
  | Op.chown _ _ _ => true
  | Op.chmod _ _ => true
  | Op.setgid _ => true
  | Op.setuid _ => true
  | Op.writeFile _ _ _ => true
  | Op.remove _ => true
  | _ => false

/-- The full confinement sequence for a config, the writability probe being
the write of `testfile` and its removal. -/
def confinementSteps (c : ChrootD) : List Op :=
  [Op.mkdir c.DIR 0o770, Op.chdir c.DIR, Op.wgWait, Op.chroot ".",
   Op.chown "." c.UID c.GID, Op.chmod "." 0o770, Op.setgid c.GID, Op.setuid c.UID,
   Op.writeFile "testfile" "test" 0o660, Op.remove "testfile"]

/-- The operations of the credential stage `changeID`. -/
def isCred : Op → Bool
  | Op.chown _ _ _ => true
  | Op.chmod _ _ => true
  | Op.setgid _ => true
  | Op.setuid _ => true
  | _ => false

/-- The effective user and group id of the process after it attempted `ops`
starting from `id`: a successful `setgid g` makes the group id `g`, a
successful `setuid u` makes the user id `u`, nothing else changes them. -/
def identityAfter (os : OS) : List Op → Int × Int → Int × Int
  | [], id => id
  | Op.setgid g :: rest, id => identityAfter os rest (if os.setgid then (id.1, g) else id)
  | Op.setuid u :: rest, id => identityAfter os rest (if os.setuid then (u, id.2) else id)
  | _ :: rest, id => identityAfter os rest id

/-! ## Log daemon -/

/-- The backend initializer `mute`: the operations of the caller, the deferred `mutexLogD.Unlock()`
running last. -/
def mute (c : LogD) : List Op :=
  [ShowInf "syslog events disabled - unable to log any backend events",
   Op.go Task.muteInfo c, Op.go Task.muteErr c, Op.go Task.muteDebug c,
   Op.unlock]

/-- The backend initializer `cons`. -/
def cons (c : LogD) : List Op :=
  [Op.go Task.consInfo c, Op.go Task.consErr c, Op.go Task.consDebug c,
   Op.unlock]

/-- The backend initializer `sysl`. -/
def sysl (c : LogD) : List Op :=
  [Op.go Task.syslInfo c, Op.go Task.syslErr c, Op.go Task.syslDebug c,
   Op.unlock]

/-- The backend initializer `file`. -/
def file (c : LogD) : List Op :=
  [Op.go Task.fileWriter c, Op.go Task.fileInfo c, Op.go Task.fileDebug c,
   Op.go Task.fileErr c,
   Op.unlock]

/-- The function `LogDaemon`: the operations of the caller, where `locked` says whether
`mutexLogD` is held when `TryLock` is called. The process stops at a panic,
so the operations listed after one are never performed. -/
def LogDaemon (c : LogD) (locked : Bool) : List Op :=
  if c.LogMode = "" then []
  else if locked then [Op.tryLock false, Op.send Chan.LogInfo "LogD already up & running"]
  else
    [Op.tryLock true, Op.wgAdd 3] ++
    (if c.LogMode = "MUTE" then mute c
     else if c.LogMode = "CONSOLE" then cons c
     else if c.LogMode = "SYSLOG" then sysl c
     else if c.LogMode = "FILE" then file c
     else [Op.panic ("log daemon - unable to continue [logmode:invalid:" ++ c.LogMode ++ "]")]) ++
    [Op.wgWait]

/-! ## The process -/

/-- Where a goroutine stands in its closure: `start` before its first
statement, `dialed` (goroutines of `sysl`) after `slog` has returned, `ready`
at the head of its `for msg := range ch` loop, `busy msg` in the loop body
with the message just received. -/
inductive Pc where
  | start
  | dialed
  | ready
  | busy (msg : String)
  deriving DecidableEq, Repr

/-- A goroutine: its closure, the config it captured, and where it stands. -/
structure Goroutine where
  code : Task
  cfg : LogD
  pc : Pc
  deriving DecidableEq, Repr

/-- The threads of the process: the caller of the API, the goroutines in the
order they were started, and the other goroutines of the program that submit
log messages. -/
inductive Tid where
  | caller
  | task (i : Nat)
  | producer
  deriving DecidableEq, Repr

/-- A call of the API made by the caller thread; a `Chroot` call comes with
the outcomes of the system calls it will make. -/
inductive Call where
  | LogDaemon (c : LogD)
  | Chroot (c : ChrootD) (os : OS)
  deriving DecidableEq, Repr

/-- The state of the process: the package globals, the goroutines started so
far, the operations left in the API call in progress, the API calls still to
be made, what every thread has done so far, and the panic that stopped the
process if any. -/
structure World where
  mutexLogD : Bool
  waitLogD : Int
  LogErr : List String
  LogInfo : List String
  LogDebug : List String
  fileCons : List String
  tasks : List Goroutine
  script : List Op
  calls : List Call
  trace : List (Tid × Op)
  panicked : Option String
  deriving DecidableEq, Repr

/-- A fresh process about to make the calls `calls`: the mutex is free, the
`WaitGroup` counter is zero, the channels are empty. -/
def World.init (calls : List Call) : World :=
  { mutexLogD := false, waitLogD := 0, LogErr := [], LogInfo := [], LogDebug := [],
    fileCons := [], tasks := [], script := [], calls := calls, trace := [],
    panicked := none }

/-- The capacity of each channel (`make(chan string, 100)`). -/
def chanCap : Nat := 100

/-- The messages buffered in a channel. -/
def World.chan (w : World) : Chan → List String
  | Chan.LogErr => w.LogErr
  | Chan.LogInfo => w.LogInfo
  | Chan.LogDebug => w.LogDebug
  | Chan.fileCons => w.fileCons

/-- Replace the buffer of a channel. -/
def World.setChan (w : World) (ch : Chan) (q : List String) : World :=
  match ch with
  | Chan.LogErr => { w with LogErr := q }
  | Chan.LogInfo => { w with LogInfo := q }
  | Chan.LogDebug => { w with LogDebug := q }
  | Chan.fileCons => { w with fileCons := q }

/-- The call `WaitGroup.Add(delta)`: the counter changes by `delta`, and a negative
counter panics. -/
def World.wgAdd (w : World) (delta : Int) : World :=
  if w.waitLogD + delta < 0 then
    { w with waitLogD := w.waitLogD + delta,
             panicked := some "sync: negative WaitGroup counter" }
  else { w with waitLogD := w.waitLogD + delta }

/-- The effect of an operation of the caller thread on the state, or `none`
when the operation blocks: `Wait` blocks until the counter is zero, a send
blocks while the channel is full. -/
def effect (w : World) : Op → Option World
  | Op.wgWait => if w.waitLogD = 0 then some w else none
  | Op.send ch msg =>
    if (w.chan ch).length < chanCap then some (w.setChan ch (w.chan ch ++ [msg])) else none
  | Op.wgAdd delta => some (w.wgAdd delta)
  | Op.tryLock ok => some (if ok then { w with mutexLogD := true } else w)
  | Op.unlock => some { w with mutexLogD := false }
  | Op.go t c => some { w with tasks := w.tasks ++ [{ code := t, cfg := c, pc := Pc.start }] }
  | Op.panic msg => some { w with panicked := some msg }
  | _ => some w

/-- The caller performs `op`, after which `rest` is left of the call in
progress and `calls` are still to be made; nothing happens if `op` blocks. -/
def perform (op : Op) (rest : List Op) (calls : List Call) (w : World) : World :=
  match effect w op with
  | none => w
  | some w' => { w' with script := rest, calls := calls, trace := w'.trace ++ [(Tid.caller, op)] }

/-- The operations of an API call, `TryLock` seeing the mutex as it is. -/
def callScript (w : World) : Call → List Op
  | Call.LogDaemon c => LogDaemon c w.mutexLogD
  | Call.Chroot c os => (Chroot c os).1 ++ [Op.ret (Chroot c os).2]

/-- One step of the caller thread: the next operation of the call in
progress, or the first operation of the next call. -/
def stepCaller (w : World) : World :=
  match w.script with
  | op :: rest => perform op rest w.calls w
  | [] =>
    match w.calls with
    | [] => w
    | call :: calls =>
      match callScript w call with
      | [] => { w with calls := calls }
      | op :: rest => perform op rest calls w

/-- What the environment answers to the goroutine taking a step: whether the
system call made in the step (dial, open, write) succeeds, the error text
otherwise, and the formatted time `time.Now().Format(time.RFC3339)`. -/
structure Env where
  ok : Bool
  err : String
  now : String
  deriving DecidableEq, Repr

/-- The channel a goroutine ranges over. -/
def Task.chan : Task → Chan
  | Task.muteInfo => Chan.LogInfo
  | Task.muteErr => Chan.LogErr
  | Task.muteDebug => Chan.LogDebug
  | Task.consInfo => Chan.LogInfo
  | Task.consErr => Chan.LogErr
  | Task.consDebug => Chan.LogDebug
  | Task.syslInfo => Chan.LogInfo
  | Task.syslErr => Chan.LogErr
  | Task.syslDebug => Chan.LogDebug
  | Task.fileWriter => Chan.fileCons
  | Task.fileInfo => Chan.LogInfo
  | Task.fileDebug => Chan.LogDebug
  | Task.fileErr => Chan.LogErr

/-- The syslog priority a goroutine of `sysl` dials with. -/
def Task.priority : Task → Option Priority
  | Task.syslInfo => some Priority.LOG_INFO
  | Task.syslErr => some Priority.LOG_ERR
  | Task.syslDebug => some Priority.LOG_DEBUG
  | _ => none

/-- Whether the closure calls `waitLogD.Done()`: all but the file writer. -/
def Task.signals : Task → Bool
  | Task.fileWriter => false
  | _ => true

/-- The call `strings.Split(msg, "\n")`. -/
def splitLines (msg : String) : List String := msg.splitOn "\n"

/-- The outcome of one step of a goroutine: the operations it performs and
where it stands afterwards, a panic, or nothing when it is blocked. -/
inductive Outcome where
  | blocked
  | moved (ops : List Op) (pc : Pc)
  | crashed (ops : List Op) (msg : String)
  deriving DecidableEq, Repr

/-- The loop body of a goroutine for the message `msg` it has received. -/
def handle (t : Task) (c : LogD) (e : Env) (fileConsLen : Nat) (msg : String) : Outcome :=
  match t with
  | Task.muteInfo => Outcome.moved [] Pc.ready
  | Task.muteErr => Outcome.moved [Op.sleep c.ErrorRateLimit] Pc.ready
  | Task.muteDebug => Outcome.moved [] Pc.ready
  | Task.consInfo => Outcome.moved [ShowInf msg] Pc.ready
  | Task.consErr => Outcome.moved [ShowErr msg, Op.sleep c.ErrorRateLimit] Pc.ready
  | Task.consDebug => Outcome.moved [ShowDebug msg] Pc.ready
  | Task.syslInfo =>
    Outcome.moved ((splitLines msg).map (Op.syslog Priority.LOG_INFO)) Pc.ready
  | Task.syslErr =>
    Outcome.moved ((splitLines msg).map (Op.syslog Priority.LOG_ERR) ++
      [Op.sleep c.ErrorRateLimit]) Pc.ready
  | Task.syslDebug =>
    Outcome.moved ((splitLines msg).map (Op.syslog Priority.LOG_DEBUG)) Pc.ready
  | Task.fileWriter =>
    if e.ok then Outcome.moved [Op.fileWrite (msg ++ "\n") true] Pc.ready
    else Outcome.crashed [Op.fileWrite (msg ++ "\n") false]
      ("log daemon - unable to continue [log:file] [unable to write to log file] [" ++
        c.FileName ++ "]")
  | Task.fileInfo =>
    if fileConsLen < chanCap then
      Outcome.moved [Op.send Chan.fileCons ("[" ++ e.now ++ "] [INFO]  : " ++ msg)] Pc.ready
    else Outcome.blocked
  | Task.fileDebug =>
    if fileConsLen < chanCap then
      Outcome.moved [Op.send Chan.fileCons ("[" ++ e.now ++ "] [DEBUG] : " ++ msg)] Pc.ready
    else Outcome.blocked
  | Task.fileErr =>
    if fileConsLen < chanCap then
      Outcome.moved [Op.send Chan.fileCons ("[" ++ e.now ++ "] [ERROR] : " ++ msg),
        Op.sleep c.ErrorRateLimit] Pc.ready
    else Outcome.blocked

/-- One step of a goroutine standing at `pc`, given the head of the channel
it ranges over and the length of `fileCons`. -/
def advance (t : Task) (c : LogD) (e : Env) (head : Option String) (fileConsLen : Nat) :
    Pc → Outcome
  | Pc.start =>
    match t.priority with
    | some p =>
      if e.ok then Outcome.moved [Op.dial p c.App true] Pc.dialed
      else Outcome.crashed
        [Op.dial p c.App false, ShowErr ("unable to create info log [" ++ e.err ++ "]")]
        "log deamon terminated - unable to continue"
    | none =>
      if t = Task.fileWriter then
        if e.ok then Outcome.moved [Op.openFile c.FileName true] Pc.ready
        else Outcome.crashed [Op.openFile c.FileName false]
          "log daemon - unable to continue [log:file] [unable to create log file]"
      else Outcome.moved [Op.wgDone] Pc.ready
  | Pc.dialed => Outcome.moved [Op.wgDone] Pc.ready
  | Pc.ready =>
    match head with
    | some msg => Outcome.moved [Op.recv t.chan msg] (Pc.busy msg)
    | none => Outcome.blocked
  | Pc.busy msg => handle t c e fileConsLen msg

/-- The effect of an operation of a goroutine on the package globals. -/
def taskEffect (w : World) : Op → World
  | Op.wgDone => w.wgAdd (-1)
  | Op.recv ch _ => w.setChan ch (w.chan ch).tail
  | Op.send ch msg => w.setChan ch (w.chan ch ++ [msg])
  | _ => w

/-- One step of goroutine `i`. -/
def stepTask (i : Nat) (e : Env) (w : World) : World :=
  match w.tasks.get? i with
  | none => w
  | some g =>
    match advance g.code g.cfg e (w.chan g.code.chan).head? w.fileCons.length g.pc with
    | Outcome.blocked => w
    | Outcome.moved ops pc =>
      let w' := ops.foldl taskEffect w
      { w' with tasks := w'.tasks.set i { g with pc := pc },
                trace := w'.trace ++ ops.map (fun op => (Tid.task i, op)) }
    | Outcome.crashed ops msg =>
      { w with trace := w.trace ++ ops.map (fun op => (Tid.task i, op)),
               panicked := some msg }

/-- A goroutine outside the package submits `msg` on one of the exported
channels; nothing happens while the channel is full. -/
def stepProducer (ch : Chan) (msg : String) (w : World) : World :=
  if ch ≠ Chan.fileCons ∧ (w.chan ch).length < chanCap then
    { w.setChan ch (w.chan ch ++ [msg]) with
      trace := w.trace ++ [(Tid.producer, Op.send ch msg)] }
  else w

/-- The scheduler's choice of the thread that takes the next step. -/
inductive Choice where
  | caller
  | task (i : Nat) (e : Env)
  | produce (ch : Chan) (msg : String)
  deriving DecidableEq, Repr

/-- One step of the process; a process that has panicked takes no step. -/
def step (w : World) (ch : Choice) : World :=
  if w.panicked.isSome then w
  else
    match ch with
    | Choice.caller => stepCaller w
    | Choice.task i e => stepTask i e w
    | Choice.produce c msg => stepProducer c msg w

/-- The state of the process after the steps of a schedule. -/
def run (sched : List Choice) (w : World) : World := sched.foldl step w

/-- The text written to the log file so far (successful writes, in order). -/
def fileText : List (Tid × Op) → List String
  | [] => []
  | (_, Op.fileWrite data true) :: rest => data :: fileText rest
  | _ :: rest => fileText rest

/-- The number of readiness signals in a trace: the `waitLogD.Done()` calls
of the goroutines. -/
def dones : List (Tid × Op) → Nat
  | [] => 0
  | (Tid.task _, Op.wgDone) :: rest => dones rest + 1
  | _ :: rest => dones rest

/-- The sum of the deltas of the `waitLogD.Add` calls of the caller in a
trace. -/
def adds : List (Tid × Op) → Int
  | [] => 0
  | (Tid.caller, Op.wgAdd n) :: rest => adds rest + n
  | _ :: rest => adds rest

/-! ## Predicates used in the proofs -/

/-- A run in which every failed step is the last step attempted, followed
only by a console report, and makes the result false. -/
def Aborting (os : OS) (r : Run) : Prop :=
  ∀ op ∈ r.1, failed os op = true →
    r.2 = false ∧ ∃ pre msg, r.1 = pre ++ [op, Op.stdout msg]

/-- The credential-drop statement of `Chroot` (source line 95). -/
def chrootCred (c : ChrootD) (os : OS) : Run :=
  if c.UID ≠ 0 ∧ c.GID ≠ 0 then changeID c os else seq []

/-- The position of a step in the confinement sequence. -/
def rank : Op → Nat
  | Op.mkdir _ _ => 0
  | Op.chdir _ => 1
  | Op.wgWait => 2
  | Op.chroot _ => 3
  | Op.chown _ _ _ => 4
  | Op.chmod _ _ => 5
  | Op.setgid _ => 6
  | Op.setuid _ => 7
  | Op.writeFile _ _ _ => 8
  | Op.remove _ => 9
  | _ => 10

/-- What `waitLogD.Add` adds when the caller performs `op`. -/
def opAdd : Op → Int
  | Op.wgAdd n => n
  | _ => 0

/-- The goroutine started when the caller performs `op`. -/
def opGo : Op → List Goroutine
  | Op.go t c => [{ code := t, cfg := c, pc := Pc.start }]
  | _ => []

/-- Whether a goroutine has yet to call `waitLogD.Done()`. -/
def Goroutine.owes (g : Goroutine) : Bool :=
  (g.code.signals && g.pc == Pc.start) || g.pc == Pc.dialed

/-- The number of goroutines that have yet to call `waitLogD.Done()`. -/
def pending : List Goroutine → Nat
  | [] => 0
  | g :: rest => (if g.owes then 1 else 0) + pending rest

/-- The number of signalling goroutines a script has yet to start. -/
def goCount : List Op → Nat
  | [] => 0
  | Op.go t _ :: rest => (if t.signals then 1 else 0) + goCount rest
  | _ :: rest => goCount rest

/-- The number of `waitLogD.Done()` calls among the operations of a step. -/
def doneCount : List Op → Nat
  | [] => 0
  | Op.wgDone :: rest => doneCount rest + 1
  | _ :: rest => doneCount rest

/-- Whether an operation is `waitLogD.Add`. -/
def isAdd : Op → Bool
  | Op.wgAdd _ => true
  | _ => false

/-- The state of the mutex after the caller performs `op`. -/
def opMutex : Op → Bool → Bool
  | Op.tryLock true, _ => true
  | Op.unlock, _ => false
  | _, m => m

/-- The operations that occur in a `Chroot` call: system calls on the
file system and the credentials, console writes, channel sends, the wait on
`waitLogD` and the return. -/
def plain : Op → Bool
  | Op.stdout _ => true
  | Op.lstat _ => true
  | Op.mkdir _ _ => true
  | Op.chdir _ => true
  | Op.wgWait => true
  | Op.chroot _ => true
  | Op.send _ _ => true
  | Op.chown _ _ _ => true
  | Op.chmod _ _ => true
  | Op.setgid _ => true
  | Op.setuid _ => true
  | Op.writeFile _ _ _ => true
  | Op.remove _ => true
  | Op.ret _ => true
  | _ => false

/-- What `waitLogD.Add` adds when the caller performs the head of a script. -/
def headAdd : List Op → Int
  | op :: _ => opAdd op
  | [] => 0

/-- What the `LogDaemon` calls among `calls` will add to `waitLogD`: 3 for
each call with a non-empty `LogMode`. -/
def expected : List Call → Int
  | [] => 0
  | Call.LogDaemon c :: rest => (if c.LogMode = "" then 0 else 3) + expected rest
  | Call.Chroot _ _ :: rest => expected rest

/-- Whether an operation is `mutexLogD.TryLock()`. -/
def isTryLock : Op → Bool
  | Op.tryLock _ => true
  | _ => false

/-- Whether an operation is the root change. -/
def isChroot : Op → Bool
  | Op.chroot _ => true
  | _ => false

/-- Whether an operation is a panic. -/
def isPanic : Op → Bool
  | Op.panic _ => true
  | _ => false

/-- What holds of the process while it has not panicked. -/
structure Live (prog : List Call) (w : World) : Prop where
  owed : (pending w.tasks + goCount w.script : Int) ≤ w.waitLogD + headAdd w.script
  addHead : ∀ x ∈ w.script.tail, isAdd x = false
  noAdd : 0 < pending w.tasks → headAdd w.script = 0
  waitP : 0 < pending w.tasks → Op.wgWait ∈ w.script
  waitG : 0 < goCount w.script → Op.wgWait ∈ w.script
  noTry : ∀ x ∈ w.script, isTryLock x = false
  mutex : w.mutexLogD = true → ∃ x ∈ w.script, x = Op.unlock ∨ isPanic x = true
  total : adds w.trace + headAdd w.script + expected w.calls = expected prog
  root : ∀ pre p post, w.script = pre ++ Op.chroot p :: post →
    Op.wgWait ∈ pre ∨
      (w.waitLogD = 0 ∧ pending w.tasks = 0 ∧ goCount w.script = 0 ∧ headAdd w.script = 0)

/-- The invariant of the process running the calls `prog`: the counter of
`waitLogD` is what the caller added minus the readiness signals of the
goroutines and is never negative, the caller never adds more than its
`LogDaemon` calls ask for, `TryLock` never fails, and the calls still to be
made are the end of `prog`, the one in progress being a `Chroot` call whenever
a root change is ahead. -/
structure Inv (prog : List Call) (w : World) : Prop where
  count : w.waitLogD = adds w.trace - dones w.trace
  nonneg : 0 ≤ w.waitLogD
  bound : adds w.trace ≤ expected prog
  locked : (Tid.caller, Op.tryLock false) ∉ w.trace
  suffix : ∃ done, prog = done ++ w.calls
  inCall : ∀ x ∈ w.script, ∃ done call, prog = done ++ call :: w.calls ∧
    (isChroot x = true → ∃ c os, call = Call.Chroot c os)
  live : w.panicked = none → Live prog w

/-- What holds of the readiness signals of each goroutine: a goroutine that
still owes its signal has not sent it, one that no longer owes it (and is not
the file writer) has, no goroutine sends it twice, and the file writer never
sends it. -/
structure TaskInv (w : World) : Prop where
  early : ∀ i g, w.tasks.get? i = some g → g.owes = true →
    (Tid.task i, Op.wgDone) ∉ w.trace
  beyond : ∀ i, w.tasks.get? i = none → (Tid.task i, Op.wgDone) ∉ w.trace
  once : ∀ i, w.trace.count (Tid.task i, Op.wgDone) ≤ 1
  late : ∀ i g, w.tasks.get? i = some g → g.owes = false → g.code.signals = true →
    (Tid.task i, Op.wgDone) ∈ w.trace
  writer : ∀ i g, w.tasks.get? i = some g → g.code = Task.fileWriter →
    (Tid.task i, Op.wgDone) ∉ w.trace ∧ g.pc ≠ Pc.dialed

/-- An environment in which every system call of a goroutine succeeds. -/
def okEnv : Env := { ok := true, err := "", now := "" }

/-- The part of the state that decides what the caller and a goroutine that
has not yet signalled do next: no panic, the operations left of the call in
progress, the goroutines, and the counter of `waitLogD`. -/
def At (w : World) (script : List Op) (tasks : List Goroutine) (n : Int) : Prop :=
  w.panicked = none ∧ w.script = script ∧ w.tasks = tasks ∧ w.waitLogD = n

/-- The operations of a backend initializer: console writes, `go` statements
and the deferred unlock. -/
def isInit : Op → Bool
  | Op.stdout _ => true
  | Op.go _ _ => true
  | Op.unlock => true
  | _ => false

/-- What the formatter of `file` that ranges over a channel puts between
the time stamp and the message. -/
def fileTag : Chan → String
  | Chan.LogInfo => "] [INFO]  : "
  | Chan.LogDebug => "] [DEBUG] : "
  | Chan.LogErr => "] [ERROR] : "
  | Chan.fileCons => ""

/-- A formatted line: a time stamp, the tag of a severity channel, and a
message that a goroutine has received on that channel. -/
def Line (tr : List (Tid × Op)) (x : String) : Prop :=
  ∃ j ch now m, ch ≠ Chan.fileCons ∧ (Tid.task j, Op.recv ch m) ∈ tr ∧
    x = "[" ++ now ++ fileTag ch ++ m

/-- Whether an operation is a send on `fileCons` or a write to the log
file. -/
def isFileOp : Op → Bool
  | Op.send Chan.fileCons _ => true
  | Op.fileWrite _ _ => true
  | _ => false

/-- What holds of the log file: the caller never sends on `fileCons` nor
writes to the file, what
is buffered in `fileCons` and what the file writer has in hand are formatted
lines, a goroutine in its loop body holds a message it received on its
channel, and every write to the file is a formatted line and a newline. -/
structure FileInv (w : World) : Prop where
  script : ∀ x ∈ w.script, isFileOp x = false
  buf : ∀ x ∈ w.fileCons, Line w.trace x
  got : ∀ i g m, w.tasks.get? i = some g → g.pc = Pc.busy m →
    (Tid.task i, Op.recv g.code.chan m) ∈ w.trace
  busy : ∀ i g m, w.tasks.get? i = some g → g.code = Task.fileWriter → g.pc = Pc.busy m →
    Line w.trace m
  written : ∀ tid data ok, (tid, Op.fileWrite data ok) ∈ w.trace →
    ∃ x, Line w.trace x ∧ data = x ++ "\n"

/-- The goroutines an API call starts when it finds the guard free. -/
def spawns : Call → List Goroutine
  | Call.LogDaemon c => (LogDaemon c false).flatMap opGo
  | Call.Chroot _ _ => []

/-- Every goroutine of the process, started or about to be started, is one
that a call of the program starts, and the calls left are calls of the
program. -/
structure GoInv (prog : List Call) (w : World) : Prop where
  tasks : ∀ g ∈ w.tasks, ∃ call ∈ prog, (⟨g.code, g.cfg, Pc.start⟩ : Goroutine) ∈ spawns call
  script : ∀ x ∈ w.script, ∀ g ∈ opGo x, ∃ call ∈ prog, g ∈ spawns call
  calls : ∀ call ∈ w.calls, call ∈ prog

/-! ## Sequencing lemmas -/

theorem andThen_fst (a b : Run) :
    (andThen a b).1 = a.1 ++ (if a.2 then b.1 else []) := by
  unfold andThen
  cases h : a.2 <;> simp

theorem andThen_snd (a b : Run) : (andThen a b).2 = (a.2 && b.2) := by
  unfold andThen
  cases h : a.2 <;> simp [h]

theorem Chroot_ops (c : ChrootD) (os : OS) :
    (Chroot c os).1 = (chrootDir c os).1 ++
      (if (chrootDir c os).2 then
        (chrootCred c os).1 ++ (if (chrootCred c os).2 then (chrootEnd c os).1 else [])
       else []) := by
  simp only [Chroot, seq, andThen_fst, andThen_snd, chrootCred]
  cases (chrootEnd c os).2 <;> simp

theorem chrootEnd_result (c : ChrootD) (os : OS) : (chrootEnd c os).2 = true := by
  cases h : os.writeFile <;> simp [chrootEnd, seq, andThen, call, isWriteable, h]

theorem Chroot_result (c : ChrootD) (os : OS) :
    (Chroot c os).2 = ((chrootDir c os).2 && (chrootCred c os).2) := by
  simp only [Chroot, seq, andThen_snd, chrootCred, chrootEnd_result]
  simp

theorem aborting_andThen (os : OS) (a b : Run) (ha : Aborting os a) (hb : Aborting os b) :
    Aborting os (andThen a b) := by
  unfold andThen
  by_cases h : a.2 = true
  · simp only [h, if_true]
    intro op hop hf
    rcases List.mem_append.1 hop with h1 | h1
    · have := (ha op h1 hf).1
      simp [h] at this
    · obtain ⟨h2, pre, msg, h3⟩ := hb op h1 hf
      exact ⟨h2, a.1 ++ pre, msg, by simp [h3]⟩
  · simpa [h] using ha

theorem aborting_seq (os : OS) (rs : List Run) (h : ∀ r ∈ rs, Aborting os r) :
    Aborting os (seq rs) := by
  induction rs with
  | nil => intro op hop; simp [seq] at hop
  | cons r rs ih =>
    exact aborting_andThen os r (seq rs) (h r (List.mem_cons_self _ _))
      (ih (fun x hx => h x (List.mem_cons_of_mem _ hx)))

theorem aborting_call (os : OS) (op : Op) (h : failed os op = false) :
    Aborting os (call op) := by
  intro x hx hf
  simp [call] at hx
  subst hx
  simp [h] at hf

theorem aborting_attempt (os : OS) (op : Op) (ok : Bool) (msg : String)
    (h : failed os op = !ok) : Aborting os (attempt op ok (ShowErr msg)) := by
  intro x hx hf
  cases ok <;> simp [attempt, ShowErr, Show] at hx ⊢
  · rcases hx with rfl | rfl
    · exact ⟨[], by simp⟩
    · simp [failed] at hf
  · subst hx
    simp [h] at hf

theorem aborting_nil (os : OS) : Aborting os (seq []) := by
  intro x hx
  simp [seq] at hx

theorem aborting_changeID (c : ChrootD) (os : OS) : Aborting os (changeID c os) := by
  unfold changeID
  apply aborting_seq
  simp only [List.forall_mem_cons, List.not_mem_nil, false_implies, implies_true, and_true]
  refine ⟨?_, aborting_attempt _ _ _ _ rfl, aborting_attempt _ _ _ _ rfl⟩
  split
  · apply aborting_seq
    simp only [List.forall_mem_cons, List.not_mem_nil, false_implies, implies_true, and_true]
    exact ⟨aborting_attempt _ _ _ _ rfl, aborting_attempt _ _ _ _ rfl⟩
  · exact aborting_nil os

theorem aborting_chrootDir (c : ChrootD) (os : OS) : Aborting os (chrootDir c os) := by
  unfold chrootDir
  split
  · exact aborting_call _ _ rfl
  · apply aborting_seq
    simp only [List.forall_mem_cons, List.not_mem_nil, false_implies, implies_true, and_true]
    refine ⟨aborting_call _ _ rfl, ?_, aborting_attempt _ _ _ _ rfl, aborting_call _ _ rfl,
      aborting_attempt _ _ _ _ rfl, aborting_call _ _ rfl⟩
    split
    · exact aborting_attempt _ _ _ _ rfl
    · exact aborting_nil os

theorem aborting_chrootEnd (c : ChrootD) (os : OS) : Aborting os (chrootEnd c os) := by
  unfold chrootEnd
  apply aborting_seq
  simp only [List.forall_mem_cons, List.not_mem_nil, false_implies, implies_true, and_true]
  refine ⟨?_, ?_, aborting_call _ _ rfl⟩
  · intro x hx hf
    simp [isWriteable] at hx
    rcases hx with rfl | rfl <;> simp [failed] at hf
  · split
    · exact aborting_call _ _ rfl
    · exact aborting_nil os

theorem aborting_Chroot (c : ChrootD) (os : OS) : Aborting os (Chroot c os) := by
  unfold Chroot
  apply aborting_seq
  simp only [List.forall_mem_cons, List.not_mem_nil, false_implies, implies_true, and_true]
  refine ⟨aborting_chrootDir c os, ?_, aborting_chrootEnd c os⟩
  split
  · exact aborting_changeID c os
  · exact aborting_nil os

/-! ## Stage facts -/

theorem chrootDir_noCred (c : ChrootD) (os : OS) :
    ∀ x ∈ (chrootDir c os).1, isCred x = false := by
  rcases os with ⟨iD, mk, cd, cr, co, cm, sg, su, wf, pid⟩
  by_cases hD : c.DIR = ""
  · simp [chrootDir, hD, call, ShowInf, Show, isCred]
  · cases iD <;> cases mk <;> cases cd <;> cases cr <;>
      simp [chrootDir, hD, seq, andThen, attempt, call, ShowErr, Show, isCred]

theorem chrootEnd_noCred (c : ChrootD) (os : OS) :
    ∀ x ∈ (chrootEnd c os).1, isCred x = false := by
  cases h : os.writeFile <;>
    simp [chrootEnd, seq, andThen, call, isWriteable, h, ShowInf, Show, isCred]

theorem mem_Chroot_cred (c : ChrootD) (os : OS) (x : Op) (hc : isCred x = true) :
    x ∈ (Chroot c os).1 ↔
      ((c.UID ≠ 0 ∧ c.GID ≠ 0) ∧ (chrootDir c os).2 = true ∧ x ∈ (changeID c os).1) := by
  have h1 : x ∉ (chrootDir c os).1 := fun h => by
    have := chrootDir_noCred c os x h
    simp [hc] at this
  have h2 : x ∉ (chrootEnd c os).1 := fun h => by
    have := chrootEnd_noCred c os x h
    simp [hc] at this
  rw [Chroot_ops]
  by_cases hR : (chrootDir c os).2 = true <;> by_cases hU : c.UID ≠ 0 ∧ c.GID ≠ 0 <;>
    by_cases hC : (changeID c os).2 = true <;>
    simp [hR, hU, hC, h1, h2, chrootCred, seq]

theorem changeID_halfway (c : ChrootD) (os : OS) (g : Int)
    (hg : Op.setgid g ∈ (changeID c os).1) (h1 : os.setgid = true) (h2 : os.setuid = false) :
    Op.setuid c.UID ∈ (changeID c os).1 ∧ (changeID c os).2 = false := by
  rcases os with ⟨iD, mk, cd, cr, co, cm, sg, su, wf, pid⟩
  simp only at h1 h2
  subst h1 h2
  revert hg
  by_cases hD : c.DIR = "" <;> cases co <;> cases cm <;>
    simp [changeID, hD, seq, andThen, attempt, ShowErr, Show]

/-! ## Order of the steps -/

theorem steps_seq (rs : List Run) (slots : List (List Op))
    (h : List.Forall₂ (fun r s => (List.filter isStep r.1).Sublist s) rs slots) :
    ((seq rs).1.filter isStep).Sublist slots.flatten := by
  induction h with
  | nil => simp [seq]
  | @cons r s rs ss h _ ih =>
    rw [seq, andThen_fst, List.filter_append, List.flatten_cons]
    refine List.Sublist.append h ?_
    cases r.2
    · simp
    · simpa using ih

theorem steps_attempt (op : Op) (ok : Bool) (msg : String) :
    ((attempt op ok (ShowErr msg)).1.filter isStep).Sublist [op] := by
  have hs : isStep (ShowErr msg) = false := rfl
  cases ok <;> simp only [attempt, Bool.false_eq_true, if_false, if_true, List.filter, hs] <;>
    cases isStep op <;> simp

theorem steps_call_step (op : Op) : ((call op).1.filter isStep).Sublist [op] :=
  List.filter_sublist _

theorem steps_call_other (op : Op) (h : isStep op = false) :
    ((call op).1.filter isStep).Sublist [] := by
  simp [call, h]

theorem steps_nil (X : List Op) : ((seq []).1.filter isStep).Sublist X := by
  simp [seq]

theorem steps_chrootDir (c : ChrootD) (os : OS) :
    ((chrootDir c os).1.filter isStep).Sublist
      [Op.mkdir c.DIR 0o770, Op.chdir c.DIR, Op.wgWait, Op.chroot "."] := by
  unfold chrootDir
  split
  · simp [call, ShowInf, Show, isStep]
  · refine steps_seq _ [[], [Op.mkdir c.DIR 0o770], [Op.chdir c.DIR], [Op.wgWait],
      [Op.chroot "."], []] ?_
    refine .cons (steps_call_other _ rfl) (.cons ?_ (.cons (steps_attempt _ _ _)
      (.cons (steps_call_step _) (.cons (steps_attempt _ _ _)
        (.cons (steps_call_other _ rfl) .nil)))))
    split
    · exact steps_attempt _ _ _
    · exact steps_nil _

theorem steps_changeID (c : ChrootD) (os : OS) :
    ((changeID c os).1.filter isStep).Sublist
      [Op.chown "." c.UID c.GID, Op.chmod "." 0o770, Op.setgid c.GID, Op.setuid c.UID] := by
  unfold changeID
  refine steps_seq _ [[Op.chown "." c.UID c.GID, Op.chmod "." 0o770], [Op.setgid c.GID],
    [Op.setuid c.UID]] ?_
  refine .cons ?_ (.cons (steps_attempt _ _ _) (.cons (steps_attempt _ _ _) .nil))
  split
  · exact steps_seq _ [[Op.chown "." c.UID c.GID], [Op.chmod "." 0o770]]
      (.cons (steps_attempt _ _ _) (.cons (steps_attempt _ _ _) .nil))
  · exact steps_nil _

theorem steps_chrootEnd (c : ChrootD) (os : OS) :
    ((chrootEnd c os).1.filter isStep).Sublist
      [Op.writeFile "testfile" "test" 0o660, Op.remove "testfile"] := by
  cases h : os.writeFile <;>
    simp [chrootEnd, seq, andThen, call, isWriteable, h, ShowInf, Show, isStep]

theorem steps_Chroot (c : ChrootD) (os : OS) :
    ((Chroot c os).1.filter isStep).Sublist (confinementSteps c) := by
  unfold Chroot
  refine steps_seq _ [[Op.mkdir c.DIR 0o770, Op.chdir c.DIR, Op.wgWait, Op.chroot "."],
    [Op.chown "." c.UID c.GID, Op.chmod "." 0o770, Op.setgid c.GID, Op.setuid c.UID],
    [Op.writeFile "testfile" "test" 0o660, Op.remove "testfile"]] ?_
  refine .cons (steps_chrootDir c os) (.cons ?_ (.cons (steps_chrootEnd c os) .nil))
  split
  · exact steps_changeID c os
  · exact steps_nil _

theorem before_of_rank (l : List Op)
    (hp : (l.filter isStep).Pairwise (fun x y => rank x < rank y)) (a b : Op)
    (ha : isStep a = true) (hb : isStep b = true) (hr : rank a < rank b)
    (pre post : List Op) (h : l = pre ++ b :: post) (hmem : a ∈ l) : a ∈ pre := by
  subst h
  rw [List.filter_append, List.filter_cons_of_pos hb, List.pairwise_append] at hp
  have h2 := (List.pairwise_cons.1 hp.2.1).1
  rcases List.mem_append.1 hmem with h1 | h1
  · exact h1
  · rcases List.mem_cons.1 h1 with h3 | h3
    · subst h3
      omega
    · have := h2 a (List.mem_filter.2 ⟨h3, ha⟩)
      omega

theorem steps_ranked (c : ChrootD) (os : OS) :
    ((Chroot c os).1.filter isStep).Pairwise (fun x y => rank x < rank y) := by
  refine List.Pairwise.sublist (steps_Chroot c os) ?_
  simp [confinementSteps, rank]

theorem changeID_setuid (c : ChrootD) (os : OS) (u : Int)
    (h : Op.setuid u ∈ (changeID c os).1) :
    Op.setgid c.GID ∈ (changeID c os).1 ∧ os.setgid = true := by
  rcases os with ⟨iD, mk, cd, cr, co, cm, sg, su, wf, pid⟩
  revert h
  by_cases hD : c.DIR = "" <;> cases co <;> cases cm <;> cases sg <;> cases su <;>
    simp [changeID, hD, seq, andThen, attempt, ShowErr, Show]

theorem chrootDir_chroot (c : ChrootD) (os : OS) (hD : c.DIR ≠ "")
    (h : (chrootDir c os).2 = true) :
    Op.chroot "." ∈ (chrootDir c os).1 ∧ os.chroot = true := by
  rcases os with ⟨iD, mk, cd, cr, co, cm, sg, su, wf, pid⟩
  revert h
  cases iD <;> cases mk <;> cases cd <;> cases cr <;>
    simp [chrootDir, hD, seq, andThen, attempt, call, ShowErr, Show]

theorem mem_Chroot_of_dir (c : ChrootD) (os : OS) (x : Op) (h : x ∈ (chrootDir c os).1) :
    x ∈ (Chroot c os).1 := by
  rw [Chroot_ops]
  exact List.mem_append_left _ h

/-- C3: the steps `Chroot` attempts form, in order, a subsequence of the
confinement sequence mkdir, chdir, wait, chroot, chown, chmod, setgid, setuid,
probe; setuid is attempted only after setgid was attempted and succeeded; and
with a non-empty `DIR` neither is attempted unless the root change was
attempted before and succeeded. -/
theorem Chroot_step_order (c : ChrootD) (os : OS) :
    ((Chroot c os).1.filter isStep).Sublist (confinementSteps c) ∧
    (∀ u pre post, (Chroot c os).1 = pre ++ Op.setuid u :: post →
      Op.setgid c.GID ∈ pre ∧ os.setgid = true) ∧
    (c.DIR ≠ "" → ∀ x pre post, (∃ i, x = Op.setgid i ∨ x = Op.setuid i) →
      (Chroot c os).1 = pre ++ x :: post → Op.chroot "." ∈ pre ∧ os.chroot = true) := by
  refine ⟨steps_Chroot c os, ?_, ?_⟩
  · intro u pre post h
    have hm : Op.setuid u ∈ (Chroot c os).1 := by rw [h]; simp
    have h1 := (mem_Chroot_cred c os (Op.setuid u) rfl).1 hm
    have h2 := changeID_setuid c os u h1.2.2
    have h3 := (mem_Chroot_cred c os (Op.setgid c.GID) rfl).2 ⟨h1.1, h1.2.1, h2.1⟩
    exact ⟨before_of_rank _ (steps_ranked c os) (Op.setgid c.GID) (Op.setuid u) rfl rfl
      (by simp [rank]) pre post h h3, h2.2⟩
  · intro hD x pre post hx h
    have hm : x ∈ (Chroot c os).1 := by rw [h]; simp
    have hc : isCred x = true := by
      rcases hx with ⟨i, rfl | rfl⟩ <;> rfl
    have h1 := (mem_Chroot_cred c os x hc).1 hm
    have h2 := chrootDir_chroot c os hD h1.2.1
    have h3 := mem_Chroot_of_dir c os _ h2.1
    refine ⟨before_of_rank _ (steps_ranked c os) (Op.chroot ".") x rfl ?_ ?_ pre post h h3,
      h2.2⟩
    · rcases hx with ⟨i, rfl | rfl⟩ <;> rfl
    · rcases hx with ⟨i, rfl | rfl⟩ <;> simp [rank]

theorem Chroot_step_order_witness :
    Op.setgid 1000 ∈ [Op.lstat "/jail", Op.chdir "/jail", Op.wgWait, Op.chroot ".",
        Op.send Chan.LogInfo "[chroot:success] [chrootdir:/jail] [pid:7]",
        Op.chown "." 1000 1000, Op.chmod "." 0o770, Op.setgid 1000] ∧
    Op.chroot "." ∈ [Op.lstat "/jail", Op.chdir "/jail", Op.wgWait, Op.chroot ".",
        Op.send Chan.LogInfo "[chroot:success] [chrootdir:/jail] [pid:7]",
        Op.chown "." 1000 1000, Op.chmod "." 0o770, Op.setgid 1000] :=
  ⟨((Chroot_step_order ⟨"/jail", 1000, 1000⟩
      ⟨true, true, true, true, true, true, true, true, true, 7⟩).2.1 1000
      [Op.lstat "/jail", Op.chdir "/jail", Op.wgWait, Op.chroot ".",
        Op.send Chan.LogInfo "[chroot:success] [chrootdir:/jail] [pid:7]",
        Op.chown "." 1000 1000, Op.chmod "." 0o770, Op.setgid 1000]
      [Op.writeFile "testfile" "test" 0o660, Op.remove "testfile",
        Op.send Chan.LogInfo "[uid:1000] [gid:1000]"] (by decide)).1,
   ((Chroot_step_order ⟨"/jail", 1000, 1000⟩
      ⟨true, true, true, true, true, true, true, true, true, 7⟩).2.2 (by decide)
      (Op.setuid 1000)
      [Op.lstat "/jail", Op.chdir "/jail", Op.wgWait, Op.chroot ".",
        Op.send Chan.LogInfo "[chroot:success] [chrootdir:/jail] [pid:7]",
        Op.chown "." 1000 1000, Op.chmod "." 0o770, Op.setgid 1000]
      [Op.writeFile "testfile" "test" 0o660, Op.remove "testfile",
        Op.send Chan.LogInfo "[uid:1000] [gid:1000]"] ⟨1000, Or.inr rfl⟩ (by decide)).1⟩

/-! ## The credential gate -/

theorem chrootDir_ok_iff (c : ChrootD) (os : OS) :
    (chrootDir c os).2 = true ↔
      (c.DIR = "" ∨ ((os.isDir = true ∨ os.mkdir = true) ∧ os.chdir = true ∧
        os.chroot = true)) := by
  rcases os with ⟨iD, mk, cd, cr, co, cm, sg, su, wf, pid⟩
  by_cases hD : c.DIR = ""
  · simp [chrootDir, hD, call]
  · cases iD <;> cases mk <;> cases cd <;> cases cr <;>
      simp [chrootDir, hD, seq, andThen, attempt, call]

theorem changeID_has_cred (c : ChrootD) (os : OS) :
    ∃ x ∈ (changeID c os).1, isCred x = true := by
  rcases os with ⟨iD, mk, cd, cr, co, cm, sg, su, wf, pid⟩
  by_cases hD : c.DIR = ""
  · refine ⟨Op.setgid c.GID, ?_, rfl⟩
    cases sg <;> cases su <;> simp [changeID, hD, seq, andThen, attempt]
  · refine ⟨Op.chown "." c.UID c.GID, ?_, rfl⟩
    cases co <;> cases cm <;> cases sg <;> cases su <;>
      simp [changeID, hD, seq, andThen, attempt]

/-! ## Steps of the process -/

theorem effect_fields (w w1 : World) (op : Op) (h : effect w op = some w1) :
    w1.waitLogD = w.waitLogD + opAdd op ∧ w1.tasks = w.tasks ++ opGo op ∧
    w1.trace = w.trace ∧ w1.script = w.script ∧ w1.calls = w.calls ∧
    (op = Op.wgWait → w.waitLogD = 0) := by
  cases op <;> simp only [effect, Option.some.injEq] at h
  case wgWait =>
    split at h <;> simp_all [opAdd, opGo]
  case send ch msg =>
    split at h
    · simp only [Option.some.injEq] at h
      subst h
      cases ch <;> simp [World.setChan, opAdd, opGo]
    · simp at h
  case wgAdd n =>
    subst h
    unfold World.wgAdd
    split <;> simp [opAdd, opGo]
  case tryLock ok =>
    subst h
    cases ok <;> simp [opAdd, opGo]
  all_goals (subst h; simp [opAdd, opGo])

theorem effect_panicked (w w1 : World) (op : Op) (h : effect w op = some w1)
    (hp : w.panicked = none) :
    w1.panicked = none ∨ (∃ m, op = Op.panic m ∧ w1.panicked = some m) ∨
      (∃ n, op = Op.wgAdd n ∧ w.waitLogD + n < 0) := by
  cases op <;> simp only [effect, Option.some.injEq] at h
  case wgWait =>
    split at h <;> simp_all
  case send ch msg =>
    split at h
    · simp only [Option.some.injEq] at h
      subst h
      cases ch <;> simp [World.setChan, hp]
    · simp at h
  case wgAdd n =>
    subst h
    unfold World.wgAdd
    split <;> simp_all
  case tryLock ok =>
    subst h
    cases ok <;> simp [hp]
  all_goals (subst h; simp [hp])

theorem effect_mutex (w w1 : World) (op : Op) (h : effect w op = some w1) :
    w1.mutexLogD = opMutex op w.mutexLogD := by
  cases op <;> simp only [effect, Option.some.injEq] at h
  case wgWait =>
    split at h <;> simp_all [opMutex]
  case send ch msg =>
    split at h
    · simp only [Option.some.injEq] at h
      subst h
      cases ch <;> simp [World.setChan, opMutex]
    · simp at h
  case wgAdd n =>
    subst h
    unfold World.wgAdd
    split <;> simp_all [opMutex]
  case tryLock ok =>
    subst h
    cases ok <;> simp [opMutex]
  all_goals (subst h; simp [opMutex])

/-- The ways the caller thread can take a step. -/
theorem stepCaller_cases (w : World) :
    stepCaller w = w ∨
    (∃ call calls, w.script = [] ∧ w.calls = call :: calls ∧ callScript w call = [] ∧
      stepCaller w = { w with calls := calls }) ∨
    (∃ op rest calls w1,
      ((w.script = op :: rest ∧ calls = w.calls) ∨
       (w.script = [] ∧ ∃ call, w.calls = call :: calls ∧ callScript w call = op :: rest)) ∧
      effect w op = some w1 ∧
      stepCaller w = { w1 with script := rest, calls := calls,
                               trace := w1.trace ++ [(Tid.caller, op)] }) := by
  unfold stepCaller
  split
  · rename_i op rest hs
    unfold perform
    split
    · exact Or.inl rfl
    · rename_i w1 he
      exact Or.inr (Or.inr ⟨op, rest, w.calls, w1, Or.inl ⟨hs, rfl⟩, he, rfl⟩)
  · rename_i hs
    split
    · exact Or.inl rfl
    · rename_i call calls hc
      split
      · rename_i hcs
        exact Or.inr (Or.inl ⟨call, calls, hs, hc, hcs, rfl⟩)
      · rename_i op rest hcs
        unfold perform
        split
        · exact Or.inl rfl
        · rename_i w1 he
          exact Or.inr (Or.inr ⟨op, rest, calls, w1, Or.inr ⟨hs, call, hc, hcs⟩, he, rfl⟩)

/-! ## The scripts of the API calls -/

theorem forall_andThen (P : Op → Prop) (a b : Run) (ha : ∀ x ∈ a.1, P x)
    (hb : ∀ x ∈ b.1, P x) : ∀ x ∈ (andThen a b).1, P x := by
  intro x hx
  rw [andThen_fst] at hx
  rcases List.mem_append.1 hx with h | h
  · exact ha x h
  · split at h
    · exact hb x h
    · simp at h

theorem forall_seq (P : Op → Prop) (rs : List Run) (h : ∀ r ∈ rs, ∀ x ∈ r.1, P x) :
    ∀ x ∈ (seq rs).1, P x := by
  induction rs with
  | nil => intro x hx; simp [seq] at hx
  | cons r rs ih =>
    exact forall_andThen P r (seq rs) (h r (List.mem_cons_self _ _))
      (ih (fun y hy => h y (List.mem_cons_of_mem _ hy)))

theorem plain_attempt (op : Op) (ok : Bool) (msg : String) (h : plain op = true) :
    ∀ x ∈ (attempt op ok (ShowErr msg)).1, plain x = true := by
  intro x hx
  cases ok <;> simp [attempt, ShowErr, Show] at hx
  · rcases hx with rfl | rfl
    · exact h
    · rfl
  · subst hx
    exact h

theorem plain_call (op : Op) (h : plain op = true) : ∀ x ∈ (call op).1, plain x = true := by
  intro x hx
  simp [call] at hx
  subst hx
  exact h

theorem plain_nil : ∀ x ∈ (seq []).1, plain x = true := by
  simp [seq]

theorem plain_changeID (c : ChrootD) (os : OS) : ∀ x ∈ (changeID c os).1, plain x = true := by
  unfold changeID
  apply forall_seq
  simp only [List.forall_mem_cons, List.not_mem_nil, false_implies, implies_true, and_true]
  refine ⟨?_, plain_attempt _ _ _ rfl, plain_attempt _ _ _ rfl⟩
  split
  · apply forall_seq
    simp only [List.forall_mem_cons, List.not_mem_nil, false_implies, implies_true, and_true]
    exact ⟨plain_attempt _ _ _ rfl, plain_attempt _ _ _ rfl⟩
  · exact plain_nil

theorem plain_chrootDir (c : ChrootD) (os : OS) :
    ∀ x ∈ (chrootDir c os).1, plain x = true := by
  unfold chrootDir
  split
  · exact plain_call _ rfl
  · apply forall_seq
    simp only [List.forall_mem_cons, List.not_mem_nil, false_implies, implies_true, and_true]
    refine ⟨plain_call _ rfl, ?_, plain_attempt _ _ _ rfl, plain_call _ rfl,
      plain_attempt _ _ _ rfl, plain_call _ rfl⟩
    split
    · exact plain_attempt _ _ _ rfl
    · exact plain_nil

theorem plain_chrootEnd (c : ChrootD) (os : OS) :
    ∀ x ∈ (chrootEnd c os).1, plain x = true := by
  cases h : os.writeFile <;>
    simp [chrootEnd, seq, andThen, call, isWriteable, h, ShowInf, Show, plain]

theorem plain_Chroot (c : ChrootD) (os : OS) : ∀ x ∈ (Chroot c os).1, plain x = true := by
  unfold Chroot
  apply forall_seq
  simp only [List.forall_mem_cons, List.not_mem_nil, false_implies, implies_true, and_true]
  refine ⟨plain_chrootDir c os, ?_, plain_chrootEnd c os⟩
  split
  · exact plain_changeID c os
  · exact plain_nil

theorem plain_facts (x : Op) (h : plain x = true) :
    opAdd x = 0 ∧ opGo x = [] ∧ isAdd x = false ∧ isTryLock x = false ∧ isPanic x = false ∧
    x ≠ Op.unlock := by
  cases x <;> simp [plain] at h <;> simp [opAdd, opGo, isAdd, isTryLock, isPanic]

theorem goCount_plain (l : List Op) (h : ∀ x ∈ l, plain x = true) : goCount l = 0 := by
  induction l with
  | nil => rfl
  | cons x l ih =>
    have hx := h x (List.mem_cons_self _ _)
    have hl := ih (fun y hy => h y (List.mem_cons_of_mem _ hy))
    cases x <;> simp [plain] at hx <;> simp [goCount, hl]

theorem headAdd_plain (l : List Op) (h : ∀ x ∈ l, plain x = true) : headAdd l = 0 := by
  cases l with
  | nil => rfl
  | cons x l => exact (plain_facts x (h x (List.mem_cons_self _ _))).1

theorem Chroot_head (c : ChrootD) (os : OS) :
    ∃ op rest, (Chroot c os).1 = op :: rest ∧ op ≠ Op.wgWait := by
  rw [Chroot_ops]
  by_cases hD : c.DIR = ""
  · refine ⟨ShowInf "UNSAFE MODE: CHANGEROOT IS DISABLED VIA CONFIG!", ?_⟩
    simp only [chrootDir, hD, if_true, call, List.singleton_append, List.cons_append,
      List.nil_append]
    exact ⟨_, rfl, by simp [ShowInf, Show]⟩
  · refine ⟨Op.lstat c.DIR, ?_⟩
    simp only [chrootDir, hD, if_false, seq, andThen_fst, call, List.singleton_append,
      List.cons_append, List.nil_append]
    exact ⟨_, rfl, by simp⟩

theorem Chroot_wait_before_root (c : ChrootD) (os : OS) (x : Op) (hx : isChroot x = true)
    (h : x ∈ (Chroot c os).1) : Op.wgWait ∈ (Chroot c os).1 := by
  have h1 : ∀ y ∈ (changeID c os).1, isChroot y = false := by
    rcases os with ⟨iD, mk, cd, cr, co, cm, sg, su, wf, pid⟩
    by_cases hD : c.DIR = "" <;> cases co <;> cases cm <;> cases sg <;> cases su <;>
      simp [changeID, hD, seq, andThen, attempt, ShowErr, Show, isChroot]
  have h2 : ∀ y ∈ (chrootEnd c os).1, isChroot y = false := by
    cases hw : os.writeFile <;>
      simp [chrootEnd, seq, andThen, call, isWriteable, hw, ShowInf, Show, isChroot]
  have h3 : x ∈ (chrootDir c os).1 → Op.wgWait ∈ (chrootDir c os).1 := by
    rcases os with ⟨iD, mk, cd, cr, co, cm, sg, su, wf, pid⟩
    by_cases hD : c.DIR = ""
    · intro hm
      simp [chrootDir, hD, call, ShowInf, Show] at hm
      subst hm
      simp [isChroot] at hx
    · cases iD <;> cases mk <;> cases cd <;> cases cr <;> intro hm <;>
        simp [chrootDir, hD, seq, andThen, attempt, call, ShowErr, Show] at hm ⊢ <;>
        (rcases hm with rfl | rfl | rfl | rfl <;> simp [isChroot] at hx)
  rw [Chroot_ops] at h
  rcases List.mem_append.1 h with h | h
  · exact mem_Chroot_of_dir c os _ (h3 h)
  · exfalso
    split at h
    · rcases List.mem_append.1 h with h | h
      · unfold chrootCred at h
        split at h
        · have := h1 x h
          simp [hx] at this
        · simp [seq] at h
      · split at h
        · have := h2 x h
          simp [hx] at this
        · simp at h
    · simp at h

theorem callScript_Chroot (c : ChrootD) (os : OS) (op : Op) (rest : List Op)
    (h : (Chroot c os).1 ++ [Op.ret (Chroot c os).2] = op :: rest) :
    plain op = true ∧ op ≠ Op.wgWait ∧ isChroot op = false ∧ (∀ x ∈ rest, plain x = true) ∧
    (∀ pre p post, rest = pre ++ Op.chroot p :: post → Op.wgWait ∈ pre) := by
  obtain ⟨op0, rest0, e, hne⟩ := Chroot_head c os
  have hp := plain_Chroot c os
  have hr := steps_ranked c os
  have hw := Chroot_wait_before_root c os
  rw [e] at h hp hr hw
  simp only [List.cons_append, List.cons.injEq] at h
  obtain ⟨h1, h2⟩ := h
  subst h1 h2
  have hc : isChroot op0 = false := by
    cases hc : isChroot op0
    · rfl
    · have hmem := hw op0 hc (List.mem_cons_self _ _)
      have hlt := before_of_rank _ hr Op.wgWait op0 rfl
        (by cases op0 <;> simp [isChroot] at hc <;> rfl)
        (by cases op0 <;> simp [isChroot] at hc <;> simp [rank]) [] rest0 rfl hmem
      simp at hlt
  refine ⟨hp op0 (List.mem_cons_self _ _), hne, hc, ?_, ?_⟩
  · intro x hx
    rcases List.mem_append.1 hx with hx | hx
    · exact hp x (List.mem_cons_of_mem _ hx)
    · simp at hx
      subst hx
      rfl
  · intro pre p post hsplit
    have hpost : ∃ post', rest0 = pre ++ Op.chroot p :: post' := by
      rcases List.eq_nil_or_concat post with hnil | ⟨post', z, hz⟩
      · subst hnil
        have := congrArg List.getLast? hsplit
        simp at this
      · subst hz
        have h5 : rest0 ++ [Op.ret (Chroot c os).2] =
            (pre ++ Op.chroot p :: post') ++ [z] := by
          simpa using hsplit
        have h6 := List.append_inj' h5 rfl
        simp only [List.cons.injEq, and_true] at h6
        exact ⟨post', h6.1⟩
    obtain ⟨post', hrest⟩ := hpost
    have hmem : Op.chroot p ∈ op0 :: rest0 := by
      rw [hrest]; simp
    have hwm := hw (Op.chroot p) rfl hmem
    have := before_of_rank _ hr Op.wgWait (Op.chroot p) rfl rfl (by simp [rank])
      (op0 :: pre) post' (by rw [hrest]; rfl) hwm
    rcases List.mem_cons.1 this with h7 | h7
    · exact absurd h7.symm hne
    · exact h7

theorem LogDaemon_script (c : LogD) (op : Op) (rest : List Op)
    (h : LogDaemon c false = op :: rest) :
    c.LogMode ≠ "" ∧ op = Op.tryLock true ∧ ∃ body, rest = Op.wgAdd 3 :: body ∧
      (∀ x ∈ body, isAdd x = false) ∧ (∀ x ∈ body, isTryLock x = false) ∧
      goCount body ≤ 3 ∧ Op.wgWait ∈ body ∧
      (∃ x ∈ body, x = Op.unlock ∨ isPanic x = true) ∧
      (∀ x ∈ body, isChroot x = false) := by
  unfold LogDaemon at h
  by_cases h0 : c.LogMode = ""
  · simp [h0] at h
  · simp only [h0, if_false, Bool.false_eq_true, List.cons_append, List.nil_append,
      List.cons.injEq] at h
    refine ⟨h0, h.1.symm, _, h.2.symm, ?_⟩
    by_cases h1 : c.LogMode = "MUTE"
    · simp [h1, mute, isAdd, isTryLock, goCount, isPanic, isChroot, ShowInf, Show, Task.signals]
    · by_cases h2 : c.LogMode = "CONSOLE"
      · simp [h2, cons, isAdd, isTryLock, goCount, isPanic, isChroot, Task.signals]
      · by_cases h3 : c.LogMode = "SYSLOG"
        · simp [h3, sysl, isAdd, isTryLock, goCount, isPanic, isChroot, Task.signals]
        · by_cases h4 : c.LogMode = "FILE"
          · simp [h4, file, isAdd, isTryLock, goCount, isPanic, isChroot, Task.signals]
          · simp [h1, h2, h3, h4, isAdd, isTryLock, goCount, isPanic, isChroot]

/-- What the first step of an API call leaves to be done. -/
theorem callScript_load (w : World) (call : Call) (calls : List Call) (op : Op)
    (rest : List Op) (hm : w.mutexLogD = false) (h : callScript w call = op :: rest) :
    opAdd op = 0 ∧ opGo op = [] ∧ op ≠ Op.wgWait ∧ isPanic op = false ∧
    isChroot op = false ∧ op ≠ Op.tryLock false ∧
    (∀ x ∈ rest.tail, isAdd x = false) ∧ (∀ x ∈ rest, isTryLock x = false) ∧
    (goCount rest : Int) ≤ headAdd rest ∧ (0 < goCount rest → Op.wgWait ∈ rest) ∧
    headAdd rest + expected calls = expected (call :: calls) ∧
    (opMutex op false = true → ∃ x ∈ rest, x = Op.unlock ∨ isPanic x = true) ∧
    (∀ pre p post, rest = pre ++ Op.chroot p :: post → Op.wgWait ∈ pre) ∧
    (∀ x ∈ rest, isChroot x = true → ∃ c os, call = Call.Chroot c os) := by
  cases call with
  | LogDaemon c =>
    simp only [callScript, hm] at h
    obtain ⟨h0, hop, body, hrest, b1, b2, b3, b4, b5, b6⟩ := LogDaemon_script c op rest h
    subst hop hrest
    refine ⟨rfl, rfl, by simp, rfl, rfl, by simp, b1, ?_, ?_, fun _ => List.mem_cons_of_mem _ b4,
      ?_, ?_, ?_, ?_⟩
    · intro x hx
      rcases List.mem_cons.1 hx with rfl | hx
      · rfl
      · exact b2 x hx
    · simp only [goCount, headAdd, opAdd]
      omega
    · simp [headAdd, opAdd, expected, h0]
    · intro _
      obtain ⟨x, hx, hx2⟩ := b5
      exact ⟨x, List.mem_cons_of_mem _ hx, hx2⟩
    · intro pre p post hsplit
      exfalso
      have hmem : Op.chroot p ∈ Op.wgAdd 3 :: body := by rw [hsplit]; simp
      rcases List.mem_cons.1 hmem with h7 | h7
      · simp at h7
      · have := b6 _ h7
        simp [isChroot] at this
    · intro x hx hc
      exfalso
      rcases List.mem_cons.1 hx with h7 | h7
      · subst h7
        simp [isChroot] at hc
      · have := b6 _ h7
        simp [hc] at this
  | Chroot c os =>
    simp only [callScript] at h
    obtain ⟨p1, p2, p3, p4, p5⟩ := callScript_Chroot c os op rest h
    obtain ⟨q1, q2, q3, q4, q5, q6⟩ := plain_facts op p1
    refine ⟨q1, q2, p2, q5, p3, ?_, ?_, ?_, ?_, ?_, ?_, ?_, p5, fun _ _ _ => ⟨c, os, rfl⟩⟩
    · intro hx
      subst hx
      simp [plain] at p1
    · intro x hx
      exact (plain_facts x (p4 x (List.mem_of_mem_tail hx))).2.2.1
    · intro x hx
      exact (plain_facts x (p4 x hx)).2.2.2.1
    · rw [goCount_plain rest p4, headAdd_plain rest p4]
      simp
    · rw [goCount_plain rest p4]
      simp
    · rw [headAdd_plain rest p4]
      simp [expected]
    · intro hx
      cases op <;> simp [plain] at p1 <;> simp [opMutex] at hx

theorem callScript_skip (w : World) (call : Call) (calls : List Call)
    (h : callScript w call = []) : expected calls = expected (call :: calls) := by
  cases call with
  | LogDaemon c =>
    simp only [callScript, LogDaemon] at h
    by_cases h0 : c.LogMode = ""
    · simp [expected, h0]
    · cases hm : w.mutexLogD <;> simp [h0, hm] at h
  | Chroot c os =>
    simp [callScript] at h

/-! ## Counting over traces and goroutines -/

theorem adds_append (t₁ t₂ : List (Tid × Op)) : adds (t₁ ++ t₂) = adds t₁ + adds t₂ := by
  induction t₁ with
  | nil => simp [adds]
  | cons x t ih =>
    rcases x with ⟨tid, op⟩
    cases tid <;> cases op <;> simp [adds, ih] <;> omega

theorem dones_append (t₁ t₂ : List (Tid × Op)) : dones (t₁ ++ t₂) = dones t₁ + dones t₂ := by
  induction t₁ with
  | nil => simp [dones]
  | cons x t ih =>
    rcases x with ⟨tid, op⟩
    cases tid <;> cases op <;> simp [dones, ih] <;> omega

theorem adds_caller (op : Op) : adds [(Tid.caller, op)] = opAdd op := by
  cases op <;> simp [adds, opAdd]

theorem dones_caller (op : Op) : dones [(Tid.caller, op)] = 0 := by
  cases op <;> simp [dones]

theorem adds_task (i : Nat) (ops : List Op) :
    adds (ops.map (fun op => (Tid.task i, op))) = 0 := by
  induction ops with
  | nil => rfl
  | cons x l ih => cases x <;> simp [adds, ih]

theorem dones_task (i : Nat) (ops : List Op) :
    dones (ops.map (fun op => (Tid.task i, op))) = doneCount ops := by
  induction ops with
  | nil => rfl
  | cons x l ih => cases x <;> simp [dones, doneCount, ih]

theorem pending_append (l₁ l₂ : List Goroutine) :
    pending (l₁ ++ l₂) = pending l₁ + pending l₂ := by
  induction l₁ with
  | nil => simp [pending]
  | cons g l ih => simp [pending, ih]; omega

theorem pending_set (l : List Goroutine) (i : Nat) (g g' : Goroutine)
    (h : l.get? i = some g) :
    pending (l.set i g') + (if g.owes then 1 else 0) =
      pending l + (if g'.owes then 1 else 0) := by
  induction l generalizing i with
  | nil => simp at h
  | cons x l ih =>
    cases i with
    | zero =>
      simp at h
      subst h
      simp [pending]
      omega
    | succ i =>
      simp at h
      have := ih i (by simpa using h)
      simp [pending]
      omega

theorem pending_opGo (op : Op) : pending (opGo op) + goCount [] = goCount [op] := by
  cases op <;> simp [opGo, pending, goCount, Goroutine.owes]

theorem goCount_cons (op : Op) (rest : List Op) :
    goCount (op :: rest) = goCount [op] + goCount rest := by
  cases op <;> simp [goCount]

theorem expected_nonneg (calls : List Call) : 0 ≤ expected calls := by
  induction calls with
  | nil => simp [expected]
  | cons c l ih =>
    cases c with
    | LogDaemon c =>
      simp only [expected]
      split <;> omega
    | Chroot c os => simpa [expected] using ih

/-! ## Steps of a goroutine -/

theorem taskEffect_fields (w : World) (op : Op) :
    (taskEffect w op).waitLogD = w.waitLogD - doneCount [op] ∧
    (taskEffect w op).tasks = w.tasks ∧ (taskEffect w op).trace = w.trace ∧
    (taskEffect w op).script = w.script ∧ (taskEffect w op).calls = w.calls ∧
    (taskEffect w op).mutexLogD = w.mutexLogD ∧
    (0 ≤ w.waitLogD - doneCount [op] → (taskEffect w op).panicked = w.panicked) := by
  cases op <;> simp only [taskEffect, doneCount]
  case wgDone =>
    unfold World.wgAdd
    split <;> simp <;> omega
  case recv ch m => cases ch <;> simp [World.setChan]
  case send ch m => cases ch <;> simp [World.setChan]
  all_goals simp

theorem doneCount_cons (op : Op) (ops : List Op) :
    doneCount (op :: ops) = doneCount [op] + doneCount ops := by
  cases op <;> simp [doneCount]; omega

theorem foldl_taskEffect (ops : List Op) (w : World) :
    (ops.foldl taskEffect w).waitLogD = w.waitLogD - doneCount ops ∧
    (ops.foldl taskEffect w).tasks = w.tasks ∧ (ops.foldl taskEffect w).trace = w.trace ∧
    (ops.foldl taskEffect w).script = w.script ∧ (ops.foldl taskEffect w).calls = w.calls ∧
    (ops.foldl taskEffect w).mutexLogD = w.mutexLogD ∧
    (0 ≤ w.waitLogD - doneCount ops → (ops.foldl taskEffect w).panicked = w.panicked) := by
  induction ops generalizing w with
  | nil => simp [doneCount]
  | cons op ops ih =>
    obtain ⟨a1, a2, a3, a4, a5, a6, a7⟩ := taskEffect_fields w op
    obtain ⟨b1, b2, b3, b4, b5, b6, b7⟩ := ih (taskEffect w op)
    rw [List.foldl_cons, doneCount_cons]
    refine ⟨by rw [b1, a1]; push_cast; omega, by rw [b2, a2], by rw [b3, a3], by rw [b4, a4],
      by rw [b5, a5], by rw [b6, a6], ?_⟩
    intro h
    rw [b7 (by rw [a1]; push_cast at h ⊢; omega), a7 (by push_cast at h ⊢; omega)]

theorem doneCount_append (l₁ l₂ : List Op) :
    doneCount (l₁ ++ l₂) = doneCount l₁ + doneCount l₂ := by
  induction l₁ with
  | nil => simp [doneCount]
  | cons x l ih => rw [List.cons_append, doneCount_cons, doneCount_cons x l, ih]; omega

theorem doneCount_syslog (p : Priority) (l : List String) :
    doneCount (l.map (Op.syslog p)) = 0 := by
  induction l with
  | nil => rfl
  | cons x l ih => simp [doneCount, ih]

theorem handle_moved (t : Task) (c : LogD) (e : Env) (n : Nat) (msg : String)
    (ops : List Op) (pc : Pc) (h : handle t c e n msg = Outcome.moved ops pc) :
    pc = Pc.ready ∧ doneCount ops = 0 := by
  cases t <;> simp only [handle] at h
  case fileWriter =>
    split at h <;> simp at h
    obtain ⟨rfl, rfl⟩ := h
    simp [doneCount]
  case fileInfo =>
    split at h <;> simp at h
    obtain ⟨rfl, rfl⟩ := h
    simp [doneCount]
  case fileDebug =>
    split at h <;> simp at h
    obtain ⟨rfl, rfl⟩ := h
    simp [doneCount]
  case fileErr =>
    split at h <;> simp at h
    obtain ⟨rfl, rfl⟩ := h
    simp [doneCount]
  all_goals
    simp only [Outcome.moved.injEq] at h
    obtain ⟨rfl, rfl⟩ := h
    simp [doneCount, doneCount_append, doneCount_syslog, ShowInf, ShowErr, ShowDebug, Show]

/-- A step of a goroutine signals readiness exactly when the goroutine stops
owing its signal. -/
theorem advance_moved (t : Task) (c : LogD) (e : Env) (head : Option String) (n : Nat)
    (pc pc' : Pc) (ops : List Op) (h : advance t c e head n pc = Outcome.moved ops pc') :
    (if (Goroutine.mk t c pc').owes then 1 else 0) + doneCount ops =
      (if (Goroutine.mk t c pc).owes then 1 else 0) := by
  rcases e with ⟨ok, err, now⟩
  cases pc with
  | start =>
    cases ok <;> cases t <;> simp [advance, Task.priority] at h <;>
      obtain ⟨rfl, rfl⟩ := h <;> simp [Goroutine.owes, Task.signals, doneCount]
  | dialed =>
    simp [advance] at h
    obtain ⟨rfl, rfl⟩ := h
    simp [Goroutine.owes, doneCount]
  | ready =>
    cases head with
    | none => simp [advance] at h
    | some m =>
      simp [advance] at h
      obtain ⟨rfl, rfl⟩ := h
      simp [Goroutine.owes, doneCount]
  | busy m =>
    simp only [advance] at h
    obtain ⟨rfl, hd⟩ := handle_moved t c _ n m ops pc' h
    simp [Goroutine.owes, hd]

theorem advance_crashed (t : Task) (c : LogD) (e : Env) (head : Option String) (n : Nat)
    (pc : Pc) (ops : List Op) (msg : String)
    (h : advance t c e head n pc = Outcome.crashed ops msg) : doneCount ops = 0 := by
  rcases e with ⟨ok, err, now⟩
  cases pc with
  | start =>
    cases ok <;> cases t <;> simp [advance, Task.priority] at h <;>
      obtain ⟨rfl, -⟩ := h <;> simp [doneCount, ShowErr, Show]
  | dialed => simp [advance] at h
  | ready => cases head <;> simp [advance] at h
  | busy m =>
    simp only [advance] at h
    cases ok <;> cases t <;> simp [handle] at h
    · obtain ⟨rfl, -⟩ := h
      simp [doneCount]
    all_goals (split at h <;> simp at h)

/-- The ways a goroutine can take a step. -/
theorem stepTask_cases (i : Nat) (e : Env) (w : World) :
    stepTask i e w = w ∨
    (∃ g ops pc, w.tasks.get? i = some g ∧
      advance g.code g.cfg e (w.chan g.code.chan).head? w.fileCons.length g.pc =
        Outcome.moved ops pc ∧
      stepTask i e w =
        { (ops.foldl taskEffect w) with
          tasks := (ops.foldl taskEffect w).tasks.set i { g with pc := pc },
          trace := (ops.foldl taskEffect w).trace ++ ops.map (fun op => (Tid.task i, op)) }) ∨
    (∃ g ops msg, w.tasks.get? i = some g ∧
      advance g.code g.cfg e (w.chan g.code.chan).head? w.fileCons.length g.pc =
        Outcome.crashed ops msg ∧
      stepTask i e w =
        { w with trace := w.trace ++ ops.map (fun op => (Tid.task i, op)),
                 panicked := some msg }) := by
  unfold stepTask
  split
  · exact Or.inl rfl
  · rename_i g hg
    split
    · exact Or.inl rfl
    · rename_i ops pc ha
      exact Or.inr (Or.inl ⟨g, ops, pc, hg, ha, rfl⟩)
    · rename_i ops msg ha
      exact Or.inr (Or.inr ⟨g, ops, msg, hg, ha, rfl⟩)

/-! ## The invariant -/

theorem trace_split {α : Type} (t evs pre post : List α) (x : α)
    (h : t ++ evs = pre ++ x :: post) :
    (∃ post', t = pre ++ x :: post') ∨ (∃ pre', pre = t ++ pre' ∧ evs = pre' ++ x :: post) := by
  rcases List.append_eq_append_iff.1 h with ⟨a', h1, h2⟩ | ⟨c', h1, h2⟩
  · exact Or.inr ⟨a', h1, h2⟩
  · cases c' with
    | nil =>
      refine Or.inr ⟨[], by simpa using h1.symm, by simpa using h2.symm⟩
    | cons y c'' =>
      simp only [List.cons_append, List.cons.injEq] at h2
      exact Or.inl ⟨c'', by rw [h1, h2.1]⟩

theorem inv_init (prog : List Call) : Inv prog (World.init prog) where
  count := by simp [World.init, adds, dones]
  nonneg := by simp [World.init]
  bound := by simpa [World.init, adds] using expected_nonneg prog
  locked := by simp [World.init]
  suffix := ⟨[], by simp [World.init]⟩
  inCall := by simp [World.init]
  live := fun _ =>
    { owed := by simp [World.init, pending, goCount, headAdd]
      addHead := by simp [World.init]
      noAdd := by simp [World.init, pending]
      waitP := by simp [World.init, pending]
      waitG := by simp [World.init, goCount]
      noTry := by simp [World.init]
      mutex := by simp [World.init]
      total := by simp [World.init, adds, headAdd]
      root := by
        intro pre p post h
        simp [World.init] at h }

theorem headAdd_of_noAdd (l : List Op) (h : ∀ x ∈ l, isAdd x = false) : headAdd l = 0 := by
  cases l with
  | nil => rfl
  | cons x l =>
    have := h x (List.mem_cons_self _ _)
    cases x <;> simp [isAdd] at this <;> rfl

/-- The invariant is kept when the caller performs the next operation of the
call in progress. -/
theorem inv_caller_script (prog : List Call) (w w' : World) (op : Op) (rest : List Op)
    (h : Inv prog w) (hp : w.panicked = none) (hs : w.script = op :: rest)
    (f_wg : w'.waitLogD = w.waitLogD + opAdd op) (f_tasks : w'.tasks = w.tasks ++ opGo op)
    (f_trace : w'.trace = w.trace ++ [(Tid.caller, op)]) (f_script : w'.script = rest)
    (f_calls : w'.calls = w.calls) (f_mutex : w'.mutexLogD = opMutex op w.mutexLogD)
    (f_wait : op = Op.wgWait → w.waitLogD = 0)
    (f_panic : w'.panicked = none → isPanic op = false) : Inv prog w' := by
  have L := h.live hp
  have I1 := L.owed
  have I3 := L.addHead
  rw [hs] at I1 I3
  simp only [List.tail_cons] at I3
  rw [goCount_cons, headAdd] at I1
  have hrest : headAdd rest = 0 := headAdd_of_noAdd rest I3
  have hgo := pending_opGo op
  simp only [goCount, Nat.add_zero] at hgo
  have hpend : pending w'.tasks = pending w.tasks + goCount [op] := by
    rw [f_tasks, pending_append, hgo]
  refine ⟨?_, ?_, ?_, ?_, ?_, ?_, ?_⟩
  · rw [f_wg, f_trace, adds_append, dones_append, adds_caller, dones_caller, h.count]
    push_cast
    omega
  · rw [f_wg]
    omega
  · have := L.total
    have := expected_nonneg w.calls
    rw [hs, headAdd] at *
    rw [f_trace, adds_append, adds_caller]
    omega
  · rw [f_trace]
    intro hm
    rcases List.mem_append.1 hm with hm | hm
    · exact h.locked hm
    · simp only [List.mem_singleton, Prod.mk.injEq, true_and] at hm
      have := L.noTry op (by rw [hs]; exact List.mem_cons_self _ _)
      rw [← hm] at this
      simp [isTryLock] at this
  · rw [f_calls]
    exact h.suffix
  · rw [f_script, f_calls]
    exact fun x hx => h.inCall x (by rw [hs]; exact List.mem_cons_of_mem _ hx)
  · intro hp'
    have hnp := f_panic hp'
    refine ⟨?_, ?_, ?_, ?_, ?_, ?_, ?_, ?_, ?_⟩
    · rw [f_script, hpend, f_wg, hrest]
      push_cast
      omega
    · rw [f_script]
      exact fun x hx => I3 x (List.mem_of_mem_tail hx)
    · intro _
      rw [f_script, hrest]
    · intro hpos
      rw [f_script]
      by_cases hw : op = Op.wgWait
      · exfalso
        have hz := f_wait hw
        subst hw
        simp only [goCount, opAdd] at I1 hpend
        omega
      · have hmem : Op.wgWait ∈ w.script := by
          by_cases hp0 : 0 < pending w.tasks
          · exact L.waitP hp0
          · refine L.waitG ?_
            rw [hs, goCount_cons]
            omega
        rw [hs] at hmem
        rcases List.mem_cons.1 hmem with h1 | h1
        · exact absurd h1.symm hw
        · exact h1
    · intro hpos
      rw [f_script] at hpos ⊢
      by_cases hw : op = Op.wgWait
      · exfalso
        have hz := f_wait hw
        subst hw
        simp only [goCount, opAdd] at I1
        omega
      · have hmem : Op.wgWait ∈ w.script := by
          refine L.waitG ?_
          rw [hs, goCount_cons]
          omega
        rw [hs] at hmem
        rcases List.mem_cons.1 hmem with h1 | h1
        · exact absurd h1.symm hw
        · exact h1
    · rw [f_script]
      exact fun x hx => L.noTry x (by rw [hs]; exact List.mem_cons_of_mem _ hx)
    · rw [f_script, f_mutex]
      intro hm
      have hop : isTryLock op = false := L.noTry op (by rw [hs]; exact List.mem_cons_self _ _)
      have hm2 : w.mutexLogD = true ∧ op ≠ Op.unlock := by
        cases op <;> simp [opMutex, isTryLock] at hm hop ⊢ <;> exact hm
      obtain ⟨x, hx, hx2⟩ := L.mutex hm2.1
      rw [hs] at hx
      rcases List.mem_cons.1 hx with h1 | h1
      · subst h1
        rcases hx2 with h2 | h2
        · exact absurd h2 hm2.2
        · rw [hnp] at h2
          simp at h2
      · exact ⟨x, h1, hx2⟩
    · have := L.total
      rw [hs, headAdd] at this
      rw [f_trace, f_script, f_calls, adds_append, adds_caller, hrest]
      omega
    · intro pre p post hsplit
      rw [f_script] at hsplit
      rw [f_wg, hpend, f_script, hrest]
      have hzero : w.waitLogD = 0 → opAdd op = 0 →
          (w.waitLogD + opAdd op = 0 ∧ pending w.tasks + goCount [op] = 0 ∧
            goCount rest = 0 ∧ (0 : Int) = 0) := by
        intro h1 h2
        omega
      by_cases hw : op = Op.wgWait
      · right
        have hz := f_wait hw
        subst hw
        exact hzero hz rfl
      · rcases L.root (op :: pre) p post (by rw [hs, hsplit]; rfl) with h1 | h1
        · rcases List.mem_cons.1 h1 with h2 | h2
          · exact absurd h2.symm hw
          · exact Or.inl h2
        · right
          obtain ⟨z1, z2, z3, z4⟩ := h1
          rw [hs, headAdd] at z4
          exact hzero z1 z4

/-- The invariant is kept when the caller performs the first operation of its
next call. -/
theorem inv_caller_load (prog : List Call) (w w' : World) (call : Call) (calls : List Call)
    (op : Op) (rest : List Op)
    (h : Inv prog w) (hp : w.panicked = none) (hs : w.script = [])
    (hc : w.calls = call :: calls) (hcs : callScript w call = op :: rest)
    (f_wg : w'.waitLogD = w.waitLogD + opAdd op) (f_tasks : w'.tasks = w.tasks ++ opGo op)
    (f_trace : w'.trace = w.trace ++ [(Tid.caller, op)]) (f_script : w'.script = rest)
    (f_calls : w'.calls = calls) (f_mutex : w'.mutexLogD = opMutex op w.mutexLogD) :
    Inv prog w' := by
  have L := h.live hp
  have hm : w.mutexLogD = false := by
    cases hmx : w.mutexLogD
    · rfl
    · obtain ⟨x, hx, -⟩ := L.mutex hmx
      rw [hs] at hx
      simp at hx
  have hp0 : pending w.tasks = 0 := by
    by_contra hne
    have := L.waitP (Nat.pos_of_ne_zero hne)
    rw [hs] at this
    simp at this
  obtain ⟨l1, l2, l3, l4, l5, l6, l7, l8, l9, l10, l11, l12, l13, l14⟩ :=
    callScript_load w call calls op rest hm hcs
  have hpend : pending w'.tasks = 0 := by
    rw [f_tasks, l2, List.append_nil, hp0]
  have hwg : w'.waitLogD = w.waitLogD := by rw [f_wg, l1, add_zero]
  have hnn := h.nonneg
  obtain ⟨done, hdone⟩ := h.suffix
  rw [hc] at hdone
  refine ⟨?_, ?_, ?_, ?_, ?_, ?_, ?_⟩
  · rw [hwg, f_trace, adds_append, dones_append, adds_caller, dones_caller, h.count, l1]
    push_cast
    omega
  · rw [hwg]
    exact hnn
  · rw [f_trace, adds_append, adds_caller, l1, add_zero]
    exact h.bound
  · rw [f_trace]
    intro hmem
    rcases List.mem_append.1 hmem with hmem | hmem
    · exact h.locked hmem
    · simp only [List.mem_singleton, Prod.mk.injEq, true_and] at hmem
      exact l6 hmem.symm
  · rw [f_calls]
    exact ⟨done ++ [call], by simp [hdone]⟩
  · rw [f_script, f_calls]
    intro x hx
    exact ⟨done, call, hdone, l14 x hx⟩
  · intro _
    refine ⟨?_, ?_, ?_, ?_, ?_, ?_, ?_, ?_, ?_⟩
    · rw [f_script, hpend, hwg]
      push_cast
      omega
    · rw [f_script]
      exact l7
    · rw [hpend]
      intro hx
      omega
    · rw [hpend]
      intro hx
      omega
    · rw [f_script]
      exact l10
    · rw [f_script]
      exact l8
    · rw [f_script, f_mutex, hm]
      exact l12
    · have := L.total
      rw [hs, hc, headAdd] at this
      rw [f_trace, f_script, f_calls, adds_append, adds_caller, l1]
      omega
    · intro pre p post hsplit
      rw [f_script] at hsplit
      exact Or.inl (l13 pre p post hsplit)

/-- The invariant is kept when the caller makes a call that does nothing. -/
theorem inv_caller_skip (prog : List Call) (w w' : World) (call : Call) (calls : List Call)
    (h : Inv prog w) (hp : w.panicked = none) (hs : w.script = [])
    (hc : w.calls = call :: calls) (hcs : callScript w call = [])
    (f_wg : w'.waitLogD = w.waitLogD) (f_tasks : w'.tasks = w.tasks)
    (f_trace : w'.trace = w.trace) (f_script : w'.script = w.script)
    (f_calls : w'.calls = calls) (f_mutex : w'.mutexLogD = w.mutexLogD) : Inv prog w' := by
  have L := h.live hp
  obtain ⟨done, hdone⟩ := h.suffix
  rw [hc] at hdone
  refine ⟨?_, ?_, ?_, ?_, ?_, ?_, ?_⟩
  · rw [f_wg, f_trace]
    exact h.count
  · rw [f_wg]
    exact h.nonneg
  · rw [f_trace]
    exact h.bound
  · rw [f_trace]
    exact h.locked
  · rw [f_calls]
    exact ⟨done ++ [call], by simp [hdone]⟩
  · rw [f_script, hs]
    simp
  · intro _
    refine ⟨?_, ?_, ?_, ?_, ?_, ?_, ?_, ?_, ?_⟩
    · rw [f_wg, f_tasks, f_script]
      exact L.owed
    · rw [f_script]
      exact L.addHead
    · rw [f_tasks, f_script]
      exact L.noAdd
    · rw [f_tasks, f_script]
      exact L.waitP
    · rw [f_script]
      exact L.waitG
    · rw [f_script]
      exact L.noTry
    · rw [f_script, f_mutex]
      exact L.mutex
    · have := L.total
      rw [hc, ← callScript_skip w call calls hcs] at this
      rw [f_trace, f_script, f_calls]
      exact this
    · rw [f_wg, f_tasks, f_script]
      exact L.root

theorem task_events_not_caller (i : Nat) (ops : List Op) (op : Op) :
    (Tid.caller, op) ∉ ops.map (fun o => (Tid.task i, o)) := by
  simp

/-- The invariant is kept when a goroutine moves on. -/
theorem inv_task_moved (prog : List Call) (w w' : World) (i : Nat) (g g' : Goroutine)
    (ops : List Op) (h : Inv prog w) (hp : w.panicked = none)
    (hg : w.tasks.get? i = some g)
    (hd : (if g'.owes then 1 else 0) + doneCount ops = (if g.owes then 1 else 0))
    (f_wg : w'.waitLogD = w.waitLogD - doneCount ops) (f_tasks : w'.tasks = w.tasks.set i g')
    (f_trace : w'.trace = w.trace ++ ops.map (fun op => (Tid.task i, op)))
    (f_script : w'.script = w.script) (f_calls : w'.calls = w.calls)
    (f_mutex : w'.mutexLogD = w.mutexLogD) : Inv prog w' := by
  have L := h.live hp
  have hset := pending_set w.tasks i g g' hg
  rw [← f_tasks] at hset
  have I1 := L.owed
  have I2 := L.noAdd
  have hnn := h.nonneg
  have hpend : pending w'.tasks + doneCount ops = pending w.tasks := by
    generalize (if g.owes = true then 1 else 0) = og at hd hset
    generalize (if g'.owes = true then 1 else 0) = og' at hd hset
    omega
  have hle : (doneCount ops : Int) ≤ w.waitLogD := by
    by_cases hd0 : doneCount ops = 0
    · rw [hd0]
      exact hnn
    · have := I2 (by omega)
      omega
  refine ⟨?_, ?_, ?_, ?_, ?_, ?_, ?_⟩
  · rw [f_wg, f_trace, adds_append, dones_append, adds_task, dones_task, h.count]
    push_cast
    omega
  · rw [f_wg]
    omega
  · rw [f_trace, adds_append, adds_task, add_zero]
    exact h.bound
  · rw [f_trace]
    intro hmem
    rcases List.mem_append.1 hmem with hmem | hmem
    · exact h.locked hmem
    · exact task_events_not_caller i ops _ hmem
  · rw [f_calls]
    exact h.suffix
  · rw [f_script, f_calls]
    exact h.inCall
  · intro _
    refine ⟨?_, ?_, ?_, ?_, ?_, ?_, ?_, ?_, ?_⟩
    · rw [f_wg, f_script]
      omega
    · rw [f_script]
      exact L.addHead
    · rw [f_script]
      intro hx
      exact I2 (by omega)
    · rw [f_script]
      intro hx
      exact L.waitP (by omega)
    · rw [f_script]
      exact L.waitG
    · rw [f_script]
      exact L.noTry
    · rw [f_script, f_mutex]
      exact L.mutex
    · have := L.total
      rw [f_trace, f_script, f_calls, adds_append, adds_task]
      omega
    · intro pre p post hsplit
      rw [f_script] at hsplit
      rcases L.root pre p post hsplit with h1 | ⟨z1, z2, z3, z4⟩
      · exact Or.inl h1
      · right
        rw [f_wg, f_script]
        refine ⟨by omega, by omega, z3, z4⟩

/-- The invariant is kept when the process stops or a producer submits a
message: steps that change neither the counter, the goroutines, nor the
caller. -/
theorem inv_inert (prog : List Call) (w w' : World) (evs : List (Tid × Op))
    (h : Inv prog w) (hevs : ∀ x ∈ evs, x.1 ≠ Tid.caller)
    (ha : adds evs = 0) (hd : dones evs = 0)
    (f_wg : w'.waitLogD = w.waitLogD) (f_tasks : w'.tasks = w.tasks)
    (f_trace : w'.trace = w.trace ++ evs)
    (f_script : w'.script = w.script) (f_calls : w'.calls = w.calls)
    (f_mutex : w'.mutexLogD = w.mutexLogD)
    (f_panic : w'.panicked = none → w.panicked = none) : Inv prog w' := by
  refine ⟨?_, ?_, ?_, ?_, ?_, ?_, ?_⟩
  · rw [f_wg, f_trace, adds_append, dones_append, ha, hd, h.count]
    push_cast
    omega
  · rw [f_wg]
    exact h.nonneg
  · rw [f_trace, adds_append, ha, add_zero]
    exact h.bound
  · rw [f_trace]
    intro hmem
    rcases List.mem_append.1 hmem with hmem | hmem
    · exact h.locked hmem
    · exact hevs _ hmem rfl
  · rw [f_calls]
    exact h.suffix
  · rw [f_script, f_calls]
    exact h.inCall
  · intro hp'
    have L := h.live (f_panic hp')
    refine ⟨?_, ?_, ?_, ?_, ?_, ?_, ?_, ?_, ?_⟩
    · rw [f_wg, f_tasks, f_script]
      exact L.owed
    · rw [f_script]
      exact L.addHead
    · rw [f_tasks, f_script]
      exact L.noAdd
    · rw [f_tasks, f_script]
      exact L.waitP
    · rw [f_script]
      exact L.waitG
    · rw [f_script]
      exact L.noTry
    · rw [f_script, f_mutex]
      exact L.mutex
    · have := L.total
      rw [f_trace, f_script, f_calls, adds_append, ha]
      omega
    · rw [f_wg, f_tasks, f_script]
      exact L.root

theorem effect_not_panic (w w1 : World) (op : Op) (h : effect w op = some w1)
    (hp : w1.panicked = none) : isPanic op = false := by
  cases op <;> simp only [effect, Option.some.injEq] at h <;> try rfl
  subst h
  simp at hp

theorem setChan_fields (w : World) (ch : Chan) (q : List String) :
    (w.setChan ch q).waitLogD = w.waitLogD ∧ (w.setChan ch q).tasks = w.tasks ∧
    (w.setChan ch q).trace = w.trace ∧ (w.setChan ch q).script = w.script ∧
    (w.setChan ch q).calls = w.calls ∧ (w.setChan ch q).mutexLogD = w.mutexLogD ∧
    (w.setChan ch q).panicked = w.panicked := by
  cases ch <;> simp [World.setChan]

/-- Every step of the process keeps the invariant. -/
theorem inv_step (prog : List Call) (w : World) (ch : Choice) (h : Inv prog w) :
    Inv prog (step w ch) := by
  unfold step
  split
  · exact h
  · rename_i hsome
    have hp : w.panicked = none := by
      cases hh : w.panicked
      · rfl
      · simp [hh] at hsome
    cases ch with
    | caller =>
      simp only
      rcases stepCaller_cases w with e | ⟨call, calls, hs, hc, hcs, e⟩ |
        ⟨op, rest, calls, w1, hsrc, heff, e⟩
      · rw [e]
        exact h
      · rw [e]
        exact inv_caller_skip prog w _ call calls h hp hs hc hcs rfl rfl rfl rfl rfl rfl
      · obtain ⟨f1, f2, f3, f4, f5, f6⟩ := effect_fields w w1 op heff
        have fm := effect_mutex w w1 op heff
        rw [e]
        rcases hsrc with ⟨hs, hcalls⟩ | ⟨hs, call, hc, hcs⟩
        · subst hcalls
          exact inv_caller_script prog w _ op rest h hp hs f1 f2 (by simp [f3]) rfl rfl fm f6
            (fun hp' => effect_not_panic w w1 op heff hp')
        · exact inv_caller_load prog w _ call calls op rest h hp hs hc hcs f1 f2
            (by simp [f3]) rfl rfl fm
    | task i e =>
      simp only
      rcases stepTask_cases i e w with e1 | ⟨g, ops, pc, hg, ha, e1⟩ | ⟨g, ops, msg, hg, ha, e1⟩
      · rw [e1]
        exact h
      · obtain ⟨f1, f2, f3, f4, f5, f6, -⟩ := foldl_taskEffect ops w
        rw [e1]
        have hd := advance_moved g.code g.cfg e _ _ g.pc pc ops ha
        exact inv_task_moved prog w _ i g { g with pc := pc } ops h hp hg hd f1
          (by simp [f2]) (by simp [f3]) f4 f5 f6
      · rw [e1]
        refine inv_inert prog w _ (ops.map (fun op => (Tid.task i, op))) h ?_
          (adds_task i ops) ?_ rfl rfl rfl rfl rfl rfl ?_
        · intro x hx
          simp only [List.mem_map] at hx
          obtain ⟨o, -, rfl⟩ := hx
          simp
        · rw [dones_task]
          exact advance_crashed _ _ _ _ _ _ _ _ ha
        · intro hx
          simp at hx
    | produce c msg =>
      simp only
      unfold stepProducer
      split
      · obtain ⟨f1, f2, f3, f4, f5, f6, f7⟩ := setChan_fields w c (w.chan c ++ [msg])
        refine inv_inert prog w _ [(Tid.producer, Op.send c msg)] h ?_ rfl rfl f1 f2 rfl f4 f5
          f6 ?_
        · simp
        · intro _
          exact hp
      · exact h

/-- The invariant holds in every state the process can reach. -/
theorem inv_run (prog : List Call) (sched : List Choice) (w : World) (h : Inv prog w) :
    Inv prog (run sched w) := by
  induction sched generalizing w with
  | nil => exact h
  | cons ch sched ih => exact ih (step w ch) (inv_step prog w ch h)

/-! ## From an event of the trace to the step that produced it -/

theorem run_append (s t : List Choice) (w : World) : run (s ++ t) w = run t (run s w) := by
  simp [run, List.foldl_append]

theorem step_trace (w : World) (ch : Choice) : ∃ evs, (step w ch).trace = w.trace ++ evs := by
  unfold step
  split
  · exact ⟨[], by simp⟩
  · cases ch with
    | caller =>
      simp only
      rcases stepCaller_cases w with e | ⟨call, calls, hs, hc, hcs, e⟩ |
        ⟨op, rest, calls, w1, hsrc, heff, e⟩
      · exact ⟨[], by rw [e]; simp⟩
      · exact ⟨[], by rw [e]; simp⟩
      · exact ⟨[(Tid.caller, op)], by rw [e]; simp [(effect_fields w w1 op heff).2.2.1]⟩
    | task i e =>
      simp only
      rcases stepTask_cases i e w with e1 | ⟨g, ops, pc, hg, ha, e1⟩ | ⟨g, ops, msg, hg, ha, e1⟩
      · exact ⟨[], by rw [e1]; simp⟩
      · exact ⟨ops.map (fun op => (Tid.task i, op)),
          by rw [e1]; simp [(foldl_taskEffect ops w).2.2.1]⟩
      · exact ⟨ops.map (fun op => (Tid.task i, op)), by rw [e1]⟩
    | produce c msg =>
      simp only
      unfold stepProducer
      split
      · exact ⟨[(Tid.producer, Op.send c msg)], rfl⟩
      · exact ⟨[], by simp⟩

/-- Every event of the trace was appended by one step of the schedule. -/
theorem event_origin (sched : List Choice) (w0 : World) (pre post : List (Tid × Op))
    (x : Tid × Op) (h : (run sched w0).trace = pre ++ x :: post)
    (hlen : w0.trace.length ≤ pre.length) :
    ∃ s1 ch s2 a b, sched = s1 ++ ch :: s2 ∧
      (step (run s1 w0) ch).trace = (run s1 w0).trace ++ (a ++ x :: b) ∧
      pre = (run s1 w0).trace ++ a := by
  induction sched using List.reverseRecOn generalizing pre post with
  | nil =>
    exfalso
    have := congrArg List.length h
    simp [run] at this
    omega
  | append_singleton s ch ih =>
    rw [run_append] at h
    simp only [run, List.foldl_cons, List.foldl_nil] at h
    obtain ⟨evs, hevs⟩ := step_trace (List.foldl step w0 s) ch
    rw [hevs] at h
    rcases trace_split _ _ _ _ _ h with ⟨post', h1⟩ | ⟨pre', h1, h2⟩
    · obtain ⟨s1, ch', s2, a, b, e1, e2, e3⟩ := ih pre post' h1 hlen
      exact ⟨s1, ch', s2 ++ [ch], a, b, by simp [e1], e2, e3⟩
    · exact ⟨s, ch, [], pre', post, rfl, by simp only [run]; rw [hevs, h2], h1⟩

/-- An event of the caller comes from a step in which the caller performs
that operation: the next one of the call in progress, or the first one of its
next call. -/
theorem caller_event (w : World) (ch : Choice) (a b : List (Tid × Op)) (op : Op)
    (h : (step w ch).trace = w.trace ++ (a ++ (Tid.caller, op) :: b)) :
    w.panicked = none ∧ a = [] ∧ ∃ rest calls w1, effect w op = some w1 ∧
      ((w.script = op :: rest ∧ calls = w.calls) ∨
       (w.script = [] ∧ ∃ call, w.calls = call :: calls ∧ callScript w call = op :: rest)) := by
  unfold step at h
  split at h
  · have := congrArg List.length h
    simp at this
  · rename_i hsome
    have hp : w.panicked = none := by
      cases hh : w.panicked
      · rfl
      · simp [hh] at hsome
    refine ⟨hp, ?_⟩
    cases ch with
    | caller =>
      simp only at h
      rcases stepCaller_cases w with e | ⟨call, calls, hs, hc, hcs, e⟩ |
        ⟨op', rest, calls, w1, hsrc, heff, e⟩
      · rw [e] at h
        have := congrArg List.length h
        simp at this
      · rw [e] at h
        have := congrArg List.length h
        simp at this
      · rw [e] at h
        simp only [(effect_fields w w1 op' heff).2.2.1, List.append_cancel_left_eq] at h
        cases a with
        | cons y l =>
          have := congrArg List.length h
          simp at this
        | nil =>
          simp only [List.nil_append, List.cons.injEq, Prod.mk.injEq, true_and] at h
          obtain ⟨h1, -⟩ := h
          subst h1
          exact ⟨rfl, rest, calls, w1, heff, hsrc⟩
    | task i e =>
      exfalso
      simp only at h
      rcases stepTask_cases i e w with e1 | ⟨g, ops, pc, hg, ha, e1⟩ | ⟨g, ops, msg, hg, ha, e1⟩
      · rw [e1] at h
        have := congrArg List.length h
        simp at this
      · rw [e1] at h
        simp only [(foldl_taskEffect ops w).2.2.1, List.append_cancel_left_eq] at h
        exact task_events_not_caller i ops op (by rw [h]; simp)
      · rw [e1] at h
        simp only [List.append_cancel_left_eq] at h
        exact task_events_not_caller i ops op (by rw [h]; simp)
    | produce c msg =>
      exfalso
      simp only at h
      unfold stepProducer at h
      split at h
      · simp only [List.append_cancel_left_eq] at h
        have : (Tid.caller, op) ∈ [(Tid.producer, Op.send c msg)] := by rw [h]; simp
        simp at this
      · have := congrArg List.length h
        simp at this

/-- An event of a goroutine comes from a step of that goroutine. -/
theorem task_event (w : World) (ch : Choice) (a b : List (Tid × Op)) (i : Nat) (op : Op)
    (h : (step w ch).trace = w.trace ++ (a ++ (Tid.task i, op) :: b)) :
    ∃ e g ops, ch = Choice.task i e ∧ w.tasks.get? i = some g ∧
      ops.map (fun o => (Tid.task i, o)) = a ++ (Tid.task i, op) :: b ∧
      ((∃ pc, advance g.code g.cfg e (w.chan g.code.chan).head? w.fileCons.length g.pc =
          Outcome.moved ops pc) ∨
       (∃ msg, advance g.code g.cfg e (w.chan g.code.chan).head? w.fileCons.length g.pc =
          Outcome.crashed ops msg)) := by
  unfold step at h
  split at h
  · have := congrArg List.length h
    simp at this
  · cases ch with
    | caller =>
      exfalso
      simp only at h
      rcases stepCaller_cases w with e | ⟨call, calls, hs, hc, hcs, e⟩ |
        ⟨op', rest, calls, w1, hsrc, heff, e⟩
      · rw [e] at h
        have := congrArg List.length h
        simp at this
      · rw [e] at h
        have := congrArg List.length h
        simp at this
      · rw [e] at h
        simp only [(effect_fields w w1 op' heff).2.2.1, List.append_cancel_left_eq] at h
        have : (Tid.task i, op) ∈ [(Tid.caller, op')] := by rw [h]; simp
        simp at this
    | task j e =>
      simp only at h
      rcases stepTask_cases j e w with e1 | ⟨g, ops, pc, hg, ha, e1⟩ | ⟨g, ops, msg, hg, ha, e1⟩
      · rw [e1] at h
        have := congrArg List.length h
        simp at this
      · rw [e1] at h
        simp only [(foldl_taskEffect ops w).2.2.1, List.append_cancel_left_eq] at h
        have hm : (Tid.task i, op) ∈ ops.map (fun o => (Tid.task j, o)) := by rw [h]; simp
        simp only [List.mem_map, Prod.mk.injEq, Tid.task.injEq] at hm
        obtain ⟨o, -, hji, -⟩ := hm
        subst hji
        exact ⟨e, g, ops, rfl, hg, h, Or.inl ⟨pc, ha⟩⟩
      · rw [e1] at h
        simp only [List.append_cancel_left_eq] at h
        have hm : (Tid.task i, op) ∈ ops.map (fun o => (Tid.task j, o)) := by rw [h]; simp
        simp only [List.mem_map, Prod.mk.injEq, Tid.task.injEq] at hm
        obtain ⟨o, -, hji, -⟩ := hm
        subst hji
        exact ⟨e, g, ops, rfl, hg, h, Or.inr ⟨msg, ha⟩⟩
    | produce c msg =>
      exfalso
      simp only at h
      unfold stepProducer at h
      split at h
      · simp only [List.append_cancel_left_eq] at h
        have : (Tid.task i, op) ∈ [(Tid.producer, Op.send c msg)] := by rw [h]; simp
        simp at this
      · have := congrArg List.length h
        simp at this

/-! ## The readiness signal of each goroutine -/

theorem doneCount_zero (ops : List Op) (h : doneCount ops = 0) : Op.wgDone ∉ ops := by
  induction ops with
  | nil => simp
  | cons x l ih =>
    rw [doneCount_cons] at h
    intro hm
    rcases List.mem_cons.1 hm with h1 | h1
    · subst h1
      simp [doneCount] at h
    · exact ih (by omega) h1

theorem beq_busy (m : String) :
    (Pc.busy m == Pc.start) = false ∧ (Pc.busy m == Pc.dialed) = false ∧
    (Pc.ready == Pc.start) = false ∧ (Pc.ready == Pc.dialed) = false :=
  ⟨beq_false_of_ne (by simp), beq_false_of_ne (by simp), beq_false_of_ne (by simp),
    beq_false_of_ne (by simp)⟩

theorem advance_detail (t : Task) (c : LogD) (e : Env) (head : Option String) (n : Nat)
    (pc pc' : Pc) (ops : List Op) (h : advance t c e head n pc = Outcome.moved ops pc') :
    (ops = [Op.wgDone] ∧ (Goroutine.mk t c pc).owes = true ∧
      (Goroutine.mk t c pc').owes = false ∧ (t = Task.fileWriter → pc = Pc.dialed)) ∨
    (Op.wgDone ∉ ops ∧ (Goroutine.mk t c pc').owes = (Goroutine.mk t c pc).owes ∧
      (t = Task.fileWriter → pc ≠ Pc.dialed → pc' ≠ Pc.dialed)) := by
  rcases e with ⟨ok, err, now⟩
  cases pc with
  | start =>
    cases ok <;> cases t <;> simp [advance, Task.priority] at h <;>
      obtain ⟨rfl, rfl⟩ := h <;> simp [Goroutine.owes, Task.signals]
  | dialed =>
    simp [advance] at h
    obtain ⟨rfl, rfl⟩ := h
    simp [Goroutine.owes]
  | ready =>
    cases head with
    | none => simp [advance] at h
    | some m =>
      simp [advance] at h
      obtain ⟨rfl, rfl⟩ := h
      simp [Goroutine.owes, beq_busy m]
  | busy m =>
    simp only [advance] at h
    obtain ⟨rfl, hd⟩ := handle_moved t c _ n m ops pc' h
    right
    exact ⟨doneCount_zero ops hd, by simp [Goroutine.owes, beq_busy m], by simp⟩

theorem taskInv_init (prog : List Call) : TaskInv (World.init prog) where
  early := by simp [World.init]
  beyond := by simp [World.init]
  once := by simp [World.init]
  late := by simp [World.init]
  writer := by simp [World.init]

/-- Steps that append no readiness signal and at most start a goroutine. -/
theorem taskInv_grow (w w' : World) (evs : List (Tid × Op)) (new : List Goroutine)
    (h : TaskInv w) (hevs : ∀ i, (Tid.task i, Op.wgDone) ∉ evs)
    (hnew : ∀ g ∈ new, g.pc = Pc.start)
    (f_tasks : w'.tasks = w.tasks ++ new) (f_trace : w'.trace = w.trace ++ evs) :
    TaskInv w' := by
  have hmem : ∀ i, (Tid.task i, Op.wgDone) ∈ w'.trace ↔ (Tid.task i, Op.wgDone) ∈ w.trace := by
    intro i
    rw [f_trace, List.mem_append]
    exact ⟨fun hx => hx.resolve_right (hevs i), Or.inl⟩
  have hget : ∀ i g, w'.tasks.get? i = some g →
      w.tasks.get? i = some g ∨ (w.tasks.get? i = none ∧ g ∈ new) := by
    intro i g hg
    rw [f_tasks] at hg
    by_cases hi : i < w.tasks.length
    · rw [List.get?_eq_getElem?, List.getElem?_append_left hi] at hg
      exact Or.inl (by rw [List.get?_eq_getElem?]; exact hg)
    · right
      rw [List.get?_eq_getElem?, List.getElem?_append_right (by omega)] at hg
      obtain ⟨hlt, heq⟩ := List.getElem?_eq_some_iff.1 hg
      exact ⟨by rw [List.get?_eq_getElem?]; exact List.getElem?_eq_none (by omega),
        heq ▸ List.getElem_mem hlt⟩
  refine ⟨?_, ?_, ?_, ?_, ?_⟩
  · intro i g hg ho
    rw [hmem]
    rcases hget i g hg with h1 | ⟨h1, -⟩
    · exact h.early i g h1 ho
    · exact h.beyond i h1
  · intro i hi
    rw [hmem]
    refine h.beyond i ?_
    rw [f_tasks] at hi
    rw [List.get?_eq_getElem?] at hi ⊢
    rw [List.getElem?_eq_none_iff] at hi ⊢
    simp at hi
    omega
  · intro i
    rw [f_trace, List.count_append, List.count_eq_zero_of_not_mem (hevs i)]
    exact h.once i
  · intro i g hg ho hs
    rw [hmem]
    rcases hget i g hg with h1 | ⟨-, h1⟩
    · exact h.late i g h1 ho hs
    · exfalso
      have := hnew g h1
      simp [Goroutine.owes, this, hs] at ho
  · intro i g hg hc
    rw [hmem]
    rcases hget i g hg with h1 | ⟨h1, h2⟩
    · exact h.writer i g h1 hc
    · exact ⟨h.beyond i h1, by rw [hnew g h2]; simp⟩

/-- A step in which goroutine `j` moves on. -/
theorem taskInv_moved (w w' : World) (j : Nat) (g : Goroutine) (pc : Pc) (ops : List Op)
    (h : TaskInv w) (hg : w.tasks.get? j = some g)
    (hd : (ops = [Op.wgDone] ∧ g.owes = true ∧
        (Goroutine.mk g.code g.cfg pc).owes = false ∧ (g.code = Task.fileWriter → g.pc = Pc.dialed)) ∨
      (Op.wgDone ∉ ops ∧ (Goroutine.mk g.code g.cfg pc).owes = g.owes ∧
        (g.code = Task.fileWriter → g.pc ≠ Pc.dialed → pc ≠ Pc.dialed)))
    (f_tasks : w'.tasks = w.tasks.set j { g with pc := pc })
    (f_trace : w'.trace = w.trace ++ ops.map (fun op => (Tid.task j, op))) :
    TaskInv w' := by
  have hother : ∀ i, i ≠ j → ((Tid.task i, Op.wgDone) ∈ w'.trace ↔
      (Tid.task i, Op.wgDone) ∈ w.trace) := by
    intro i hij
    rw [f_trace, List.mem_append]
    refine ⟨fun hx => hx.resolve_right ?_, Or.inl⟩
    simp only [List.mem_map, Prod.mk.injEq, Tid.task.injEq, not_exists, not_and]
    intro o _ hji
    exact absurd hji.symm hij
  have hself : (Tid.task j, Op.wgDone) ∈ w'.trace ↔
      ((Tid.task j, Op.wgDone) ∈ w.trace ∨ Op.wgDone ∈ ops) := by
    rw [f_trace, List.mem_append]
    simp
  have hgetj : w'.tasks.get? j = some { g with pc := pc } := by
    rw [f_tasks, List.get?_eq_getElem?, List.getElem?_set_self]
    have hj : j < w.tasks.length := by
      rw [List.get?_eq_getElem?] at hg
      exact (List.getElem?_eq_some_iff.1 hg).1
    simp [hj]
  have hgeti : ∀ i, i ≠ j → w'.tasks.get? i = w.tasks.get? i := by
    intro i hij
    rw [f_tasks, List.get?_eq_getElem?, List.get?_eq_getElem?,
      List.getElem?_set_ne (Ne.symm hij)]
  refine ⟨?_, ?_, ?_, ?_, ?_⟩
  · intro i g' hg' ho
    by_cases hij : i = j
    · subst hij
      rw [hgetj] at hg'
      simp only [Option.some.injEq] at hg'
      subst hg'
      rw [hself]
      rcases hd with ⟨-, -, h3, -⟩ | ⟨h1, h2, -⟩
      · rw [h3] at ho
        simp at ho
      · rw [h2] at ho
        exact fun hx => hx.elim (h.early i g hg ho) h1
    · rw [hother i hij]
      rw [hgeti i hij] at hg'
      exact h.early i g' hg' ho
  · intro i hi
    by_cases hij : i = j
    · subst hij
      rw [hgetj] at hi
      simp at hi
    · rw [hother i hij]
      rw [hgeti i hij] at hi
      exact h.beyond i hi
  · intro i
    rw [f_trace, List.count_append]
    by_cases hij : i = j
    · subst hij
      rcases hd with ⟨h1, h2, -, -⟩ | ⟨h1, -, -⟩
      · have := List.count_eq_zero_of_not_mem (h.early i g hg h2)
        rw [this, h1]
        simp
      · have hn : (Tid.task i, Op.wgDone) ∉ ops.map (fun op => (Tid.task i, op)) := by
          simpa using h1
        rw [List.count_eq_zero_of_not_mem hn]
        exact h.once i
    · have hn : (Tid.task i, Op.wgDone) ∉ ops.map (fun op => (Tid.task j, op)) := by
        simp only [List.mem_map, Prod.mk.injEq, Tid.task.injEq, not_exists, not_and]
        intro o _ hji
        exact absurd hji.symm hij
      rw [List.count_eq_zero_of_not_mem hn]
      exact h.once i
  · intro i g' hg' ho hs
    by_cases hij : i = j
    · subst hij
      rw [hgetj] at hg'
      simp only [Option.some.injEq] at hg'
      subst hg'
      rw [hself]
      rcases hd with ⟨h1, -, -, -⟩ | ⟨-, h2, -⟩
      · right
        rw [h1]
        simp
      · left
        rw [h2] at ho
        exact h.late i g hg ho hs
    · rw [hother i hij]
      rw [hgeti i hij] at hg'
      exact h.late i g' hg' ho hs
  · intro i g' hg' hc
    by_cases hij : i = j
    · subst hij
      rw [hgetj] at hg'
      simp only [Option.some.injEq] at hg'
      subst hg'
      have hw := h.writer i g hg hc
      rw [hself]
      rcases hd with ⟨-, -, -, h4⟩ | ⟨h1, -, h3⟩
      · exact absurd (h4 hc) hw.2
      · exact ⟨fun hx => hx.elim hw.1 h1, h3 hc hw.2⟩
    · rw [hother i hij]
      rw [hgeti i hij] at hg'
      exact h.writer i g' hg' hc

theorem taskInv_step (w : World) (ch : Choice) (h : TaskInv w) : TaskInv (step w ch) := by
  unfold step
  split
  · exact h
  · cases ch with
    | caller =>
      simp only
      rcases stepCaller_cases w with e | ⟨call, calls, hs, hc, hcs, e⟩ |
        ⟨op, rest, calls, w1, hsrc, heff, e⟩
      · rw [e]
        exact h
      · rw [e]
        exact taskInv_grow w _ [] [] h (by simp) (by simp) (by simp) (by simp)
      · obtain ⟨-, f2, f3, -⟩ := effect_fields w w1 op heff
        rw [e]
        refine taskInv_grow w _ [(Tid.caller, op)] (opGo op) h (by simp) ?_ f2 (by simp [f3])
        intro g hg
        cases op <;> simp [opGo] at hg
        rw [hg]
    | task i e =>
      simp only
      rcases stepTask_cases i e w with e1 | ⟨g, ops, pc, hg, ha, e1⟩ | ⟨g, ops, msg, hg, ha, e1⟩
      · rw [e1]
        exact h
      · obtain ⟨-, f2, f3, -⟩ := foldl_taskEffect ops w
        rw [e1]
        exact taskInv_moved w _ i g pc ops h hg
          (advance_detail g.code g.cfg e _ _ g.pc pc ops ha) (by simp [f2]) (by simp [f3])
      · rw [e1]
        refine taskInv_grow w _ (ops.map (fun op => (Tid.task i, op))) [] h ?_ (by simp)
          (by simp) rfl
        intro k hk
        have := doneCount_zero ops (advance_crashed _ _ _ _ _ _ _ _ ha)
        simp only [List.mem_map, Prod.mk.injEq] at hk
        obtain ⟨o, ho, -, rfl⟩ := hk
        exact this ho
    | produce c msg =>
      simp only
      unfold stepProducer
      split
      · obtain ⟨-, f2, -⟩ := setChan_fields w c (w.chan c ++ [msg])
        exact taskInv_grow w _ [(Tid.producer, Op.send c msg)] [] h (by simp) (by simp)
          (by simp [f2]) rfl
      · exact h

theorem taskInv_run (sched : List Choice) (w : World) (h : TaskInv w) :
    TaskInv (run sched w) := by
  induction sched generalizing w with
  | nil => exact h
  | cons ch sched ih => exact ih (step w ch) (taskInv_step w ch h)

/-! ## Readiness -/

theorem Task.chan_fileCons (t : Task) : t.chan = Chan.fileCons ↔ t = Task.fileWriter := by
  cases t <;> simp [Task.chan]

theorem handle_no_recv (t : Task) (c : LogD) (e : Env) (n : Nat) (msg : String)
    (ops : List Op) (pc : Pc) (h : handle t c e n msg = Outcome.moved ops pc)
    (ch : Chan) (m : String) : Op.recv ch m ∉ ops := by
  cases t <;> simp only [handle] at h
  case fileWriter =>
    split at h <;> simp at h
    obtain ⟨rfl, -⟩ := h
    simp
  case fileInfo =>
    split at h <;> simp at h
    obtain ⟨rfl, -⟩ := h
    simp
  case fileDebug =>
    split at h <;> simp at h
    obtain ⟨rfl, -⟩ := h
    simp
  case fileErr =>
    split at h <;> simp at h
    obtain ⟨rfl, -⟩ := h
    simp
  all_goals
    simp only [Outcome.moved.injEq] at h
    obtain ⟨rfl, -⟩ := h
    simp [ShowInf, ShowErr, ShowDebug, Show]

theorem advance_recv (t : Task) (c : LogD) (e : Env) (head : Option String) (n : Nat)
    (pc : Pc) (ops : List Op)
    (h : (∃ pc', advance t c e head n pc = Outcome.moved ops pc') ∨
      (∃ msg, advance t c e head n pc = Outcome.crashed ops msg))
    (ch : Chan) (m : String) (hm : Op.recv ch m ∈ ops) :
    pc = Pc.ready ∧ ops = [Op.recv ch m] ∧ t.chan = ch := by
  rcases e with ⟨ok, err, now⟩
  rcases h with ⟨pc', h⟩ | ⟨msg, h⟩
  · cases pc with
    | start =>
      exfalso
      cases ok <;> cases t <;> simp [advance, Task.priority] at h <;>
        obtain ⟨rfl, -⟩ := h <;> simp at hm
    | dialed =>
      exfalso
      simp [advance] at h
      obtain ⟨rfl, -⟩ := h
      simp at hm
    | ready =>
      cases head with
      | none => simp [advance] at h
      | some m' =>
        simp [advance] at h
        obtain ⟨rfl, -⟩ := h
        simp at hm
        obtain ⟨rfl, rfl⟩ := hm
        exact ⟨rfl, rfl, rfl⟩
    | busy m' =>
      exfalso
      simp only [advance] at h
      exact handle_no_recv t c _ n m' ops pc' h ch m hm
  · exfalso
    cases pc with
    | start =>
      cases ok <;> cases t <;> simp [advance, Task.priority] at h <;>
        obtain ⟨rfl, -⟩ := h <;> simp [ShowErr, Show] at hm
    | dialed => simp [advance] at h
    | ready => cases head <;> simp [advance] at h
    | busy m' =>
      simp only [advance] at h
      cases ok <;> cases t <;> simp [handle] at h
      · obtain ⟨rfl, -⟩ := h
        simp at hm
      all_goals (split at h <;> simp at h)

/-- A goroutine receives a message from `LogInfo`, `LogErr` or `LogDebug`
only after it has signalled readiness. -/
theorem recv_after_done (prog : List Call) (sched : List Choice) (i : Nat) (ch : Chan)
    (m : String) (pre post : List (Tid × Op)) (hch : ch ≠ Chan.fileCons)
    (h : (run sched (World.init prog)).trace = pre ++ (Tid.task i, Op.recv ch m) :: post) :
    (Tid.task i, Op.wgDone) ∈ pre := by
  obtain ⟨s1, ch', s2, a, b, -, e2, e3⟩ :=
    event_origin sched (World.init prog) pre post _ h (by simp [World.init])
  obtain ⟨e, g, ops, -, hg, hmap, hadv⟩ := task_event _ ch' a b i _ e2
  have hmem : Op.recv ch m ∈ ops := by
    have : (Tid.task i, Op.recv ch m) ∈ ops.map (fun o => (Tid.task i, o)) := by
      rw [hmap]; simp
    simpa using this
  obtain ⟨hpc, hops, hchan⟩ := advance_recv _ _ _ _ _ _ ops hadv ch m hmem
  have ha : a = [] := by
    rw [hops] at hmap
    cases a with
    | nil => rfl
    | cons y l =>
      have := congrArg List.length hmap
      simp at this
  have T := taskInv_run s1 _ (taskInv_init prog)
  have hsig : g.code.signals = true := by
    cases hc : g.code <;> simp [Task.signals]
    rw [hc] at hchan
    exact hch (by rw [← hchan]; rfl)
  have := T.late i g hg (by simp [Goroutine.owes, hpc, (beq_busy "").2.2]) hsig
  rw [e3, ha, List.append_nil]
  exact this

/-- When the caller of a process that makes the single call `LogDaemon c`
passes `waitLogD.Wait()`, 3 has been added to the counter and 3 readiness
signals have been sent. -/
theorem wait_after_signals (c : LogD) (hc : c.LogMode ≠ "") (sched : List Choice)
    (pre post : List (Tid × Op))
    (h : (run sched (World.init [Call.LogDaemon c])).trace =
      pre ++ (Tid.caller, Op.wgWait) :: post) :
    adds pre = 3 ∧ dones pre = 3 := by
  obtain ⟨s1, ch', s2, a, b, -, e2, e3⟩ :=
    event_origin sched (World.init [Call.LogDaemon c]) pre post _ h (by simp [World.init])
  obtain ⟨hp, ha, rest, calls, w1, heff, hsrc⟩ := caller_event _ ch' a b _ e2
  have I := inv_run [Call.LogDaemon c] s1 _ (inv_init _)
  have L := I.live hp
  have hz := (effect_fields _ w1 _ heff).2.2.2.2.2 rfl
  rw [e3, ha, List.append_nil]
  rcases hsrc with ⟨hs, -⟩ | ⟨hs, call, hcalls, hcs⟩
  · obtain ⟨done, call, hprog, -⟩ := I.inCall Op.wgWait (by rw [hs]; exact List.mem_cons_self _ _)
    have hcalls : (run s1 (World.init [Call.LogDaemon c])).calls = [] := by
      cases done with
      | nil =>
        simp only [List.nil_append, List.cons.injEq] at hprog
        exact hprog.2.symm
      | cons d l =>
        have := congrArg List.length hprog
        simp at this
    have ht := L.total
    rw [hs, hcalls] at ht
    simp only [headAdd, opAdd, expected, hc, if_false] at ht
    have hcount := I.count
    omega
  · exfalso
    have hm : (run s1 (World.init [Call.LogDaemon c])).mutexLogD = false := by
      cases hmx : (run s1 (World.init [Call.LogDaemon c])).mutexLogD
      · rfl
      · obtain ⟨x, hx, -⟩ := L.mutex hmx
        rw [hs] at hx
        simp at hx
    exact (callScript_load _ call calls _ rest hm hcs).2.2.1 rfl

theorem dones_le_of_split (t pre post : List (Tid × Op)) (x : Tid × Op)
    (h : t = pre ++ x :: post) : dones pre ≤ dones t := by
  rw [h, dones_append]
  omega

/-! ## A schedule in which `LogDaemon` returns -/

theorem step_caller_script (w w1 : World) (op : Op) (rest : List Op)
    (hp : w.panicked = none) (hs : w.script = op :: rest) (heff : effect w op = some w1) :
    step w Choice.caller =
      { w1 with script := rest, calls := w.calls, trace := w1.trace ++ [(Tid.caller, op)] } := by
  simp [step, hp, stepCaller, hs, perform, heff]

theorem step_caller_load (w w1 : World) (call : Call) (calls : List Call) (op : Op)
    (rest : List Op) (hp : w.panicked = none) (hs : w.script = [])
    (hc : w.calls = call :: calls) (hcs : callScript w call = op :: rest)
    (heff : effect w op = some w1) :
    step w Choice.caller =
      { w1 with script := rest, calls := calls, trace := w1.trace ++ [(Tid.caller, op)] } := by
  simp [step, hp, stepCaller, hs, hc, hcs, perform, heff]

theorem at_init (w : World) (op : Op) (rest : List Op) (ts : List Goroutine) (n : Int)
    (h : At w (op :: rest) ts n) (hop : isInit op = true) :
    At (step w Choice.caller) rest (ts ++ opGo op) n := by
  obtain ⟨hp, hs, ht, hn⟩ := h
  have heff : ∃ w1, effect w op = some w1 ∧ w1.panicked = none := by
    cases op <;> simp [isInit] at hop <;> simp [effect, hp]
  obtain ⟨w1, heff, hp1⟩ := heff
  obtain ⟨f1, f2, -⟩ := effect_fields w w1 op heff
  rw [step_caller_script w w1 op rest hp hs heff]
  refine ⟨hp1, rfl, by simp [f2, ht], ?_⟩
  have : opAdd op = 0 := by cases op <;> simp [isInit] at hop <;> rfl
  simp [f1, hn, this]

theorem at_inits (pre rest : List Op) (w : World) (ts : List Goroutine) (n : Int)
    (h : At w (pre ++ rest) ts n) (hpre : ∀ op ∈ pre, isInit op = true) :
    At (run (List.replicate pre.length Choice.caller) w) rest (ts ++ pre.flatMap opGo) n := by
  induction pre generalizing w ts with
  | nil => simpa [run] using h
  | cons op pre ih =>
    have h1 := at_init w op (pre ++ rest) ts n h (hpre op (List.mem_cons_self _ _))
    have h2 := ih (step w Choice.caller) (ts ++ opGo op) h1
      (fun x hx => hpre x (List.mem_cons_of_mem _ hx))
    simpa [run, List.replicate_succ, List.flatMap_cons, List.append_assoc] using h2

theorem at_add (w : World) (k : Int) (rest : List Op) (ts : List Goroutine) (n : Int)
    (h : At w (Op.wgAdd k :: rest) ts n) (hk : 0 ≤ n + k) :
    At (step w Choice.caller) rest ts (n + k) := by
  obtain ⟨hp, hs, ht, hn⟩ := h
  have heff : effect w (Op.wgAdd k) = some { w with waitLogD := w.waitLogD + k } := by
    simp only [effect, World.wgAdd]
    rw [if_neg (by rw [hn]; omega)]
  rw [step_caller_script w _ _ rest hp hs heff]
  exact ⟨hp, rfl, ht, by simp [hn]⟩

theorem at_wait (w : World) (rest : List Op) (ts : List Goroutine)
    (h : At w (Op.wgWait :: rest) ts 0) :
    At (step w Choice.caller) rest ts 0 ∧
      (Tid.caller, Op.wgWait) ∈ (step w Choice.caller).trace := by
  obtain ⟨hp, hs, ht, hn⟩ := h
  have heff : effect w Op.wgWait = some w := by simp [effect, hn]
  rw [step_caller_script w _ _ rest hp hs heff]
  exact ⟨⟨hp, rfl, ht, hn⟩, by simp⟩

theorem at_load (c : LogD) (calls : List Call) (w : World)
    (ts : List Goroutine) (n : Int) (h : At w [] ts n) (hc : w.calls = Call.LogDaemon c :: calls)
    (hm : w.mutexLogD = false) (rest : List Op)
    (hcs : LogDaemon c false = Op.tryLock true :: rest) :
    At (step w Choice.caller) rest ts n := by
  obtain ⟨hp, hs, ht, hn⟩ := h
  have heff : effect w (Op.tryLock true) = some { w with mutexLogD := true } := by
    simp [effect]
  rw [step_caller_load w _ (Call.LogDaemon c) calls (Op.tryLock true) rest hp hs hc
    (by simp [callScript, hm, hcs]) heff]
  exact ⟨hp, rfl, ht, hn⟩

/-- A goroutine at its first statement that is neither of `sysl` nor the
file writer signals readiness. -/
theorem at_done (w : World) (s : List Op) (ts : List Goroutine) (n : Int) (i : Nat)
    (t : Task) (c : LogD) (h : At w s ts n) (hg : ts.get? i = some ⟨t, c, Pc.start⟩)
    (ht : t.priority = none) (hw : t ≠ Task.fileWriter) (hn : 1 ≤ n) :
    At (step w (Choice.task i okEnv)) s (ts.set i ⟨t, c, Pc.ready⟩) (n - 1) := by
  obtain ⟨hp, hs, hts, hwg⟩ := h
  subst hts
  rw [List.get?_eq_getElem?] at hg
  have hneg : ¬ (n + -1 < 0) := by omega
  simp [step, hp, stepTask, hg, advance, ht, hw, taskEffect, World.wgAdd, At, hwg, hneg, hs]
  omega

/-- A goroutine of `sysl` at its first statement dials the system log. -/
theorem at_dial (w : World) (s : List Op) (ts : List Goroutine) (n : Int) (i : Nat)
    (t : Task) (c : LogD) (p : Priority) (h : At w s ts n)
    (hg : ts.get? i = some ⟨t, c, Pc.start⟩) (ht : t.priority = some p) :
    At (step w (Choice.task i okEnv)) s (ts.set i ⟨t, c, Pc.dialed⟩) n := by
  obtain ⟨hp, hs, hts, hwg⟩ := h
  subst hts
  rw [List.get?_eq_getElem?] at hg
  simp [step, hp, stepTask, hg, advance, ht, okEnv, taskEffect, At, hwg, hs]

/-- A goroutine of `sysl` that has dialed signals readiness. -/
theorem at_dialed (w : World) (s : List Op) (ts : List Goroutine) (n : Int) (i : Nat)
    (t : Task) (c : LogD) (h : At w s ts n) (hg : ts.get? i = some ⟨t, c, Pc.dialed⟩)
    (hn : 1 ≤ n) :
    At (step w (Choice.task i okEnv)) s (ts.set i ⟨t, c, Pc.ready⟩) (n - 1) := by
  obtain ⟨hp, hs, hts, hwg⟩ := h
  subst hts
  rw [List.get?_eq_getElem?] at hg
  have hneg : ¬ (n + -1 < 0) := by omega
  simp [step, hp, stepTask, hg, advance, taskEffect, World.wgAdd, At, hwg, hneg, hs]
  omega

theorem at_backend (c : LogD) (backend : List Op)
    (hcs : LogDaemon c false = [Op.tryLock true, Op.wgAdd 3] ++ backend ++ [Op.wgWait])
    (hb : ∀ op ∈ backend, isInit op = true) :
    At (run (List.replicate (2 + backend.length) Choice.caller) (World.init [Call.LogDaemon c]))
      [Op.wgWait] (backend.flatMap opGo) 3 := by
  have h0 : At (World.init [Call.LogDaemon c]) [] [] 0 := ⟨rfl, rfl, rfl, rfl⟩
  have h1 := at_load c [] _ [] 0 h0 rfl rfl (Op.wgAdd 3 :: (backend ++ [Op.wgWait]))
    (by simpa using hcs)
  have h2 := at_add _ 3 (backend ++ [Op.wgWait]) [] 0 h1 (by norm_num)
  have h3 := at_inits backend [Op.wgWait] _ [] (0 + 3) h2 hb
  have hr : List.replicate (2 + backend.length) Choice.caller =
      [Choice.caller, Choice.caller] ++ List.replicate backend.length Choice.caller := by
    rw [List.replicate_add]; rfl
  rw [hr, run_append]
  simpa [run] using h3

/-- Three goroutines that signal at their first statement, then the caller. -/
theorem at_signals (w : World) (ts : List Goroutine) (k : Nat) (t0 t1 t2 : Task) (c : LogD)
    (h : At w [Op.wgWait] ts 3)
    (g0 : ts.get? k = some ⟨t0, c, Pc.start⟩)
    (g1 : ts.get? (k + 1) = some ⟨t1, c, Pc.start⟩)
    (g2 : ts.get? (k + 2) = some ⟨t2, c, Pc.start⟩)
    (h0 : t0.priority = none ∧ t0 ≠ Task.fileWriter)
    (h1 : t1.priority = none ∧ t1 ≠ Task.fileWriter)
    (h2 : t2.priority = none ∧ t2 ≠ Task.fileWriter) :
    (run [Choice.task k okEnv, Choice.task (k + 1) okEnv,
        Choice.task (k + 2) okEnv, Choice.caller] w).panicked = none ∧
    (run [Choice.task k okEnv, Choice.task (k + 1) okEnv,
        Choice.task (k + 2) okEnv, Choice.caller] w).script = [] ∧
    (Tid.caller, Op.wgWait) ∈ (run [Choice.task k okEnv,
        Choice.task (k + 1) okEnv, Choice.task (k + 2) okEnv,
        Choice.caller] w).trace := by
  rw [List.get?_eq_getElem?] at g0 g1 g2
  have a := at_done w _ _ 3 k t0 c h (by simpa using g0) h0.1 h0.2 (by norm_num)
  have b := at_done _ _ _ _ (k + 1) t1 c a
    (by rw [List.get?_eq_getElem?, List.getElem?_set_ne (by omega)]; exact g1)
    h1.1 h1.2 (by norm_num)
  have d := at_done _ _ _ _ (k + 2) t2 c b
    (by rw [List.get?_eq_getElem?, List.getElem?_set_ne (by omega),
          List.getElem?_set_ne (by omega)]; exact g2)
    h2.1 h2.2 (by norm_num)
  have e := at_wait _ [] _ (by simpa using d)
  exact ⟨e.1.1, e.1.2.1, e.2⟩

/-- Three goroutines of `sysl`: each dials, then signals; then the caller. -/
theorem at_dials (w : World) (t0 t1 t2 : Task) (c : LogD) (p0 p1 p2 : Priority)
    (h : At w [Op.wgWait] [⟨t0, c, Pc.start⟩, ⟨t1, c, Pc.start⟩, ⟨t2, c, Pc.start⟩] 3)
    (h0 : t0.priority = some p0) (h1 : t1.priority = some p1) (h2 : t2.priority = some p2) :
    (run [Choice.task 0 okEnv, Choice.task 0 okEnv, Choice.task 1 okEnv, Choice.task 1 okEnv,
        Choice.task 2 okEnv, Choice.task 2 okEnv, Choice.caller] w).panicked = none ∧
    (run [Choice.task 0 okEnv, Choice.task 0 okEnv, Choice.task 1 okEnv, Choice.task 1 okEnv,
        Choice.task 2 okEnv, Choice.task 2 okEnv, Choice.caller] w).script = [] ∧
    (Tid.caller, Op.wgWait) ∈ (run [Choice.task 0 okEnv, Choice.task 0 okEnv,
        Choice.task 1 okEnv, Choice.task 1 okEnv, Choice.task 2 okEnv, Choice.task 2 okEnv,
        Choice.caller] w).trace := by
  have a := at_dial w _ _ 3 0 t0 c p0 h (by simp) h0
  have a2 := at_dialed _ _ _ _ 0 t0 c a (by simp) (by norm_num)
  have b := at_dial _ _ _ _ 1 t1 c p1 a2 (by simp) h1
  have b2 := at_dialed _ _ _ _ 1 t1 c b (by simp) (by norm_num)
  have d := at_dial _ _ _ _ 2 t2 c p2 b2 (by simp) h2
  have d2 := at_dialed _ _ _ _ 2 t2 c d (by simp) (by norm_num)
  have e := at_wait _ [] _ (by simpa using d2)
  exact ⟨e.1.1, e.1.2.1, e.2⟩

/-- With a valid mode there is a schedule under which `LogDaemon` returns:
the caller gets past `waitLogD.Wait()` and the process has not panicked. -/
theorem LogDaemon_can_return (c : LogD)
    (hm : c.LogMode = "MUTE" ∨ c.LogMode = "CONSOLE" ∨ c.LogMode = "SYSLOG" ∨
      c.LogMode = "FILE") :
    ∃ sched, (run sched (World.init [Call.LogDaemon c])).panicked = none ∧
      (run sched (World.init [Call.LogDaemon c])).script = [] ∧
      (Tid.caller, Op.wgWait) ∈ (run sched (World.init [Call.LogDaemon c])).trace := by
  rcases hm with hm | hm | hm | hm
  · have h := at_backend c (mute c) (by simp [LogDaemon, hm]) (by simp [mute, isInit, ShowInf, Show])
    have r := at_signals _ _ 0 Task.muteInfo Task.muteErr Task.muteDebug c h
      rfl rfl rfl (by decide) (by decide) (by decide)
    rw [← run_append] at r
    exact ⟨_, r⟩
  · have h := at_backend c (cons c) (by simp [LogDaemon, hm]) (by simp [cons, isInit])
    have r := at_signals _ _ 0 Task.consInfo Task.consErr Task.consDebug c h
      rfl rfl rfl (by decide) (by decide) (by decide)
    rw [← run_append] at r
    exact ⟨_, r⟩
  · have h := at_backend c (sysl c) (by simp [LogDaemon, hm]) (by simp [sysl, isInit])
    have r := at_dials _ Task.syslInfo Task.syslErr Task.syslDebug c _ _ _
      (by simpa [sysl, opGo] using h) rfl rfl rfl
    rw [← run_append] at r
    exact ⟨_, r⟩
  · have h := at_backend c (file c) (by simp [LogDaemon, hm]) (by simp [file, isInit])
    have r := at_signals _ _ 1 Task.fileInfo Task.fileDebug Task.fileErr c h
      rfl rfl rfl (by decide) (by decide) (by decide)
    rw [← run_append] at r
    exact ⟨_, r⟩

/-! ## `Chroot` returns -/

theorem effect_plain (w : World) (op : Op) (hplain : plain op = true) (hz : w.waitLogD = 0)
    (hroom : ∀ ch, (w.chan ch).length < chanCap) :
    ∃ w1, effect w op = some w1 ∧ w1.waitLogD = 0 ∧ w1.panicked = w.panicked ∧
      w1.trace = w.trace ∧ ∀ ch, (w1.chan ch).length ≤ (w.chan ch).length + 1 := by
  cases op <;> simp [plain] at hplain
  case wgWait => exact ⟨w, by simp [effect, hz], hz, rfl, rfl, fun ch => by omega⟩
  case send c m =>
    refine ⟨w.setChan c (w.chan c ++ [m]), by simp [effect, hroom c], ?_, ?_, ?_, ?_⟩
    · rw [(setChan_fields _ _ _).1, hz]
    · exact (setChan_fields _ _ _).2.2.2.2.2.2
    · exact (setChan_fields _ _ _).2.2.1
    · intro ch
      cases c <;> cases ch <;> simp [World.setChan, World.chan]
  all_goals exact ⟨w, rfl, hz, rfl, rfl, fun ch => by omega⟩

theorem chan_with (w : World) (s : List Op) (cs : List Call) (tr : List (Tid × Op)) (ch : Chan) :
    ({ w with script := s, calls := cs, trace := tr } : World).chan ch = w.chan ch := by
  cases ch <;> rfl

/-- The caller runs a script of `Chroot` operations to its end when the
counter of `waitLogD` is zero and the channels have room. -/
theorem run_plain (ops : List Op) (w : World) (hp : w.panicked = none) (hs : w.script = ops)
    (hplain : ∀ x ∈ ops, plain x = true) (hz : w.waitLogD = 0)
    (hroom : ∀ ch, (w.chan ch).length + ops.length ≤ chanCap) :
    (run (List.replicate ops.length Choice.caller) w).trace =
        w.trace ++ ops.map (fun op => (Tid.caller, op)) ∧
      (run (List.replicate ops.length Choice.caller) w).script = [] ∧
      (run (List.replicate ops.length Choice.caller) w).panicked = none := by
  induction ops generalizing w with
  | nil => simp [run, hs, hp]
  | cons op ops ih =>
    obtain ⟨w1, heff, h1, h2, h3, h4⟩ := effect_plain w op (hplain op (List.mem_cons_self _ _)) hz
      (fun ch => by have := hroom ch; simp only [List.length_cons] at this; omega)
    have hstep := step_caller_script w w1 op ops hp hs heff
    have := ih (step w Choice.caller) (by rw [hstep]; simp [h2, hp]) (by rw [hstep])
      (fun x hx => hplain x (List.mem_cons_of_mem _ hx)) (by rw [hstep]; exact h1)
      (fun ch => by
        rw [hstep, chan_with]
        have := hroom ch
        have := h4 ch
        simp only [List.length_cons] at *
        omega)
    simp only [List.length_cons, List.replicate_succ, run, List.foldl_cons]
    simp only [run] at this
    refine ⟨?_, this.2⟩
    rw [this.1, hstep]
    simp [h3]

theorem length_andThen (a b : Run) : (andThen a b).1.length ≤ a.1.length + b.1.length := by
  unfold andThen
  split
  · simp only [List.length_append]; omega
  · omega

theorem length_seq (rs : List Run) (bounds : List Nat)
    (h : List.Forall₂ (fun r n => r.1.length ≤ n) rs bounds) :
    (seq rs).1.length ≤ bounds.sum := by
  induction h with
  | nil => simp [seq]
  | @cons r n rs ns h _ ih =>
    simp only [seq, List.sum_cons]
    exact (length_andThen _ _).trans (by omega)

theorem length_attempt (op : Op) (ok : Bool) (msg : Op) : (attempt op ok msg).1.length ≤ 2 := by
  cases ok <;> simp [attempt]

theorem length_changeID (c : ChrootD) (os : OS) : (changeID c os).1.length ≤ 8 := by
  unfold changeID
  refine length_seq _ [4, 2, 2] (List.Forall₂.cons ?_ (List.Forall₂.cons (length_attempt _ _ _)
    (List.Forall₂.cons (length_attempt _ _ _) List.Forall₂.nil)))
  split
  · exact length_seq _ [2, 2] (List.Forall₂.cons (length_attempt _ _ _)
      (List.Forall₂.cons (length_attempt _ _ _) List.Forall₂.nil))
  · simp [seq]

theorem length_chrootDir (c : ChrootD) (os : OS) : (chrootDir c os).1.length ≤ 9 := by
  unfold chrootDir
  split
  · simp [call]
  · refine length_seq _ [1, 2, 2, 1, 2, 1] (List.Forall₂.cons (by simp [call])
      (List.Forall₂.cons ?_ (List.Forall₂.cons (length_attempt _ _ _)
      (List.Forall₂.cons (by simp [call]) (List.Forall₂.cons (length_attempt _ _ _)
      (List.Forall₂.cons (by simp [call]) List.Forall₂.nil))))))
    split
    · exact length_attempt _ _ _
    · simp [seq]

theorem length_chrootEnd (c : ChrootD) (os : OS) : (chrootEnd c os).1.length ≤ 4 := by
  cases h : os.writeFile <;> simp [chrootEnd, seq, andThen, call, isWriteable, h]

theorem length_Chroot (c : ChrootD) (os : OS) : (Chroot c os).1.length ≤ 21 := by
  unfold Chroot
  refine length_seq _ [9, 8, 4] (List.Forall₂.cons (length_chrootDir c os)
    (List.Forall₂.cons ?_ (List.Forall₂.cons (length_chrootEnd c os) List.Forall₂.nil)))
  split
  · exact length_changeID c os
  · simp [seq]

/-- A process that only calls `Chroot` returns from it: after as many steps
of the caller as the call has operations, the caller has performed them all,
the last one being the return of the result. -/
theorem Chroot_returns (c : ChrootD) (os : OS) :
    (run (List.replicate ((Chroot c os).1.length + 1) Choice.caller)
      (World.init [Call.Chroot c os])).trace =
      ((Chroot c os).1 ++ [Op.ret (Chroot c os).2]).map (fun op => (Tid.caller, op)) := by
  obtain ⟨op, rest, e, -⟩ := Chroot_head c os
  have hlen := length_Chroot c os
  have hpl := plain_Chroot c os
  rw [e] at hlen hpl ⊢
  have hcs : callScript (World.init [Call.Chroot c os]) (Call.Chroot c os) =
      op :: (rest ++ [Op.ret (Chroot c os).2]) := by
    simp [callScript, e]
  obtain ⟨w1, heff, h1, h2, h3, h4⟩ := effect_plain (World.init [Call.Chroot c os]) op
    (hpl op (List.mem_cons_self _ _)) rfl (fun ch => by cases ch <;> simp [World.init, World.chan, chanCap])
  have hstep := step_caller_load (World.init [Call.Chroot c os]) w1 _ [] op _ rfl rfl rfl hcs heff
  have hrun := run_plain (rest ++ [Op.ret (Chroot c os).2]) (step (World.init [Call.Chroot c os])
    Choice.caller) (by rw [hstep]; exact h2) (by rw [hstep])
    (by
      intro x hx
      rcases List.mem_append.1 hx with hx | hx
      · exact hpl x (List.mem_cons_of_mem _ hx)
      · simp only [List.mem_singleton] at hx
        rw [hx]; rfl)
    (by rw [hstep]; exact h1)
    (fun ch => by
      rw [hstep, chan_with]
      have := h4 ch
      have h0 : ((World.init [Call.Chroot c os]).chan ch).length = 0 := by
        cases ch <;> rfl
      simp only [List.length_cons, List.length_append, List.length_singleton, List.length_nil,
        chanCap] at *
      omega)
  have hl : (op :: rest).length + 1 = (rest ++ [Op.ret (Chroot c os).2]).length + 1 := by simp
  rw [hl, List.replicate_succ]
  simp only [run, List.foldl_cons]
  simp only [run] at hrun
  rw [hrun.1, hstep, h3]
  simp [World.init]

/-! ## The claims about `Chroot` -/

theorem ret_in_trace (c : ChrootD) (os : OS) :
    (Tid.caller, Op.ret (Chroot c os).2) ∈
      (run (List.replicate ((Chroot c os).1.length + 1) Choice.caller)
        (World.init [Call.Chroot c os])).trace := by
  rw [Chroot_returns]
  exact List.mem_map.2 ⟨_, by simp, rfl⟩

/-- C1: a failed step makes `Chroot` return false and is the last step it
attempts (only the console report of the error follows), and the process that
makes the call does get the result false; when `DIR` does not exist and
cannot be created the run is exactly lookup, mkdir, report; and when setgid
has succeeded and setuid fails, `Chroot` returns false. -/
theorem Chroot_aborts_on_failure (c : ChrootD) (os : OS) :
    (∀ op ∈ (Chroot c os).1, failed os op = true →
      (Chroot c os).2 = false ∧ (∃ pre msg, (Chroot c os).1 = pre ++ [op, Op.stdout msg]) ∧
      (Tid.caller, Op.ret false) ∈
        (run (List.replicate ((Chroot c os).1.length + 1) Choice.caller)
          (World.init [Call.Chroot c os])).trace) ∧
    (c.DIR ≠ "" → os.isDir = false → os.mkdir = false →
      Chroot c os = ([Op.lstat c.DIR, Op.mkdir c.DIR 0o770,
        ShowErr ("unable to create chroot dir [" ++ c.DIR ++ "]")], false)) ∧
    (∀ g, Op.setgid g ∈ (Chroot c os).1 → os.setgid = true → os.setuid = false →
      Op.setuid c.UID ∈ (Chroot c os).1 ∧ (Chroot c os).2 = false) := by
  refine ⟨?_, ?_, ?_⟩
  · intro op hop hf
    obtain ⟨h1, h2⟩ := aborting_Chroot c os op hop hf
    have h3 := ret_in_trace c os
    rw [h1] at h3
    exact ⟨h1, h2, h3⟩
  · intro hD h1 h2
    simp [Chroot, chrootDir, seq, andThen, attempt, call, hD, h1, h2]
  · intro g hg h1 h2
    have hg2 := (mem_Chroot_cred c os (Op.setgid g) rfl).1 hg
    obtain ⟨hu, hf⟩ := changeID_halfway c os g hg2.2.2 h1 h2
    refine ⟨(mem_Chroot_cred c os (Op.setuid c.UID) rfl).2 ⟨hg2.1, hg2.2.1, hu⟩, ?_⟩
    rw [Chroot_result]
    simp [chrootCred, hg2.1, hf]

theorem Chroot_aborts_on_failure_witness :
    (Chroot ⟨"/jail", 1000, 1000⟩ ⟨false, true, true, true, true, true, true, false, true, 7⟩).2
        = false ∧
    Chroot ⟨"/nonexistent/path", 1000, 1000⟩ ⟨false, false, true, true, true, true, true, true, true, 7⟩
      = ([Op.lstat "/nonexistent/path", Op.mkdir "/nonexistent/path" 0o770,
          ShowErr "unable to create chroot dir [/nonexistent/path]"], false) ∧
    (Chroot ⟨"", 1000, 1000⟩ ⟨false, false, false, false, false, false, true, false, true, 7⟩).2
      = false :=
  ⟨((Chroot_aborts_on_failure ⟨"/jail", 1000, 1000⟩
      ⟨false, true, true, true, true, true, true, false, true, 7⟩).1 (Op.setuid 1000)
      (by decide) (by decide)).1,
   (Chroot_aborts_on_failure ⟨"/nonexistent/path", 1000, 1000⟩
      ⟨false, false, true, true, true, true, true, true, true, 7⟩).2.1 (by decide) rfl rfl,
   ((Chroot_aborts_on_failure ⟨"", 1000, 1000⟩
      ⟨false, false, false, false, false, false, true, false, true, 7⟩).2.2 1000
      (by decide) rfl rfl).2⟩

/-- C2: with `DIR` empty, both ids non-zero and setgid and setuid succeeding,
`Chroot` writes the unsafe-mode warning, then calls setgid and setuid in that
order, probes writability, sends the final notice and returns true; its only
steps are setgid, setuid and the probe, and the process that makes the call
does get the result true. -/
theorem Chroot_unsafe_mode (c : ChrootD) (os : OS) (hD : c.DIR = "") (hU : c.UID ≠ 0)
    (hG : c.GID ≠ 0) (hg : os.setgid = true) (hu : os.setuid = true) :
    Chroot c os =
      ([Op.stdout "[INFO]  : UNSAFE MODE: CHANGEROOT IS DISABLED VIA CONFIG!\n",
        Op.setgid c.GID, Op.setuid c.UID,
        Op.writeFile "testfile" "test" 0o660, Op.remove "testfile"] ++
        (if os.writeFile then []
          else [Op.stdout "[INFO]  : unable to write within [current dir]\n"]) ++
        [Op.send Chan.LogInfo ("[uid:" ++ Itoa c.UID ++ "] [gid:" ++ Itoa c.GID ++ "]")],
       true) ∧
    (Chroot c os).1.filter isStep =
      [Op.setgid c.GID, Op.setuid c.UID, Op.writeFile "testfile" "test" 0o660,
        Op.remove "testfile"] ∧
    (Tid.caller, Op.ret true) ∈
      (run (List.replicate ((Chroot c os).1.length + 1) Choice.caller)
        (World.init [Call.Chroot c os])).trace := by
  have key : Chroot c os =
      ([Op.stdout "[INFO]  : UNSAFE MODE: CHANGEROOT IS DISABLED VIA CONFIG!\n",
        Op.setgid c.GID, Op.setuid c.UID,
        Op.writeFile "testfile" "test" 0o660, Op.remove "testfile"] ++
        (if os.writeFile then []
          else [Op.stdout "[INFO]  : unable to write within [current dir]\n"]) ++
        [Op.send Chan.LogInfo ("[uid:" ++ Itoa c.UID ++ "] [gid:" ++ Itoa c.GID ++ "]")],
       true) := by
    cases hw : os.writeFile <;>
      simp [Chroot, chrootDir, changeID, chrootEnd, isWriteable, seq, andThen, attempt, call,
        hD, hU, hG, hg, hu, hw, ShowInf, Show]
  have hr := ret_in_trace c os
  have h2 : (Chroot c os).2 = true := by rw [key]
  rw [h2] at hr
  refine ⟨key, ?_, hr⟩
  rw [key]
  cases hw : os.writeFile <;> simp [isStep]

theorem Chroot_unsafe_mode_witness :
    Chroot ⟨"", 1000, 1000⟩ ⟨false, false, false, false, false, false, true, true, true, 7⟩ =
      ([Op.stdout "[INFO]  : UNSAFE MODE: CHANGEROOT IS DISABLED VIA CONFIG!\n",
        Op.setgid 1000, Op.setuid 1000,
        Op.writeFile "testfile" "test" 0o660, Op.remove "testfile",
        Op.send Chan.LogInfo "[uid:1000] [gid:1000]"], true) :=
  (Chroot_unsafe_mode ⟨"", 1000, 1000⟩
    ⟨false, false, false, false, false, false, true, true, true, 7⟩
    rfl (by decide) (by decide) rfl rfl).1

/-- C4: when the directory stage of `Chroot` does not fail, an operation of
the credential drop (chown, chmod, setgid or setuid) is attempted if and only
if `UID` and `GID` are both non-zero, in which case the operations of
`changeID` follow those of the directory stage; when either is zero none of
them is attempted and `Chroot` returns true, a result the process that makes
the call does get. -/
theorem Chroot_credential_gate (c : ChrootD) (os : OS)
    (hR : c.DIR = "" ∨ ((os.isDir = true ∨ os.mkdir = true) ∧ os.chdir = true ∧
      os.chroot = true)) :
    ((∃ x ∈ (Chroot c os).1, isCred x = true) ↔ (c.UID ≠ 0 ∧ c.GID ≠ 0)) ∧
    ((c.UID ≠ 0 ∧ c.GID ≠ 0) →
      ∃ post, (Chroot c os).1 = (chrootDir c os).1 ++ (changeID c os).1 ++ post) ∧
    ((c.UID = 0 ∨ c.GID = 0) →
      (∀ x ∈ (Chroot c os).1, isCred x = false) ∧ (Chroot c os).2 = true ∧
      (Chroot c os).1 = (chrootDir c os).1 ++ (chrootEnd c os).1 ∧
      (Tid.caller, Op.ret true) ∈
        (run (List.replicate ((Chroot c os).1.length + 1) Choice.caller)
          (World.init [Call.Chroot c os])).trace) := by
  have hdir := (chrootDir_ok_iff c os).2 hR
  refine ⟨⟨?_, ?_⟩, ?_, ?_⟩
  · rintro ⟨x, hx, hc⟩
    exact ((mem_Chroot_cred c os x hc).1 hx).1
  · intro h
    obtain ⟨x, hx, hc⟩ := changeID_has_cred c os
    exact ⟨x, (mem_Chroot_cred c os x hc).2 ⟨h, hdir, hx⟩, hc⟩
  · intro h
    refine ⟨if (changeID c os).2 then (chrootEnd c os).1 else [], ?_⟩
    rw [Chroot_ops]
    simp [hdir, chrootCred, h]
  · intro h
    have hn : ¬(c.UID ≠ 0 ∧ c.GID ≠ 0) := by
      rcases h with h | h <;> simp [h]
    have hres : (Chroot c os).2 = true := by
      rw [Chroot_result]
      simp [hdir, chrootCred, hn, seq]
    have hr := ret_in_trace c os
    rw [hres] at hr
    refine ⟨?_, hres, ?_, hr⟩
    · intro x hx
      by_contra hc
      have hc2 : isCred x = true := by simpa using hc
      exact hn ((mem_Chroot_cred c os x hc2).1 hx).1
    · rw [Chroot_ops]
      simp [hdir, chrootCred, hn, seq]

theorem Chroot_credential_gate_witness :
    (∀ x ∈ (Chroot ⟨"/jail", 1000, 0⟩ ⟨true, true, true, true, true, true, true, true, true, 7⟩).1,
      isCred x = false) ∧
    (Chroot ⟨"/jail", 1000, 0⟩ ⟨true, true, true, true, true, true, true, true, true, 7⟩).2
      = true :=
  ⟨((Chroot_credential_gate ⟨"/jail", 1000, 0⟩
      ⟨true, true, true, true, true, true, true, true, true, 7⟩
      (Or.inr ⟨Or.inl rfl, rfl, rfl⟩)).2.2 (Or.inr rfl)).1,
   ((Chroot_credential_gate ⟨"/jail", 1000, 0⟩
      ⟨true, true, true, true, true, true, true, true, true, 7⟩
      (Or.inr ⟨Or.inl rfl, rfl, rfl⟩)).2.2 (Or.inr rfl)).2.1⟩

/-! ## The final notice -/

theorem identityAfter_append (os : OS) (l₁ l₂ : List Op) (id : Int × Int) :
    identityAfter os (l₁ ++ l₂) id = identityAfter os l₂ (identityAfter os l₁ id) := by
  induction l₁ generalizing id with
  | nil => rfl
  | cons x l ih => cases x <;> simp [identityAfter, ih]

theorem identityAfter_noCred (os : OS) (l : List Op) (id : Int × Int)
    (h : ∀ x ∈ l, isCred x = false) : identityAfter os l id = id := by
  induction l generalizing id with
  | nil => rfl
  | cons x l ih =>
    have hx := h x (List.mem_cons_self _ _)
    have hl := fun y hy => h y (List.mem_cons_of_mem _ hy)
    cases x <;> simp [isCred] at hx <;> simp [identityAfter, ih _ hl]

theorem changeID_identity (c : ChrootD) (os : OS) (id : Int × Int)
    (h : (changeID c os).2 = true) :
    identityAfter os (changeID c os).1 id = (c.UID, c.GID) := by
  rcases os with ⟨iD, mk, cd, cr, co, cm, sg, su, wf, pid⟩
  revert h
  by_cases hD : c.DIR = "" <;> cases co <;> cases cm <;> cases sg <;> cases su <;>
    simp [changeID, hD, seq, andThen, attempt, identityAfter]

theorem chrootEnd_last (c : ChrootD) (os : OS) :
    ∃ pre, (chrootEnd c os).1 = pre ++
      [Op.send Chan.LogInfo ("[uid:" ++ Itoa c.UID ++ "] [gid:" ++ Itoa c.GID ++ "]")] := by
  cases h : os.writeFile
  · exact ⟨[Op.writeFile "testfile" "test" 0o660, Op.remove "testfile",
      ShowInf "unable to write within [current dir]"],
      by simp [chrootEnd, seq, andThen, call, isWriteable, h]⟩
  · exact ⟨[Op.writeFile "testfile" "test" 0o660, Op.remove "testfile"],
      by simp [chrootEnd, seq, andThen, call, isWriteable, h]⟩

/-- C10, as the code has it: whenever `Chroot` returns true, the last
operation it performs is sending the notice built from the configured `UID`
and `GID`; and when both are non-zero (the credential drop ran) these are the
user and group id the process has after the call, whatever identity it
started with. -/
theorem Chroot_final_notice (c : ChrootD) (os : OS) (h : (Chroot c os).2 = true) :
    (∃ pre, (Chroot c os).1 = pre ++
      [Op.send Chan.LogInfo ("[uid:" ++ Itoa c.UID ++ "] [gid:" ++ Itoa c.GID ++ "]")]) ∧
    (c.UID ≠ 0 → c.GID ≠ 0 →
      ∀ id, identityAfter os (Chroot c os).1 id = (c.UID, c.GID)) := by
  rw [Chroot_result] at h
  have h1 : (chrootDir c os).2 = true := by
    cases hh : (chrootDir c os).2 <;> simp [hh] at h ⊢
  have h2 : (chrootCred c os).2 = true := by
    cases hh : (chrootCred c os).2 <;> simp [hh] at h ⊢
  obtain ⟨pre, hpre⟩ := chrootEnd_last c os
  constructor
  · refine ⟨(chrootDir c os).1 ++ (chrootCred c os).1 ++ pre, ?_⟩
    rw [Chroot_ops]
    simp [h1, h2, hpre]
  · intro hU hG id
    have h3 : chrootCred c os = changeID c os := by simp [chrootCred, hU, hG]
    rw [h3] at h2
    rw [Chroot_ops]
    simp only [h1, h2, h3, if_true, identityAfter_append]
    rw [identityAfter_noCred os (chrootEnd c os).1 _ (chrootEnd_noCred c os)]
    exact changeID_identity c os _ h2

theorem Chroot_final_notice_witness :
    (Chroot ⟨"/jail", 1000, 1000⟩ ⟨true, true, true, true, true, true, true, true, true, 7⟩).2
      = true ∧
    identityAfter ⟨true, true, true, true, true, true, true, true, true, 7⟩
      (Chroot ⟨"/jail", 1000, 1000⟩ ⟨true, true, true, true, true, true, true, true, true, 7⟩).1
      (0, 0) = (1000, 1000) :=
  ⟨by decide, (Chroot_final_notice ⟨"/jail", 1000, 1000⟩
    ⟨true, true, true, true, true, true, true, true, true, 7⟩ (by decide)).2
    (by decide) (by decide) (0, 0)⟩

/-- C10 fails as stated: with `UID = 1000`, `GID = 0` and a process running
as user 0, group 0, `Chroot` returns true, its final notice says uid 1000 and
gid 0, and the process is still user 0: the notice does not report the user
id the process has after the call. -/
theorem Chroot_notice_not_identity :
    (Chroot ⟨"", 1000, 0⟩ ⟨true, true, true, true, true, true, true, true, true, 7⟩).2 = true ∧
    (Chroot ⟨"", 1000, 0⟩ ⟨true, true, true, true, true, true, true, true, true, 7⟩).1.getLast?
      = some (Op.send Chan.LogInfo "[uid:1000] [gid:0]") ∧
    identityAfter ⟨true, true, true, true, true, true, true, true, true, 7⟩
      (Chroot ⟨"", 1000, 0⟩ ⟨true, true, true, true, true, true, true, true, true, 7⟩).1 (0, 0)
      = (0, 0) := by
  decide

/-- C7: for each of the modes MUTE, CONSOLE, SYSLOG and FILE, a `LogDaemon`
call that finds the guard free adds 3 to `waitLogD` once, runs a backend
initializer that starts exactly three signalling goroutines, and waits. In
every execution of the call, under every schedule, the counter is never
negative, at most 3 is added and at most 3 readiness signals are sent, no
goroutine signals twice, the file writer never signals, a goroutine receives
a message only after its own signal, and the caller is past
`waitLogD.Wait()` only after exactly 3 signals, with the counter at zero.
There is a schedule under which the call returns. -/
theorem LogDaemon_three_signals (c : LogD)
    (hm : c.LogMode = "MUTE" ∨ c.LogMode = "CONSOLE" ∨ c.LogMode = "SYSLOG" ∨
      c.LogMode = "FILE") :
    (∃ backend, backend ∈ [mute c, cons c, sysl c, file c] ∧
      LogDaemon c false = [Op.tryLock true, Op.wgAdd 3] ++ backend ++ [Op.wgWait] ∧
      goCount backend = 3 ∧ ∀ x ∈ backend, isAdd x = false) ∧
    (∀ sched,
      0 ≤ (run sched (World.init [Call.LogDaemon c])).waitLogD ∧
      adds (run sched (World.init [Call.LogDaemon c])).trace ≤ 3 ∧
      dones (run sched (World.init [Call.LogDaemon c])).trace ≤ 3 ∧
      (∀ i, (run sched (World.init [Call.LogDaemon c])).trace.count
        (Tid.task i, Op.wgDone) ≤ 1) ∧
      (∀ i g, (run sched (World.init [Call.LogDaemon c])).tasks.get? i = some g →
        g.code = Task.fileWriter →
        (Tid.task i, Op.wgDone) ∉ (run sched (World.init [Call.LogDaemon c])).trace) ∧
      (∀ i ch m pre post, ch ≠ Chan.fileCons →
        (run sched (World.init [Call.LogDaemon c])).trace =
          pre ++ (Tid.task i, Op.recv ch m) :: post →
        (Tid.task i, Op.wgDone) ∈ pre) ∧
      (∀ pre post, (run sched (World.init [Call.LogDaemon c])).trace =
          pre ++ (Tid.caller, Op.wgWait) :: post →
        adds pre = 3 ∧ dones pre = 3 ∧
        dones (run sched (World.init [Call.LogDaemon c])).trace = 3 ∧
        (run sched (World.init [Call.LogDaemon c])).waitLogD = 0)) ∧
    (∃ sched, (run sched (World.init [Call.LogDaemon c])).panicked = none ∧
      (run sched (World.init [Call.LogDaemon c])).script = [] ∧
      (Tid.caller, Op.wgWait) ∈ (run sched (World.init [Call.LogDaemon c])).trace) := by
  have hc : c.LogMode ≠ "" := by
    rcases hm with h | h | h | h <;> rw [h] <;> decide
  have hexp : expected [Call.LogDaemon c] = 3 := by simp [expected, hc]
  refine ⟨?_, ?_, LogDaemon_can_return c hm⟩
  · rcases hm with h | h | h | h
    · exact ⟨mute c, by simp, by simp [LogDaemon, h], rfl, by simp [mute, isAdd, ShowInf, Show]⟩
    · exact ⟨cons c, by simp, by simp [LogDaemon, h], rfl, by simp [cons, isAdd]⟩
    · exact ⟨sysl c, by simp, by simp [LogDaemon, h], rfl, by simp [sysl, isAdd]⟩
    · exact ⟨file c, by simp, by simp [LogDaemon, h], rfl, by simp [file, isAdd]⟩
  · intro sched
    have I := inv_run [Call.LogDaemon c] sched _ (inv_init _)
    have T := taskInv_run sched _ (taskInv_init [Call.LogDaemon c])
    have hcount := I.count
    have hnn := I.nonneg
    have hb := I.bound
    rw [hexp] at hb
    refine ⟨hnn, hb, by omega, T.once, fun i g hg hw => (T.writer i g hg hw).1,
      fun i ch m pre post hch h => recv_after_done _ sched i ch m pre post hch h, ?_⟩
    intro pre post h
    obtain ⟨h1, h2⟩ := wait_after_signals c hc sched pre post h
    have h3 := dones_le_of_split _ pre post _ h
    refine ⟨h1, h2, by omega, by omega⟩

theorem LogDaemon_three_signals_witness :
    (("FILE" = "MUTE" ∨ "FILE" = "CONSOLE" ∨ "FILE" = "SYSLOG" ∨ "FILE" = "FILE") ∧
      goCount (file ⟨"app", "FILE", "/var/log/app.log", 1⟩) = 3) ∧
    ∃ sched, (run sched (World.init [Call.LogDaemon ⟨"app", "FILE", "/var/log/app.log", 1⟩])).panicked
        = none ∧
      (run sched (World.init [Call.LogDaemon ⟨"app", "FILE", "/var/log/app.log", 1⟩])).script = [] ∧
      (Tid.caller, Op.wgWait) ∈
        (run sched (World.init [Call.LogDaemon ⟨"app", "FILE", "/var/log/app.log", 1⟩])).trace :=
  ⟨⟨by decide, by decide⟩,
    (LogDaemon_three_signals ⟨"app", "FILE", "/var/log/app.log", 1⟩ (by decide)).2.2⟩

/-! ## The root change and the readiness signals -/

theorem expected_append (a b : List Call) : expected (a ++ b) = expected a + expected b := by
  induction a with
  | nil => simp [expected]
  | cons x l ih =>
    cases x with
    | LogDaemon c =>
      show (if c.LogMode = "" then 0 else 3) + expected (l ++ b) = _
      rw [ih]
      simp only [expected]
      omega
    | Chroot c os =>
      show expected (l ++ b) = _
      rw [ih]
      simp only [expected]

/-- When the caller performs the root change, it is in a `Chroot` call, and
what the calls made before have added to `waitLogD` has been added and
signalled in full. -/
theorem root_after_signals (prog : List Call) (sched : List Choice) (p : String)
    (pre post : List (Tid × Op))
    (h : (run sched (World.init prog)).trace = pre ++ (Tid.caller, Op.chroot p) :: post) :
    ∃ done c os rest, prog = done ++ Call.Chroot c os :: rest ∧
      adds pre = expected done ∧ (dones pre : Int) = expected done := by
  obtain ⟨s1, ch', s2, a, b, -, e2, e3⟩ :=
    event_origin sched (World.init prog) pre post _ h (by simp [World.init])
  obtain ⟨hp, ha, rest, calls, w1, heff, hsrc⟩ := caller_event _ ch' a b _ e2
  have I := inv_run prog s1 _ (inv_init _)
  have L := I.live hp
  rw [e3, ha, List.append_nil]
  rcases hsrc with ⟨hs, -⟩ | ⟨hs, call, hcalls, hcs⟩
  · obtain ⟨done, call, hprog, hcall⟩ :=
      I.inCall (Op.chroot p) (by rw [hs]; exact List.mem_cons_self _ _)
    obtain ⟨c, os, rfl⟩ := hcall rfl
    have hroot := L.root [] p rest (by rw [hs]; rfl)
    have hz : (run s1 (World.init prog)).waitLogD = 0 := by
      rcases hroot with hw | hw
      · simp at hw
      · exact hw.1
    have ht := L.total
    have hE := congrArg expected hprog
    rw [expected_append] at hE
    rw [hs] at ht
    simp only [headAdd, opAdd, expected] at ht hE
    have hcount := I.count
    exact ⟨done, c, os, _, hprog, by omega, by omega⟩
  · exfalso
    have hm : (run s1 (World.init prog)).mutexLogD = false := by
      cases hmx : (run s1 (World.init prog)).mutexLogD
      · rfl
      · obtain ⟨x, hx, -⟩ := L.mutex hmx
        rw [hs] at hx
        simp at hx
    have := (callScript_load _ call calls _ rest hm hcs).2.2.2.2.1
    simp [isChroot] at this

/-- C8, as the code has it: the counter of `waitLogD` starts at zero, not at
3; it is what the `LogDaemon` calls have added (3 each) minus the readiness
signals sent; and when `Chroot` performs the root change, all of what the
`LogDaemon` calls made before that `Chroot` call have added has been
signalled: three signals for each such call with a non-empty mode, none when
`Chroot` is called first. -/
theorem Chroot_root_after_signals (prog : List Call) (sched : List Choice) :
    (World.init prog).waitLogD = 0 ∧
    (run sched (World.init prog)).waitLogD =
      adds (run sched (World.init prog)).trace - dones (run sched (World.init prog)).trace ∧
    (∀ p pre post,
      (run sched (World.init prog)).trace = pre ++ (Tid.caller, Op.chroot p) :: post →
      ∃ done c os rest, prog = done ++ Call.Chroot c os :: rest ∧
        adds pre = expected done ∧ (dones pre : Int) = expected done) ∧
    (∀ d c os p pre post, prog = [Call.LogDaemon d, Call.Chroot c os] → d.LogMode ≠ "" →
      (run sched (World.init prog)).trace = pre ++ (Tid.caller, Op.chroot p) :: post →
      dones pre = 3) := by
  refine ⟨rfl, (inv_run prog sched _ (inv_init _)).count,
    fun p pre post h => root_after_signals prog sched p pre post h, ?_⟩
  intro d c os p pre post hprog hd h
  obtain ⟨done, c', os', rest, e, -, h2⟩ := root_after_signals prog sched p pre post h
  rw [hprog] at e
  have hdone : done = [Call.LogDaemon d] := by
    match done, e with
    | [], e => simp at e
    | [x], e =>
      simp only [List.singleton_append, List.cons.injEq] at e
      rw [e.1]
    | x :: y :: l, e =>
      have := congrArg List.length e
      simp at this
  rw [hdone] at h2
  simp only [expected, hd, if_false] at h2
  omega

theorem Chroot_root_after_signals_witness :
    (run (List.replicate 6 Choice.caller ++
        [Choice.task 0 okEnv, Choice.task 1 okEnv, Choice.task 2 okEnv] ++
        List.replicate 5 Choice.caller)
      (World.init [Call.LogDaemon ⟨"app", "CONSOLE", "", 1⟩,
        Call.Chroot ⟨"/jail", 1000, 1000⟩
          ⟨true, true, true, true, true, true, true, true, true, 7⟩])).trace =
      [(Tid.caller, Op.tryLock true), (Tid.caller, Op.wgAdd 3),
        (Tid.caller, Op.go Task.consInfo ⟨"app", "CONSOLE", "", 1⟩),
        (Tid.caller, Op.go Task.consErr ⟨"app", "CONSOLE", "", 1⟩),
        (Tid.caller, Op.go Task.consDebug ⟨"app", "CONSOLE", "", 1⟩),
        (Tid.caller, Op.unlock),
        (Tid.task 0, Op.wgDone), (Tid.task 1, Op.wgDone), (Tid.task 2, Op.wgDone),
        (Tid.caller, Op.wgWait), (Tid.caller, Op.lstat "/jail"),
        (Tid.caller, Op.chdir "/jail"), (Tid.caller, Op.wgWait)] ++
      (Tid.caller, Op.chroot ".") :: [] ∧
    dones [(Tid.caller, Op.tryLock true), (Tid.caller, Op.wgAdd 3),
        (Tid.caller, Op.go Task.consInfo ⟨"app", "CONSOLE", "", 1⟩),
        (Tid.caller, Op.go Task.consErr ⟨"app", "CONSOLE", "", 1⟩),
        (Tid.caller, Op.go Task.consDebug ⟨"app", "CONSOLE", "", 1⟩),
        (Tid.caller, Op.unlock),
        (Tid.task 0, Op.wgDone), (Tid.task 1, Op.wgDone), (Tid.task 2, Op.wgDone),
        (Tid.caller, Op.wgWait), (Tid.caller, Op.lstat "/jail"),
        (Tid.caller, Op.chdir "/jail"), (Tid.caller, Op.wgWait)] = 3 :=
  ⟨by decide,
    (Chroot_root_after_signals _ (List.replicate 6 Choice.caller ++
        [Choice.task 0 okEnv, Choice.task 1 okEnv, Choice.task 2 okEnv] ++
        List.replicate 5 Choice.caller)).2.2.2 ⟨"app", "CONSOLE", "", 1⟩ ⟨"/jail", 1000, 1000⟩
      ⟨true, true, true, true, true, true, true, true, true, 7⟩ "." _ [] rfl (by decide)
      (by decide)⟩

/-- C8 fails as stated: the counter starts at zero, and a process that calls
`Chroot` before `LogDaemon` performs the root change with no readiness signal
sent. -/
theorem Chroot_root_without_signals :
    (World.init [Call.Chroot ⟨"/jail", 1000, 1000⟩
        ⟨true, true, true, true, true, true, true, true, true, 7⟩,
      Call.LogDaemon ⟨"app", "CONSOLE", "", 1⟩]).waitLogD = 0 ∧
    (run [Choice.caller, Choice.caller, Choice.caller, Choice.caller]
      (World.init [Call.Chroot ⟨"/jail", 1000, 1000⟩
          ⟨true, true, true, true, true, true, true, true, true, 7⟩,
        Call.LogDaemon ⟨"app", "CONSOLE", "", 1⟩])).trace =
      [(Tid.caller, Op.lstat "/jail"), (Tid.caller, Op.chdir "/jail"),
        (Tid.caller, Op.wgWait), (Tid.caller, Op.chroot ".")] ∧
    dones (run [Choice.caller, Choice.caller, Choice.caller, Choice.caller]
      (World.init [Call.Chroot ⟨"/jail", 1000, 1000⟩
          ⟨true, true, true, true, true, true, true, true, true, 7⟩,
        Call.LogDaemon ⟨"app", "CONSOLE", "", 1⟩])).trace = 0 := by
  decide

/-! ## The log file -/

theorem line_mono (tr evs : List (Tid × Op)) (x : String) (h : Line tr x) :
    Line (tr ++ evs) x := by
  obtain ⟨j, ch, now, m, h1, h2, h3⟩ := h
  exact ⟨j, ch, now, m, h1, List.mem_append_left _ h2, h3⟩

theorem effect_fileCons (w w1 : World) (op : Op) (h : effect w op = some w1)
    (hop : isFileOp op = false) : w1.fileCons = w.fileCons := by
  cases op <;> simp only [effect, Option.some.injEq] at h
  case wgWait => split at h <;> simp_all
  case send ch msg =>
    split at h
    · simp only [Option.some.injEq] at h
      subst h
      cases ch <;> simp [World.setChan, isFileOp] at hop ⊢
    · simp at h
  case wgAdd n =>
    subst h
    unfold World.wgAdd
    split <;> simp
  case tryLock ok =>
    subst h
    cases ok <;> simp
  all_goals (subst h; simp)

theorem fileOp_attempt (op : Op) (ok : Bool) (msg : String) (h : isFileOp op = false) :
    ∀ x ∈ (attempt op ok (ShowErr msg)).1, isFileOp x = false := by
  intro x hx
  cases ok <;> simp [attempt] at hx
  · rcases hx with rfl | rfl
    · exact h
    · rfl
  · rw [hx]; exact h

theorem fileOp_call (op : Op) (h : isFileOp op = false) :
    ∀ x ∈ (call op).1, isFileOp x = false := by
  intro x hx
  simp [call] at hx
  rw [hx]; exact h

theorem fileOp_nil : ∀ x ∈ (seq []).1, isFileOp x = false := by
  simp [seq]

theorem fileOp_changeID (c : ChrootD) (os : OS) :
    ∀ x ∈ (changeID c os).1, isFileOp x = false := by
  unfold changeID
  apply forall_seq
  intro r hr
  simp only [List.mem_cons, List.mem_singleton, List.not_mem_nil, or_false] at hr
  rcases hr with rfl | rfl | rfl
  · split
    · apply forall_seq
      intro r hr
      simp only [List.mem_cons, List.mem_singleton, List.not_mem_nil, or_false] at hr
      rcases hr with rfl | rfl <;> exact fileOp_attempt _ _ _ rfl
    · exact fileOp_nil
  · exact fileOp_attempt _ _ _ rfl
  · exact fileOp_attempt _ _ _ rfl

theorem fileOp_chrootDir (c : ChrootD) (os : OS) :
    ∀ x ∈ (chrootDir c os).1, isFileOp x = false := by
  unfold chrootDir
  split
  · exact fileOp_call _ rfl
  · apply forall_seq
    simp only [List.forall_mem_cons, List.not_mem_nil, false_implies, implies_true, and_true]
    refine ⟨fileOp_call _ rfl, ?_, fileOp_attempt _ _ _ rfl, fileOp_call _ rfl,
      fileOp_attempt _ _ _ rfl, fileOp_call _ rfl⟩
    split
    · exact fileOp_attempt _ _ _ rfl
    · exact fileOp_nil

theorem fileOp_chrootEnd (c : ChrootD) (os : OS) :
    ∀ x ∈ (chrootEnd c os).1, isFileOp x = false := by
  cases h : os.writeFile <;>
    simp [chrootEnd, seq, andThen, call, isWriteable, h, ShowInf, Show, isFileOp]

theorem fileOp_Chroot (c : ChrootD) (os : OS) :
    ∀ x ∈ (Chroot c os).1, isFileOp x = false := by
  unfold Chroot
  apply forall_seq
  simp only [List.forall_mem_cons, List.not_mem_nil, false_implies, implies_true, and_true]
  refine ⟨fileOp_chrootDir c os, ?_, fileOp_chrootEnd c os⟩
  split
  · exact fileOp_changeID c os
  · exact fileOp_nil

theorem fileOp_LogDaemon (c : LogD) (locked : Bool) :
    ∀ x ∈ LogDaemon c locked, isFileOp x = false := by
  unfold LogDaemon
  split
  · simp
  · split
    · simp [isFileOp]
    · split_ifs <;> simp [mute, cons, sysl, file, isFileOp, ShowInf, Show]

theorem fileOp_callScript (w : World) (call : Call) :
    ∀ x ∈ callScript w call, isFileOp x = false := by
  cases call with
  | LogDaemon c => exact fileOp_LogDaemon c _
  | Chroot c os =>
    intro x hx
    simp only [callScript, List.mem_append, List.mem_singleton] at hx
    rcases hx with hx | rfl
    · exact fileOp_Chroot c os x hx
    · rfl

theorem fileInv_init (prog : List Call) : FileInv (World.init prog) where
  script := by simp [World.init]
  buf := by simp [World.init]
  got := by simp [World.init]
  busy := by simp [World.init]
  written := by simp [World.init]

theorem get_append_new (l new : List Goroutine) (i : Nat) (g : Goroutine)
    (hg : (l ++ new).get? i = some g) : l.get? i = some g ∨ g ∈ new := by
  by_cases hi : i < l.length
  · rw [List.get?_eq_getElem?, List.getElem?_append_left hi] at hg
    exact Or.inl (by rw [List.get?_eq_getElem?]; exact hg)
  · right
    rw [List.get?_eq_getElem?, List.getElem?_append_right (by omega)] at hg
    obtain ⟨hlt, heq⟩ := List.getElem?_eq_some_iff.1 hg
    exact heq ▸ List.getElem_mem hlt

/-- Steps that leave `fileCons` alone, write nothing to the file, and at
most start goroutines. -/
theorem fileInv_grow (w w' : World) (evs : List (Tid × Op)) (new : List Goroutine)
    (h : FileInv w) (hevs : ∀ tid data ok, (tid, Op.fileWrite data ok) ∉ evs)
    (hnew : ∀ g ∈ new, g.pc = Pc.start)
    (hscript : ∀ x ∈ w'.script, isFileOp x = false)
    (f_file : w'.fileCons = w.fileCons)
    (f_tasks : w'.tasks = w.tasks ++ new) (f_trace : w'.trace = w.trace ++ evs) :
    FileInv w' := by
  refine ⟨hscript, ?_, ?_, ?_, ?_⟩
  · intro x hx
    rw [f_file] at hx
    rw [f_trace]
    exact line_mono _ _ _ (h.buf x hx)
  · intro i g m hg hpc
    rw [f_tasks] at hg
    rw [f_trace]
    rcases get_append_new _ _ _ _ hg with h1 | h1
    · exact List.mem_append_left _ (h.got i g m h1 hpc)
    · have := hnew g h1
      rw [hpc] at this
      simp at this
  · intro i g m hg hc hpc
    rw [f_tasks] at hg
    rw [f_trace]
    rcases get_append_new _ _ _ _ hg with h1 | h1
    · exact line_mono _ _ _ (h.busy i g m h1 hc hpc)
    · have := hnew g h1
      rw [hpc] at this
      simp at this
  · intro i data ok hx
    rw [f_trace] at hx ⊢
    rcases List.mem_append.1 hx with hx | hx
    · obtain ⟨x, h1, h2⟩ := h.written i data ok hx
      exact ⟨x, line_mono _ _ _ h1, h2⟩
    · exact absurd hx (hevs i data ok)

theorem get_set_cases (l : List Goroutine) (i k : Nat) (a g : Goroutine)
    (h : (l.set i a).get? k = some g) : (k = i ∧ g = a) ∨ l.get? k = some g := by
  rw [List.get?_eq_getElem?] at h ⊢
  by_cases hk : i = k
  · subst hk
    left
    by_cases hi : i < l.length
    · rw [List.getElem?_set_self hi] at h
      exact ⟨rfl, (Option.some.inj h).symm⟩
    · rw [List.getElem?_eq_none (by simp; omega)] at h
      simp at h
  · rw [List.getElem?_set_ne hk] at h
    exact Or.inr h

theorem foldl_fileCons_mem (ops : List Op) (w : World) :
    ∀ x ∈ (ops.foldl taskEffect w).fileCons, x ∈ w.fileCons ∨ Op.send Chan.fileCons x ∈ ops := by
  induction ops generalizing w with
  | nil => intro x hx; exact Or.inl hx
  | cons op ops ih =>
    intro x hx
    rw [List.foldl_cons] at hx
    rcases ih _ x hx with h | h
    · have : x ∈ w.fileCons ∨ op = Op.send Chan.fileCons x := by
        cases op <;> simp only [taskEffect] at h <;> try exact Or.inl h
        case send ch m =>
          cases ch <;> simp [World.setChan, World.chan] at h <;> try exact Or.inl h
          rcases h with h | h
          · exact Or.inl h
          · right; rw [h]
        case recv ch m =>
          cases ch <;> simp [World.setChan, World.chan] at h <;> try exact Or.inl h
          exact Or.inl (List.mem_of_mem_tail h)
        case wgDone =>
          left
          unfold World.wgAdd at h
          split at h <;> exact h
      rcases this with h | h
      · exact Or.inl h
      · exact Or.inr (h ▸ List.mem_cons_self _ _)
    · exact Or.inr (List.mem_cons_of_mem _ h)

/-- What a goroutine that moves on does to the log file. -/
theorem advance_file (t : Task) (c : LogD) (e : Env) (head : Option String) (n : Nat)
    (pc pc' : Pc) (ops : List Op) (h : advance t c e head n pc = Outcome.moved ops pc') :
    (∃ m, pc = Pc.ready ∧ pc' = Pc.busy m ∧ ops = [Op.recv t.chan m] ∧ head = some m) ∨
    ((∀ m, pc' ≠ Pc.busy m) ∧
      (∀ data ok, Op.fileWrite data ok ∈ ops →
        ∃ m, pc = Pc.busy m ∧ t = Task.fileWriter ∧ data = m ++ "\n") ∧
      (∀ x, Op.send Chan.fileCons x ∈ ops →
        ∃ m, pc = Pc.busy m ∧ t.chan ≠ Chan.fileCons ∧ x = "[" ++ e.now ++ fileTag t.chan ++ m)) := by
  rcases e with ⟨ok, err, now⟩
  cases pc with
  | start =>
    right
    cases ok <;> cases t <;> simp [advance, Task.priority] at h <;>
      obtain ⟨rfl, rfl⟩ := h <;> simp
  | dialed =>
    right
    simp [advance] at h
    obtain ⟨rfl, rfl⟩ := h
    simp
  | ready =>
    cases head with
    | none => simp [advance] at h
    | some m =>
      simp [advance] at h
      obtain ⟨rfl, rfl⟩ := h
      exact Or.inl ⟨m, rfl, rfl, rfl, rfl⟩
  | busy m =>
    right
    simp only [advance] at h
    cases t <;> simp only [handle] at h
    case fileWriter =>
      split at h <;> simp at h
      obtain ⟨rfl, rfl⟩ := h
      simp
    case fileInfo =>
      split at h <;> simp at h
      obtain ⟨rfl, rfl⟩ := h
      simp [Task.chan, fileTag]
    case fileDebug =>
      split at h <;> simp at h
      obtain ⟨rfl, rfl⟩ := h
      simp [Task.chan, fileTag]
    case fileErr =>
      split at h <;> simp at h
      obtain ⟨rfl, rfl⟩ := h
      simp [Task.chan, fileTag]
    all_goals
      simp at h
      obtain ⟨rfl, rfl⟩ := h
      simp [ShowInf, ShowErr, ShowDebug, Show]

/-- What a goroutine that panics has written to the log file. -/
theorem advance_file_crashed (t : Task) (c : LogD) (e : Env) (head : Option String) (n : Nat)
    (pc : Pc) (msg : String) (ops : List Op)
    (h : advance t c e head n pc = Outcome.crashed ops msg) :
    (∀ data ok, Op.fileWrite data ok ∈ ops →
        ∃ m, pc = Pc.busy m ∧ t = Task.fileWriter ∧ data = m ++ "\n") ∧
    (∀ x, Op.send Chan.fileCons x ∉ ops) := by
  rcases e with ⟨ok, err, now⟩
  cases pc with
  | start =>
    cases ok <;> cases t <;> simp [advance, Task.priority] at h <;>
      obtain ⟨rfl, -⟩ := h <;> simp [ShowErr, Show]
  | dialed => simp [advance] at h
  | ready => cases head <;> simp [advance] at h
  | busy m =>
    simp only [advance] at h
    cases t <;> simp only [handle] at h
    case fileWriter =>
      split at h <;> simp at h
      obtain ⟨rfl, -⟩ := h
      simp
    case fileInfo => split at h <;> simp at h
    case fileDebug => split at h <;> simp at h
    case fileErr => split at h <;> simp at h
    all_goals simp at h

/-- A step of goroutine `i`. -/
theorem fileInv_task (w w' : World) (i : Nat) (g : Goroutine) (ops : List Op) (now : String)
    (h : FileInv w) (hg : w.tasks.get? i = some g)
    (f_script : w'.script = w.script)
    (f_file : ∀ x ∈ w'.fileCons, x ∈ w.fileCons ∨ Op.send Chan.fileCons x ∈ ops)
    (f_trace : w'.trace = w.trace ++ ops.map (fun op => (Tid.task i, op)))
    (f_tasks : w'.tasks = w.tasks ∨ ∃ pc, w'.tasks = w.tasks.set i { g with pc := pc } ∧
      ∀ m, pc = Pc.busy m → Op.recv g.code.chan m ∈ ops ∧
        (g.code = Task.fileWriter → m ∈ w.fileCons))
    (hsend : ∀ x, Op.send Chan.fileCons x ∈ ops →
      ∃ m, g.pc = Pc.busy m ∧ g.code.chan ≠ Chan.fileCons ∧
        x = "[" ++ now ++ fileTag g.code.chan ++ m)
    (hwrite : ∀ data ok, Op.fileWrite data ok ∈ ops →
      ∃ m, g.pc = Pc.busy m ∧ g.code = Task.fileWriter ∧ data = m ++ "\n") :
    FileInv w' := by
  have hev : ∀ op, op ∈ ops → (Tid.task i, op) ∈ w'.trace := by
    intro op hop
    rw [f_trace]
    exact List.mem_append_right _ (List.mem_map.2 ⟨op, hop, rfl⟩)
  have hget : ∀ k g' m, w'.tasks.get? k = some g' → g'.pc = Pc.busy m →
      (w.tasks.get? k = some g') ∨
      (k = i ∧ g'.code = g.code ∧ Op.recv g.code.chan m ∈ ops ∧
        (g.code = Task.fileWriter → m ∈ w.fileCons)) := by
    intro k g' m hk hpc
    rcases f_tasks with e | ⟨pc, e, hb⟩
    · rw [e] at hk
      exact Or.inl hk
    · rw [e] at hk
      rcases get_set_cases _ _ _ _ _ hk with ⟨rfl, rfl⟩ | hk
      · right
        exact ⟨rfl, rfl, hb m hpc⟩
      · exact Or.inl hk
  refine ⟨by rw [f_script]; exact h.script, ?_, ?_, ?_, ?_⟩
  · intro x hx
    rw [f_trace]
    rcases f_file x hx with hx | hx
    · exact line_mono _ _ _ (h.buf x hx)
    · obtain ⟨m, hpc, hch, rfl⟩ := hsend x hx
      exact ⟨i, g.code.chan, now, m, hch, List.mem_append_left _ (h.got i g m hg hpc), rfl⟩
  · intro k g' m hk hpc
    rcases hget k g' m hk hpc with h1 | ⟨rfl, hc, hr, -⟩
    · rw [f_trace]
      exact List.mem_append_left _ (h.got k g' m h1 hpc)
    · rw [hc]
      exact hev _ hr
  · intro k g' m hk hc hpc
    rw [f_trace]
    apply line_mono
    rcases hget k g' m hk hpc with h1 | ⟨rfl, hc', -, hm⟩
    · exact h.busy k g' m h1 hc hpc
    · exact h.buf m (hm (hc' ▸ hc))
  · intro k data ok hx
    rw [f_trace] at hx ⊢
    rcases List.mem_append.1 hx with hx | hx
    · obtain ⟨x, h1, h2⟩ := h.written k data ok hx
      exact ⟨x, line_mono _ _ _ h1, h2⟩
    · obtain ⟨op, hop, heq⟩ := List.mem_map.1 hx
      simp only [Prod.mk.injEq] at heq
      obtain ⟨-, rfl⟩ := heq
      obtain ⟨m, hpc, hc, rfl⟩ := hwrite data ok hop
      exact ⟨m, line_mono _ _ _ (h.busy i g m hg hc hpc), rfl⟩

/-- Every step of the process keeps what holds of the log file. -/
theorem fileInv_step (w : World) (ch : Choice) (h : FileInv w) : FileInv (step w ch) := by
  unfold step
  split
  · exact h
  · cases ch with
    | caller =>
      simp only
      rcases stepCaller_cases w with e | ⟨call, calls, -, -, -, e⟩ |
        ⟨op, rest, calls, w1, hsrc, heff, e⟩
      · rw [e]; exact h
      · rw [e]
        exact ⟨h.script, h.buf, h.got, h.busy, h.written⟩
      · rw [e]
        have hall : isFileOp op = false ∧ ∀ x ∈ rest, isFileOp x = false := by
          rcases hsrc with ⟨hs, -⟩ | ⟨-, call, -, hcs⟩
          · exact ⟨h.script op (by rw [hs]; exact List.mem_cons_self _ _),
              fun x hx => h.script x (by rw [hs]; exact List.mem_cons_of_mem _ hx)⟩
          · have := fileOp_callScript w call
            rw [hcs] at this
            exact ⟨this op (List.mem_cons_self _ _),
              fun x hx => this x (List.mem_cons_of_mem _ hx)⟩
        obtain ⟨-, f2, f3, -⟩ := effect_fields w w1 op heff
        refine fileInv_grow w _ [(Tid.caller, op)] (opGo op) h ?_ ?_ hall.2
          (effect_fileCons w w1 op heff hall.1) f2 (by simp [f3])
        · intro tid data ok hx
          simp only [List.mem_singleton, Prod.mk.injEq] at hx
          have := hall.1
          rw [← hx.2] at this
          simp [isFileOp] at this
        · intro g hg
          cases op <;> simp [opGo] at hg
          rw [hg]
    | task i e =>
      simp only
      rcases stepTask_cases i e w with e1 | ⟨g, ops, pc, hg, ha, e1⟩ | ⟨g, ops, msg, hg, ha, e1⟩
      · rw [e1]; exact h
      · rw [e1]
        obtain ⟨-, f2, f3, f4, -⟩ := foldl_taskEffect ops w
        rcases advance_file _ _ _ _ _ _ _ _ ha with ⟨m, -, rfl, rfl, hh⟩ | ⟨hnb, hw, hsend⟩
        · refine fileInv_task w _ i g _ e.now h hg f4 (foldl_fileCons_mem _ w)
            (by show (List.foldl taskEffect w _).trace ++ _ = _; rw [f3])
            (Or.inr ⟨Pc.busy m,
              by show (List.foldl taskEffect w _).tasks.set _ _ = _; rw [f2], ?_⟩)
            (by simp) (by simp)
          intro m' hm'
          simp only [Pc.busy.injEq] at hm'
          subst hm'
          refine ⟨by simp, fun hc => ?_⟩
          rw [hc] at hh
          exact List.mem_of_mem_head? hh
        · exact fileInv_task w _ i g _ e.now h hg f4 (foldl_fileCons_mem _ w)
            (by show (List.foldl taskEffect w _).trace ++ _ = _; rw [f3])
            (Or.inr ⟨pc, by show (List.foldl taskEffect w _).tasks.set _ _ = _; rw [f2],
              fun m hm => absurd hm (hnb m)⟩) hsend hw
      · rw [e1]
        obtain ⟨hw, hns⟩ := advance_file_crashed _ _ _ _ _ _ _ _ ha
        exact fileInv_task w _ i g ops e.now h hg rfl (fun x hx => Or.inl hx) rfl (Or.inl rfl)
          (fun x hx => absurd hx (hns x)) hw
    | produce c msg =>
      simp only
      unfold stepProducer
      split
      · rename_i hc
        obtain ⟨-, f2, f3, f4, -⟩ := setChan_fields w c (w.chan c ++ [msg])
        refine fileInv_grow w _ [(Tid.producer, Op.send c msg)] [] h (by simp) (by simp)
          (by simpa [f4] using h.script) ?_ (by simp [f2]) rfl
        cases c <;> simp [World.setChan] at hc ⊢
      · exact h

theorem fileInv_run (sched : List Choice) (w : World) (h : FileInv w) :
    FileInv (run sched w) := by
  induction sched generalizing w with
  | nil => exact h
  | cons ch sched ih => exact ih (step w ch) (fileInv_step w ch h)

theorem fileText_mem (tr : List (Tid × Op)) (data : String) (h : data ∈ fileText tr) :
    ∃ tid, (tid, Op.fileWrite data true) ∈ tr := by
  induction tr with
  | nil => simp [fileText] at h
  | cons ev tr ih =>
    obtain ⟨tid, op⟩ := ev
    have hcases : (op = Op.fileWrite data true) ∨ data ∈ fileText tr := by
      cases op <;> try exact Or.inr (by simpa [fileText] using h)
      rename_i d ok
      cases ok
      · exact Or.inr (by simpa [fileText] using h)
      · simp only [fileText, List.mem_cons] at h
        rcases h with h | h
        · left; rw [h]
        · exact Or.inr h
    rcases hcases with rfl | h1
    · exact ⟨tid, List.mem_cons_self _ _⟩
    · obtain ⟨t, ht⟩ := ih h1
      exact ⟨t, List.mem_cons_of_mem _ ht⟩

/-- C5, as the code has it: in every execution, every line written to the
log file is a time stamp in brackets, a severity tag, a message that a
goroutine received on the channel of that severity, and a newline, where the
tag of an info line is `[INFO]` followed by two blanks and a colon, and the
tags of error and debug lines are `[ERROR]` and `[DEBUG]` followed by one
blank and a colon. -/
theorem file_line_format (prog : List Call) (sched : List Choice) :
    ∀ data ∈ fileText (run sched (World.init prog)).trace, ∃ j now m,
      (data = "[" ++ now ++ "] [INFO]  : " ++ m ++ "\n" ∧
        (Tid.task j, Op.recv Chan.LogInfo m) ∈ (run sched (World.init prog)).trace) ∨
      (data = "[" ++ now ++ "] [ERROR] : " ++ m ++ "\n" ∧
        (Tid.task j, Op.recv Chan.LogErr m) ∈ (run sched (World.init prog)).trace) ∨
      (data = "[" ++ now ++ "] [DEBUG] : " ++ m ++ "\n" ∧
        (Tid.task j, Op.recv Chan.LogDebug m) ∈ (run sched (World.init prog)).trace) := by
  intro data hd
  obtain ⟨tid, ht⟩ := fileText_mem _ data hd
  obtain ⟨x, ⟨j, ch, now, m, hch, hr, rfl⟩, rfl⟩ :=
    (fileInv_run sched _ (fileInv_init prog)).written tid data true ht
  refine ⟨j, now, m, ?_⟩
  cases ch with
  | LogInfo => exact Or.inl ⟨rfl, hr⟩
  | LogErr => exact Or.inr (Or.inl ⟨rfl, hr⟩)
  | LogDebug => exact Or.inr (Or.inr ⟨rfl, hr⟩)
  | fileCons => exact absurd rfl hch

theorem file_line_format_witness :
    "[2024-05-01T10:00:00Z] [ERROR] : b\n" ∈ fileText (run
      (List.replicate 7 Choice.caller ++
        [Choice.task 0 okEnv, Choice.task 1 okEnv, Choice.task 2 okEnv, Choice.task 3 okEnv,
         Choice.caller, Choice.produce Chan.LogErr "b",
         Choice.task 3 okEnv, Choice.task 3 ⟨true, "", "2024-05-01T10:00:00Z"⟩,
         Choice.task 0 okEnv, Choice.task 0 okEnv])
      (World.init [Call.LogDaemon ⟨"app", "FILE", "/var/log/app.log", 1⟩])).trace ∧
    ∃ j now m,
      ("[2024-05-01T10:00:00Z] [ERROR] : b\n" = "[" ++ now ++ "] [INFO]  : " ++ m ++ "\n" ∧
        (Tid.task j, Op.recv Chan.LogInfo m) ∈ (run
          (List.replicate 7 Choice.caller ++
            [Choice.task 0 okEnv, Choice.task 1 okEnv, Choice.task 2 okEnv, Choice.task 3 okEnv,
             Choice.caller, Choice.produce Chan.LogErr "b",
             Choice.task 3 okEnv, Choice.task 3 ⟨true, "", "2024-05-01T10:00:00Z"⟩,
             Choice.task 0 okEnv, Choice.task 0 okEnv])
          (World.init [Call.LogDaemon ⟨"app", "FILE", "/var/log/app.log", 1⟩])).trace) ∨
      ("[2024-05-01T10:00:00Z] [ERROR] : b\n" = "[" ++ now ++ "] [ERROR] : " ++ m ++ "\n" ∧
        (Tid.task j, Op.recv Chan.LogErr m) ∈ (run
          (List.replicate 7 Choice.caller ++
            [Choice.task 0 okEnv, Choice.task 1 okEnv, Choice.task 2 okEnv, Choice.task 3 okEnv,
             Choice.caller, Choice.produce Chan.LogErr "b",
             Choice.task 3 okEnv, Choice.task 3 ⟨true, "", "2024-05-01T10:00:00Z"⟩,
             Choice.task 0 okEnv, Choice.task 0 okEnv])
          (World.init [Call.LogDaemon ⟨"app", "FILE", "/var/log/app.log", 1⟩])).trace) ∨
      ("[2024-05-01T10:00:00Z] [ERROR] : b\n" = "[" ++ now ++ "] [DEBUG] : " ++ m ++ "\n" ∧
        (Tid.task j, Op.recv Chan.LogDebug m) ∈ (run
          (List.replicate 7 Choice.caller ++
            [Choice.task 0 okEnv, Choice.task 1 okEnv, Choice.task 2 okEnv, Choice.task 3 okEnv,
             Choice.caller, Choice.produce Chan.LogErr "b",
             Choice.task 3 okEnv, Choice.task 3 ⟨true, "", "2024-05-01T10:00:00Z"⟩,
             Choice.task 0 okEnv, Choice.task 0 okEnv])
          (World.init [Call.LogDaemon ⟨"app", "FILE", "/var/log/app.log", 1⟩])).trace) :=
  ⟨by decide, file_line_format _ _ _ (by decide)⟩

/-- C5 fails as stated: with the file backend, the messages `a`, `b`, `c`
submitted on the info, error and debug channels are written as three lines,
and the info line has two blanks between `[INFO]` and the colon, so it is
not the line of the stated format. -/
theorem file_info_line_two_blanks :
    fileText (run
      (List.replicate 7 Choice.caller ++
        [Choice.task 0 okEnv, Choice.task 1 okEnv, Choice.task 2 okEnv, Choice.task 3 okEnv,
         Choice.caller,
         Choice.produce Chan.LogInfo "a", Choice.produce Chan.LogErr "b",
         Choice.produce Chan.LogDebug "c",
         Choice.task 1 okEnv, Choice.task 1 ⟨true, "", "2024-05-01T10:00:00Z"⟩,
         Choice.task 0 okEnv, Choice.task 0 okEnv,
         Choice.task 3 okEnv, Choice.task 3 ⟨true, "", "2024-05-01T10:00:01Z"⟩,
         Choice.task 0 okEnv, Choice.task 0 okEnv,
         Choice.task 2 okEnv, Choice.task 2 ⟨true, "", "2024-05-01T10:00:02Z"⟩,
         Choice.task 0 okEnv, Choice.task 0 okEnv])
      (World.init [Call.LogDaemon ⟨"app", "FILE", "/var/log/app.log", 1⟩])).trace =
      ["[2024-05-01T10:00:00Z] [INFO]  : a\n", "[2024-05-01T10:00:01Z] [ERROR] : b\n",
       "[2024-05-01T10:00:02Z] [DEBUG] : c\n"] ∧
    "[2024-05-01T10:00:00Z] [INFO]  : a\n" ≠
      "[" ++ "2024-05-01T10:00:00Z" ++ "] [" ++ "INFO" ++ "] : " ++ "a" ++ "\n" := by
  decide

/-! ## Dispatch on the mode -/

theorem callScript_spawns (w : World) (call : Call) :
    ∀ x ∈ callScript w call, ∀ g ∈ opGo x, g ∈ spawns call := by
  intro x hx g hg
  cases call with
  | LogDaemon c =>
    simp only [callScript] at hx
    cases hm : w.mutexLogD
    · rw [hm] at hx
      exact List.mem_flatMap.2 ⟨x, hx, hg⟩
    · rw [hm] at hx
      unfold LogDaemon at hx
      split at hx
      · simp at hx
      · simp at hx
        rcases hx with rfl | rfl <;> simp [opGo] at hg
  | Chroot c os =>
    simp only [callScript, List.mem_append, List.mem_singleton] at hx
    rcases hx with hx | rfl
    · rw [(plain_facts x (plain_Chroot c os x hx)).2.1] at hg
      simp at hg
    · simp [opGo] at hg

theorem goInv_init (prog : List Call) : GoInv prog (World.init prog) where
  tasks := by simp [World.init]
  script := by simp [World.init]
  calls := by simp [World.init]

theorem opGo_start (op : Op) (g : Goroutine) (h : g ∈ opGo op) :
    (⟨g.code, g.cfg, Pc.start⟩ : Goroutine) = g := by
  cases op <;> simp [opGo] at h
  rw [h]

theorem goInv_step (prog : List Call) (w : World) (ch : Choice) (h : GoInv prog w) :
    GoInv prog (step w ch) := by
  unfold step
  split
  · exact h
  · cases ch with
    | caller =>
      simp only
      rcases stepCaller_cases w with e | ⟨call, calls, -, hc, -, e⟩ |
        ⟨op, rest, calls, w1, hsrc, heff, e⟩
      · rw [e]; exact h
      · rw [e]
        exact ⟨h.tasks, h.script, fun x hx => h.calls x (by rw [hc]; exact List.mem_cons_of_mem _ hx)⟩
      · rw [e]
        obtain ⟨-, f2, -⟩ := effect_fields w w1 op heff
        have hall : (∀ x ∈ op :: rest, ∀ g ∈ opGo x, ∃ call ∈ prog, g ∈ spawns call) ∧
            ∀ call ∈ calls, call ∈ prog := by
          rcases hsrc with ⟨hs, hc⟩ | ⟨-, call, hc, hcs⟩
          · exact ⟨by rw [← hs]; exact h.script, by rw [hc]; exact h.calls⟩
          · refine ⟨fun x hx g hg => ⟨call, h.calls call (by rw [hc]; exact List.mem_cons_self _ _),
              callScript_spawns w call x (by rw [hcs]; exact hx) g hg⟩,
              fun x hx => h.calls x (by rw [hc]; exact List.mem_cons_of_mem _ hx)⟩
        refine ⟨?_, fun x hx => hall.1 x (List.mem_cons_of_mem _ hx), hall.2⟩
        intro g hg
        simp only [f2, List.mem_append] at hg
        rcases hg with hg | hg
        · exact h.tasks g hg
        · rw [opGo_start op g hg]
          exact hall.1 op (List.mem_cons_self _ _) g hg
    | task i e =>
      simp only
      rcases stepTask_cases i e w with e1 | ⟨g, ops, pc, hg, ha, e1⟩ | ⟨g, ops, msg, hg, ha, e1⟩
      · rw [e1]; exact h
      · rw [e1]
        obtain ⟨-, f2, -, f4, f5, -⟩ := foldl_taskEffect ops w
        refine ⟨?_, by simp only [f4]; exact h.script, by simp only [f5]; exact h.calls⟩
        intro g' hg'
        simp only [f2] at hg'
        have hmem : g ∈ w.tasks := by
          rw [List.get?_eq_getElem?] at hg
          obtain ⟨hlt, heq⟩ := List.getElem?_eq_some_iff.1 hg
          exact heq ▸ List.getElem_mem hlt
        rcases List.mem_or_eq_of_mem_set hg' with h1 | rfl
        · exact h.tasks g' h1
        · exact h.tasks g hmem
      · rw [e1]
        exact ⟨h.tasks, h.script, h.calls⟩
    | produce c msg =>
      simp only
      unfold stepProducer
      split
      · obtain ⟨-, f2, -, f4, f5, -⟩ := setChan_fields w c (w.chan c ++ [msg])
        exact ⟨by simp only [f2]; exact h.tasks, by simp only [f4]; exact h.script,
          by simp only [f5]; exact h.calls⟩
      · exact h

theorem goInv_run (prog : List Call) (sched : List Choice) (w : World) (h : GoInv prog w) :
    GoInv prog (run sched w) := by
  induction sched generalizing w with
  | nil => exact h
  | cons ch sched ih => exact ih (step w ch) (goInv_step prog w ch h)

/-- C9: the dispatch of `LogDaemon` on `LogMode`. With the empty mode the
call has no operation at all: the step of the caller that makes the call
changes nothing in the process but the list of calls left. With the mode
`MUTE`, `CONSOLE`, `SYSLOG` or `FILE` the call takes the guard, adds 3 to
`waitLogD`, runs the initializer `mute`, `cons`, `sysl` or `file`, and waits,
and every goroutine of the process is one that initializer starts. With any
other mode the call takes the guard, adds 3 and panics with the message that
names the mode: no goroutine is ever started, and the process does panic. -/
theorem LogDaemon_dispatch (c : LogD) :
    (c.LogMode = "" →
      (∀ locked, LogDaemon c locked = []) ∧
      ∀ w calls, w.panicked = none → w.script = [] → w.calls = Call.LogDaemon c :: calls →
        step w Choice.caller = { w with calls := calls }) ∧
    (c.LogMode = "MUTE" →
      LogDaemon c false = [Op.tryLock true, Op.wgAdd 3] ++ mute c ++ [Op.wgWait] ∧
      ∀ sched, ∀ g ∈ (run sched (World.init [Call.LogDaemon c])).tasks,
        g.cfg = c ∧ g.code ∈ [Task.muteInfo, Task.muteErr, Task.muteDebug]) ∧
    (c.LogMode = "CONSOLE" →
      LogDaemon c false = [Op.tryLock true, Op.wgAdd 3] ++ cons c ++ [Op.wgWait] ∧
      ∀ sched, ∀ g ∈ (run sched (World.init [Call.LogDaemon c])).tasks,
        g.cfg = c ∧ g.code ∈ [Task.consInfo, Task.consErr, Task.consDebug]) ∧
    (c.LogMode = "SYSLOG" →
      LogDaemon c false = [Op.tryLock true, Op.wgAdd 3] ++ sysl c ++ [Op.wgWait] ∧
      ∀ sched, ∀ g ∈ (run sched (World.init [Call.LogDaemon c])).tasks,
        g.cfg = c ∧ g.code ∈ [Task.syslInfo, Task.syslErr, Task.syslDebug]) ∧
    (c.LogMode = "FILE" →
      LogDaemon c false = [Op.tryLock true, Op.wgAdd 3] ++ file c ++ [Op.wgWait] ∧
      ∀ sched, ∀ g ∈ (run sched (World.init [Call.LogDaemon c])).tasks,
        g.cfg = c ∧
        g.code ∈ [Task.fileWriter, Task.fileInfo, Task.fileDebug, Task.fileErr]) ∧
    (c.LogMode ≠ "" → c.LogMode ≠ "MUTE" → c.LogMode ≠ "CONSOLE" → c.LogMode ≠ "SYSLOG" →
        c.LogMode ≠ "FILE" →
      LogDaemon c false = [Op.tryLock true, Op.wgAdd 3,
        Op.panic ("log daemon - unable to continue [logmode:invalid:" ++ c.LogMode ++ "]"),
        Op.wgWait] ∧
      (∀ sched, (run sched (World.init [Call.LogDaemon c])).tasks = []) ∧
      (run [Choice.caller, Choice.caller, Choice.caller]
        (World.init [Call.LogDaemon c])).panicked =
        some ("log daemon - unable to continue [logmode:invalid:" ++ c.LogMode ++ "]")) := by
  have key : ∀ sched, ∀ g ∈ (run sched (World.init [Call.LogDaemon c])).tasks,
      (⟨g.code, g.cfg, Pc.start⟩ : Goroutine) ∈ (LogDaemon c false).flatMap opGo := by
    intro sched g hg
    obtain ⟨call, hcall, hs⟩ :=
      (goInv_run [Call.LogDaemon c] sched _ (goInv_init _)).tasks g hg
    simp only [List.mem_singleton] at hcall
    subst hcall
    exact hs
  refine ⟨?_, ?_, ?_, ?_, ?_, ?_⟩
  · intro h
    refine ⟨fun locked => by simp [LogDaemon, h], ?_⟩
    intro w calls hp hs hc
    simp [step, hp, stepCaller, hs, hc, callScript, LogDaemon, h]
  · intro h
    have hs : LogDaemon c false = [Op.tryLock true, Op.wgAdd 3] ++ mute c ++ [Op.wgWait] := by
      simp [LogDaemon, h]
    refine ⟨hs, fun sched g hg => ?_⟩
    have := key sched g hg
    rw [hs] at this
    simp [mute, opGo, ShowInf, Show] at this
    rcases this with ⟨h1, h2⟩ | ⟨h1, h2⟩ | ⟨h1, h2⟩ <;> simp [h1, h2]
  · intro h
    have hs : LogDaemon c false = [Op.tryLock true, Op.wgAdd 3] ++ cons c ++ [Op.wgWait] := by
      simp [LogDaemon, h]
    refine ⟨hs, fun sched g hg => ?_⟩
    have := key sched g hg
    rw [hs] at this
    simp [cons, opGo] at this
    rcases this with ⟨h1, h2⟩ | ⟨h1, h2⟩ | ⟨h1, h2⟩ <;> simp [h1, h2]
  · intro h
    have hs : LogDaemon c false = [Op.tryLock true, Op.wgAdd 3] ++ sysl c ++ [Op.wgWait] := by
      simp [LogDaemon, h]
    refine ⟨hs, fun sched g hg => ?_⟩
    have := key sched g hg
    rw [hs] at this
    simp [sysl, opGo] at this
    rcases this with ⟨h1, h2⟩ | ⟨h1, h2⟩ | ⟨h1, h2⟩ <;> simp [h1, h2]
  · intro h
    have hs : LogDaemon c false = [Op.tryLock true, Op.wgAdd 3] ++ file c ++ [Op.wgWait] := by
      simp [LogDaemon, h]
    refine ⟨hs, fun sched g hg => ?_⟩
    have := key sched g hg
    rw [hs] at this
    simp [file, opGo] at this
    rcases this with ⟨h1, h2⟩ | ⟨h1, h2⟩ | ⟨h1, h2⟩ | ⟨h1, h2⟩ <;> simp [h1, h2]
  · intro h0 h1 h2 h3 h4
    have hs : LogDaemon c false = [Op.tryLock true, Op.wgAdd 3,
        Op.panic ("log daemon - unable to continue [logmode:invalid:" ++ c.LogMode ++ "]"),
        Op.wgWait] := by
      simp [LogDaemon, h0, h1, h2, h3, h4]
    refine ⟨hs, fun sched => ?_, ?_⟩
    · apply List.eq_nil_iff_forall_not_mem.2
      intro g hg
      have := key sched g hg
      rw [hs] at this
      simp [opGo] at this
    · have a0 : At (World.init [Call.LogDaemon c]) [] [] 0 := ⟨rfl, rfl, rfl, rfl⟩
      have a1 := at_load c [] _ [] 0 a0 rfl rfl _ hs
      have a2 := at_add _ 3 _ [] 0 a1 (by norm_num)
      obtain ⟨hp, hsc, -, -⟩ := a2
      have := step_caller_script _ _ _ _ hp hsc rfl
      simp only [run, List.foldl_cons, List.foldl_nil]
      rw [this]

theorem LogDaemon_dispatch_witness :
    ("console" ≠ "" ∧ "console" ≠ "MUTE" ∧ "console" ≠ "CONSOLE" ∧ "console" ≠ "SYSLOG" ∧
      "console" ≠ "FILE") ∧
    (run [Choice.caller, Choice.caller, Choice.caller]
        (World.init [Call.LogDaemon ⟨"app", "console", "", 1⟩])).panicked =
      some ("log daemon - unable to continue [logmode:invalid:" ++ "console" ++ "]") ∧
    (run [Choice.caller, Choice.caller, Choice.caller]
        (World.init [Call.LogDaemon ⟨"app", "console", "", 1⟩])).tasks = [] :=
  ⟨by decide,
    ((LogDaemon_dispatch ⟨"app", "console", "", 1⟩).2.2.2.2.2 (by decide) (by decide) (by decide)
      (by decide) (by decide)).2.2,
    ((LogDaemon_dispatch ⟨"app", "console", "", 1⟩).2.2.2.2.2 (by decide) (by decide) (by decide)
      (by decide) (by decide)).2.1 _⟩

/-! ## Calling `LogDaemon` twice -/

/-- C6 does not hold of the code: the deferred `mutexLogD.Unlock()` of the
backend initializer releases the guard before the first call returns, so in
no execution does `TryLock` fail; and in the execution in which a second
`LogDaemon` call with mode `CONSOLE` follows the first after it has returned,
the second call takes the guard again, adds 3 again and starts three more
goroutines, six in all, and sends no notice on the info channel. -/
theorem LogDaemon_twice_starts_twice (prog : List Call) (sched : List Choice) :
    (Tid.caller, Op.tryLock false) ∉ (run sched (World.init prog)).trace ∧
    (run (List.replicate 6 Choice.caller ++
        [Choice.task 0 okEnv, Choice.task 1 okEnv, Choice.task 2 okEnv] ++
        List.replicate 7 Choice.caller)
      (World.init [Call.LogDaemon ⟨"app", "CONSOLE", "", 1⟩,
        Call.LogDaemon ⟨"app", "CONSOLE", "", 1⟩])).trace =
      [(Tid.caller, Op.tryLock true), (Tid.caller, Op.wgAdd 3),
        (Tid.caller, Op.go Task.consInfo ⟨"app", "CONSOLE", "", 1⟩),
        (Tid.caller, Op.go Task.consErr ⟨"app", "CONSOLE", "", 1⟩),
        (Tid.caller, Op.go Task.consDebug ⟨"app", "CONSOLE", "", 1⟩),
        (Tid.caller, Op.unlock),
        (Tid.task 0, Op.wgDone), (Tid.task 1, Op.wgDone), (Tid.task 2, Op.wgDone),
        (Tid.caller, Op.wgWait),
        (Tid.caller, Op.tryLock true), (Tid.caller, Op.wgAdd 3),
        (Tid.caller, Op.go Task.consInfo ⟨"app", "CONSOLE", "", 1⟩),
        (Tid.caller, Op.go Task.consErr ⟨"app", "CONSOLE", "", 1⟩),
        (Tid.caller, Op.go Task.consDebug ⟨"app", "CONSOLE", "", 1⟩),
        (Tid.caller, Op.unlock)] ∧
    (run (List.replicate 6 Choice.caller ++
        [Choice.task 0 okEnv, Choice.task 1 okEnv, Choice.task 2 okEnv] ++
        List.replicate 7 Choice.caller)
      (World.init [Call.LogDaemon ⟨"app", "CONSOLE", "", 1⟩,
        Call.LogDaemon ⟨"app", "CONSOLE", "", 1⟩])).tasks.length = 6 ∧
    (run (List.replicate 6 Choice.caller ++
        [Choice.task 0 okEnv, Choice.task 1 okEnv, Choice.task 2 okEnv] ++
        List.replicate 7 Choice.caller)
      (World.init [Call.LogDaemon ⟨"app", "CONSOLE", "", 1⟩,
        Call.LogDaemon ⟨"app", "CONSOLE", "", 1⟩])).LogInfo = [] :=
  ⟨(inv_run prog sched _ (inv_init prog)).locked, by decide, by decide, by decide⟩

end Logsec
